import Mathlib

/-!
# Verification of the Granola → Obsidian sync engine

A shallow embedding, in Lean 4, of the markdown-merge engine of the
`obsidian-granola-sync` repository (`granola_sync.py`, `utils.py`,
`process_transcripts.py`), together with proofs and refutations of the
specified properties.

Modelling conventions:

* Python strings are `List Char` (`Str` below); Python string methods
  (`split`, `replace`, `strip`, `startswith`, `in`, slicing) are embedded as
  executable functions on `Str` mirroring CPython semantics.
* The file system is a map from path strings to file contents
  (`Fs := Str → Option Str`); `write_text` is function update, `exists` is
  `Option.isSome`, directories are not modelled (`mkdir` is a no-op).
  `Path / name` is modelled as string concatenation with `"/"`; the folder
  entries of the configuration are assumed to be relative path strings (the
  only shape this system is configured with), and path normalisation
  (`..`, duplicate slashes) is outside the modelled domain.
* `datetime` values are calendar records (`DT`) with an optional UTC offset
  in seconds (`none` = naive).  `datetime.fromisoformat` is modelled for the
  dashed ISO-8601 forms (`YYYY-MM-DD[*HH[:MM[:SS[.ffffff]]][±HH:MM[:SS]|Z]]`);
  arithmetic is exact integer arithmetic on microseconds (the float rounding
  of `timedelta.total_seconds` is outside the modelled domain).
* `yaml.safe_load` is modelled on the block shape this system reads and
  writes: a top-level mapping of `key: scalar` lines with optional nested
  `- item` string lists, with PyYAML 1.1 scalar resolution for booleans
  (`yes/no/true/false/on/off` in their cased forms), null, decimal integers
  and `YYYY-MM-DD` dates.  Inputs outside this shape load as `none`,
  modelling a YAML error; PyYAML features not exercised by this repository
  (nested mappings, flow style, escapes in quoted scalars, floats, octal and
  sexagesimal integers) are outside the modelled domain.
* `json.loads` is a full recursive-descent JSON parser; numbers are kept as
  their lexemes.
* Exceptions are `Except PyErr`; an `.error` result models an exception
  propagating out of the embedded function.  Values whose runtime type the
  code inspects (`isinstance`) are embedded as tagged unions.
-/

set_option maxRecDepth 8000

deriving instance DecidableEq for Except

namespace Granola

/-- Python strings, modelled as lists of characters. -/
abbrev Str := List Char

/-- Python `s.startswith(p)`. -/
def startsW (p s : Str) : Bool := List.isPrefixOf p s

/-- Python `s.endswith(p)`. -/
def endsW (p s : Str) : Bool := List.isSuffixOf p s

/-- Leftmost occurrence of `pat` in `s`: `some (a, b)` with `s = a ++ pat ++ b`
and `a` shortest, `none` when `pat` does not occur (Python `s.find(pat)`). -/
def brkOn (pat : Str) : Str → Option (Str × Str)
  | [] => if pat = [] then some ([], []) else none
  | c :: rest =>
    if List.isPrefixOf pat (c :: rest) then some ([], (c :: rest).drop pat.length)
    else
      match brkOn pat rest with
      | some (a, b) => some (c :: a, b)
      | none => none

/-- Python `pat in s` (substring containment). -/
def hasSub (pat s : Str) : Bool := (brkOn pat s).isSome

/-- Python `s.split(sep, maxsplit)` for non-empty `sep`. -/
def pySplit (sep : Str) : Nat → Str → List Str
  | 0, s => [s]
  | n + 1, s =>
    match brkOn sep s with
    | none => [s]
    | some (a, b) => a :: pySplit sep n b

/-- Python `s.split(sep)` (unbounded) for non-empty `sep`: `s.length` splits
always suffice since every split consumes at least one character. -/
def pySplitAll (sep s : Str) : List Str := pySplit sep s.length s

/-- Python `s.replace(old, new)` for non-empty `old`. -/
def pyReplaceAux (old new : Str) : Nat → Str → Str
  | 0, s => s
  | n + 1, s =>
    match brkOn old s with
    | none => s
    | some (a, b) => a ++ new ++ pyReplaceAux old new n b

/-- Python `s.replace(old, new)` for non-empty `old`. -/
def pyReplace (old new s : Str) : Str := pyReplaceAux old new s.length s

/-- The characters Python's default `str.strip` removes (ASCII whitespace;
non-ASCII whitespace is outside the modelled domain). -/
def isPySpace (c : Char) : Bool :=
  c == ' ' || c == '\t' || c == '\n' || c == '\r' || c == '\x0b' || c == '\x0c'

/-- Python `s.lstrip()`. -/
def lstripStr (s : Str) : Str := s.dropWhile isPySpace

/-- Python `s.rstrip()`. -/
def rstripStr (s : Str) : Str := (s.reverse.dropWhile isPySpace).reverse

/-- Python `s.strip()`. -/
def stripStr (s : Str) : Str := rstripStr (lstripStr s)

/-- Join a list of strings with a separator (Python `sep.join(xs)`). -/
def joinWith (sep : Str) (xs : List Str) : Str := List.intercalate sep xs

/-- A decimal digit character. -/
def digitCh (n : Nat) : Char := Char.ofNat (48 + n % 10)

/-- Zero-padded two-digit field (`strftime` `%m`, `%d`, `%H`, `%M`; all such
fields are `< 100` at runtime, larger inputs are reduced mod 100). -/
def pad2 (n : Nat) : Str := [digitCh (n / 10), digitCh n]

/-- Zero-padded four-digit field (`strftime` `%Y`; Python years are always
between 1 and 9999, larger inputs are reduced mod 10000). -/
def pad4 (n : Nat) : Str :=
  [digitCh (n / 1000), digitCh (n / 100), digitCh (n / 10), digitCh n]

/-- Decimal digits of a natural number, accumulator form; the fuel (first
argument) only bounds the digit count, any value above it gives the same
result. -/
def natToStrAux : Nat → Nat → Str → Str
  | 0, _, acc => acc
  | fuel + 1, n, acc =>
    if n < 10 then digitCh n :: acc
    else natToStrAux fuel (n / 10) (digitCh (n % 10) :: acc)

/-- Python `str(n)` for a natural number. -/
def natToStr (n : Nat) : Str := natToStrAux (n + 1) n []

/-- Python `str(n)` for an integer. -/
def intToStr (n : Int) : Str :=
  if n < 0 then '-' :: natToStr (-n).toNat else natToStr n.toNat

/-! ## datetime -/

/-- A `datetime.datetime`: naive calendar fields plus an optional UTC offset
in seconds (`none` = naive). -/
structure DT where
  year : Nat
  month : Nat
  day : Nat
  hour : Nat
  minute : Nat
  second : Nat
  micro : Nat
  tzSeconds : Option Int
deriving DecidableEq

/-- Gregorian leap year. -/
def isLeap (y : Nat) : Bool := (y % 4 == 0 && y % 100 != 0) || y % 400 == 0

/-- Number of days in a month. -/
def daysInMonth (y m : Nat) : Nat :=
  if m = 2 then (if isLeap y then 29 else 28)
  else if m = 4 ∨ m = 6 ∨ m = 9 ∨ m = 11 then 30
  else 31

/-- Days since 1970-01-01 of a (valid) Gregorian date; the standard
days-from-civil formula. -/
def daysFromCivil (y m d : Nat) : Int :=
  let y' : Nat := if m ≤ 2 then y - 1 else y
  let era : Nat := y' / 400
  let yoe : Nat := y' - era * 400
  let mp : Nat := (m + 9) % 12
  let doy : Nat := (153 * mp + 2) / 5 + (d - 1)
  let doe : Nat := yoe * 365 + yoe / 4 - yoe / 100 + doy
  (era : Int) * 146097 + (doe : Int) - 719468

/-- Microseconds since the epoch of the naive (wall-clock) fields of a `DT`. -/
def naiveMicros (dt : DT) : Int :=
  daysFromCivil dt.year dt.month dt.day * 86400000000
    + (dt.hour : Int) * 3600000000 + (dt.minute : Int) * 60000000
    + (dt.second : Int) * 1000000 + (dt.micro : Int)

/-- `datetime` subtraction, in microseconds: defined for two naive or two
aware values, `none` models the `TypeError` raised on a mixed pair. -/
def dtSubMicros (a b : DT) : Option Int :=
  match a.tzSeconds, b.tzSeconds with
  | none, none => some (naiveMicros a - naiveMicros b)
  | some x, some y =>
    some ((naiveMicros a - x * 1000000) - (naiveMicros b - y * 1000000))
  | _, _ => none

/-- Read exactly `n` decimal digits from the front of a string. -/
def readDigits : Nat → Nat → Str → Option (Nat × Str)
  | 0, acc, s => some (acc, s)
  | _ + 1, _, [] => none
  | k + 1, acc, c :: s =>
    if c.isDigit then readDigits k (acc * 10 + (c.toNat - 48)) s else none

/-- Read 1 to `n` decimal digits (for ISO fractional seconds). -/
def readUpToDigits : Nat → Nat → Str → Nat × Nat × Str
  | 0, acc, s => (acc, 0, s)
  | k + 1, acc, s =>
    match s with
    | c :: rest =>
      if c.isDigit then
        let (v, cnt, r) := readUpToDigits k (acc * 10 + (c.toNat - 48)) rest
        (v, cnt + 1, r)
      else (acc, 0, s)
    | [] => (acc, 0, s)

/-- Parse the `±HH:MM[:SS]` or `Z` timezone tail of an ISO string, returning
the offset in seconds.  Rejects offsets of 24 hours or more, as
`datetime.timezone` does. -/
def parseTzTail (s : Str) : Option Int :=
  match s with
  | [] => none
  | ['Z'] => some 0
  | c :: rest =>
    if c = '+' ∨ c = '-' then do
      let (hh, r) ← readDigits 2 0 rest
      match r with
      | ':' :: r2 => do
        let (mm, r3) ← readDigits 2 0 r2
        let (ss, r4) ←
          match r3 with
          | ':' :: r5 => readDigits 2 0 r5
          | [] => some (0, ([] : Str))
          | _ => none
        if r4 = [] ∧ mm ≤ 59 ∧ ss ≤ 59 ∧ (hh * 3600 + mm * 60 + ss < 86400) then
          let total : Int := (hh : Int) * 3600 + (mm : Int) * 60 + (ss : Int)
          some (if c = '-' then -total else total)
        else none
      | _ => none
    else none

/-- Parse the time-of-day part `HH[:MM[:SS[.ffffff]]]` plus optional timezone
tail of an ISO string. -/
def parseTimeTail (s : Str) : Option (Nat × Nat × Nat × Nat × Option Int) := do
  let (hh, r) ← readDigits 2 0 s
  let (mi, se, us, r4) ←
    match r with
    | ':' :: r2 => do
      let (mm, r3) ← readDigits 2 0 r2
      match r3 with
      | ':' :: r5 => do
        let (ss, r6) ← readDigits 2 0 r5
        match r6 with
        | '.' :: r7 =>
          let (fv, cnt, r8) := readUpToDigits 6 0 r7
          if 1 ≤ cnt then
            let us := fv * (10 ^ (6 - cnt))
            some (mm, ss, us, r8)
          else none
        | _ => some (mm, ss, 0, r6)
      | _ => some (mm, 0, 0, r3)
    | _ => some (0, 0, 0, r)
  let tz ← if r4 = [] then some (none : Option Int) else (parseTzTail r4).map some
  if hh ≤ 23 ∧ mi ≤ 59 ∧ se ≤ 59 then some (hh, mi, se, us, tz) else none

/-- `datetime.fromisoformat`, modelled for the dashed ISO-8601 forms
`YYYY-MM-DD[*HH[:MM[:SS[.ffffff]]][±HH:MM[:SS]|Z]]` (`*` is any single
separator character).  Field ranges are validated as CPython does; the
compact undashed forms accepted by Python ≥ 3.11 are outside the modelled
domain. -/
def fromisoformat (s : Str) : Option DT := do
  let (y, r1) ← readDigits 4 0 s
  let r2 ← match r1 with | '-' :: t => some t | _ => none
  let (mo, r3) ← readDigits 2 0 r2
  let r4 ← match r3 with | '-' :: t => some t | _ => none
  let (d, r5) ← readDigits 2 0 r4
  if ¬ (1 ≤ y ∧ 1 ≤ mo ∧ mo ≤ 12 ∧ 1 ≤ d ∧ d ≤ daysInMonth y mo) then none
  else
    match r5 with
    | [] => some ⟨y, mo, d, 0, 0, 0, 0, none⟩
    | _ :: r6 => do
      let (hh, mi, se, us, tz) ← parseTimeTail r6
      some ⟨y, mo, d, hh, mi, se, us, tz⟩

/-- A parse attempt as the sync code performs it:
`datetime.fromisoformat(ts.replace("Z", "+00:00"))`. -/
def parseTs (s : Str) : Option DT :=
  fromisoformat (pyReplace ("Z".data) ("+00:00".data) s)

/-! ## Transcript entries -/

/-- The `text` field of a transcript entry: a string, a dict (with optional
string-valued `content` / `text` keys; other value types are outside the
modelled domain), or a value of any other type. -/
inductive TextV
  | s (v : Str)
  | d (content : Option Str) (innerText : Option Str)
  | other
deriving DecidableEq

/-- One transcript entry, with the fields the code reads.  Timestamps are
strings or absent (other runtime types are outside the modelled domain). -/
structure Entry where
  text : TextV
  start_timestamp : Option Str
  end_timestamp : Option Str
deriving DecidableEq

/-- The text-extraction loop of `get_transcript_text` (lines 92-100): keep
non-empty strings, coerce dicts through their `content`/`text` keys (always
appended, even when empty), skip other types. -/
def extractTexts : List Entry → List Str
  | [] => []
  | e :: es =>
    match e.text with
    | .s v => if v = [] then extractTexts es else v :: extractTexts es
    | .d c t => (c.getD (t.getD [])) :: extractTexts es
    | .other => extractTexts es

/-- `" ".join(current_paragraph)`. -/
def joinSp (xs : List Str) : Str := joinWith (" ".data) xs

/-- Does this entry text end in sentence-terminal punctuation
(`text.endswith((".", "!", "?"))`)? -/
def endsPunct (t : Str) : Bool :=
  endsW (".".data) t || endsW ("!".data) t || endsW ("?".data) t

/-- The paragraph-grouping loop of `get_transcript_text` (lines 106-115),
with state (finished paragraphs, current paragraph). -/
def groupLoop : List Str → List Str → List Str → List Str × List Str
  | paragraphs, current, [] => (paragraphs, current)
  | paragraphs, current, t :: ts =>
    let cur := current ++ [t]
    if (decide (10 ≤ cur.length) || endsPunct t)
        && decide (500 < (joinSp cur).length) then
      groupLoop (paragraphs ++ [joinSp cur]) [] ts
    else groupLoop paragraphs cur ts

/-- `get_transcript_text`. -/
def get_transcript_text (entries : List Entry) : Str :=
  if entries = [] then []
  else
    let texts := extractTexts entries
    if texts = [] then []
    else
      let (ps, cur) := groupLoop [] [] texts
      let ps := if cur = [] then ps else ps ++ [joinSp cur]
      joinWith ("\n\n".data) ps

/-- `calculate_duration`. -/
def calculate_duration (entries : List Entry) : Int :=
  match entries with
  | [] => 0
  | [_] => 0
  | e0 :: e1 :: rest =>
    let first := e0.start_timestamp.getD []
    let last := (List.getLastD (e1 :: rest) e0).end_timestamp.getD []
    if first = [] ∨ last = [] then 0
    else
      match parseTs first, parseTs last with
      | some s, some en =>
        match dtSubMicros en s with
        | some d => Int.tdiv d 60000000
        | none => 0
      | _, _ => 0

/-! ## Frontmatter values -/

/-- Values appearing in frontmatter mappings: the runtime shapes this system
writes and reads back through `yaml.safe_load` (strings, booleans, integers,
lists, `None`, and the `datetime.date` values PyYAML produces for
`YYYY-MM-DD` scalars). -/
inductive FmVal
  | str (s : Str)
  | bool (b : Bool)
  | int (n : Int)
  | list (items : List FmVal)
  | null
  | date (y m d : Nat)

mutual

/-- Decidable equality for `FmVal` (hand-rolled because of the nested list). -/
def decEqFmVal : (a b : FmVal) → Decidable (a = b)
  | .str a, .str b =>
    match decEq a b with
    | isTrue h => isTrue (by rw [h])
    | isFalse h => isFalse (by simp [h])
  | .bool a, .bool b =>
    match decEq a b with
    | isTrue h => isTrue (by rw [h])
    | isFalse h => isFalse (by simp [h])
  | .int a, .int b =>
    match decEq a b with
    | isTrue h => isTrue (by rw [h])
    | isFalse h => isFalse (by simp [h])
  | .list a, .list b =>
    match decEqFmValList a b with
    | isTrue h => isTrue (by rw [h])
    | isFalse h => isFalse (by simp [h])
  | .null, .null => isTrue rfl
  | .date a b c, .date d e f =>
    match decEq a d, decEq b e, decEq c f with
    | isTrue h1, isTrue h2, isTrue h3 => isTrue (by rw [h1, h2, h3])
    | isFalse h1, _, _ => isFalse (by simp [h1])
    | _, isFalse h2, _ => isFalse (by simp [h2])
    | _, _, isFalse h3 => isFalse (by simp [h3])
  | .str _, .bool _ => isFalse (by simp)
  | .str _, .int _ => isFalse (by simp)
  | .str _, .list _ => isFalse (by simp)
  | .str _, .null => isFalse (by simp)
  | .str _, .date _ _ _ => isFalse (by simp)
  | .bool _, .str _ => isFalse (by simp)
  | .bool _, .int _ => isFalse (by simp)
  | .bool _, .list _ => isFalse (by simp)
  | .bool _, .null => isFalse (by simp)
  | .bool _, .date _ _ _ => isFalse (by simp)
  | .int _, .str _ => isFalse (by simp)
  | .int _, .bool _ => isFalse (by simp)
  | .int _, .list _ => isFalse (by simp)
  | .int _, .null => isFalse (by simp)
  | .int _, .date _ _ _ => isFalse (by simp)
  | .list _, .str _ => isFalse (by simp)
  | .list _, .bool _ => isFalse (by simp)
  | .list _, .int _ => isFalse (by simp)
  | .list _, .null => isFalse (by simp)
  | .list _, .date _ _ _ => isFalse (by simp)
  | .null, .str _ => isFalse (by simp)
  | .null, .bool _ => isFalse (by simp)
  | .null, .int _ => isFalse (by simp)
  | .null, .list _ => isFalse (by simp)
  | .null, .date _ _ _ => isFalse (by simp)
  | .date _ _ _, .str _ => isFalse (by simp)
  | .date _ _ _, .bool _ => isFalse (by simp)
  | .date _ _ _, .int _ => isFalse (by simp)
  | .date _ _ _, .list _ => isFalse (by simp)
  | .date _ _ _, .null => isFalse (by simp)

/-- Decidable equality for lists of `FmVal`. -/
def decEqFmValList : (a b : List FmVal) → Decidable (a = b)
  | [], [] => isTrue rfl
  | [], _ :: _ => isFalse (by simp)
  | _ :: _, [] => isFalse (by simp)
  | x :: xs, y :: ys =>
    match decEqFmVal x y, decEqFmValList xs ys with
    | isTrue h1, isTrue h2 => isTrue (by rw [h1, h2])
    | isFalse h1, _ => isFalse (by simp [h1])
    | _, isFalse h2 => isFalse (by simp [h2])

end

instance : DecidableEq FmVal := decEqFmVal

/-- Python truthiness of a frontmatter value. -/
def fmTruthy : FmVal → Bool
  | .str s => !s.isEmpty
  | .bool b => b
  | .int n => n != 0
  | .null => false
  | .date _ _ _ => true
  | .list l => !l.isEmpty

mutual

/-- Python `str(v)` for a frontmatter value (`str` of a `datetime.date` is its
ISO form; `str` of a list uses `repr` of the elements). -/
def pyStrV : FmVal → Str
  | .str s => s
  | .bool b => if b then "True".data else "False".data
  | .int n => intToStr n
  | .null => "None".data
  | .date y m d => pad4 y ++ ['-'] ++ pad2 m ++ ['-'] ++ pad2 d
  | .list items => '[' :: (joinWith (", ".data) (pyReprList items) ++ [']'])

/-- Python `repr(v)` for each element of a list (a string gains quotes; for
the other shapes written by this system `repr` coincides with `str`;
`repr` of nested `date` values is outside the modelled domain). -/
def pyReprList : List FmVal → List Str
  | [] => []
  | .str s :: rest => ('\'' :: (s ++ ['\''])) :: pyReprList rest
  | v :: rest => pyStrV v :: pyReprList rest

end

/-- Is this value a Python `list`? -/
def isListV : FmVal → Bool
  | .list _ => true
  | _ => false

/-- Is this value a Python `bool`? -/
def isBoolV : FmVal → Bool
  | .bool _ => true
  | _ => false

/-- Does this string value contain a colon or a double quote
(`":" in value or '"' in value`)? -/
def strNeedsQuote : FmVal → Bool
  | .str s => s.contains ':' || s.contains '"'
  | _ => false

/-- Is this value a string (for the `isinstance(value, str)` guard)? -/
def isStrV : FmVal → Bool
  | .str _ => true
  | _ => false

/-- The items of a list value. -/
def listItems : FmVal → List FmVal
  | .list l => l
  | _ => []

/-- The frontmatter-serialisation loop shared, line for line, by
`generate_transcript_file` (granola_sync.py 266-276),
`utils.format_frontmatter` (utils.py 82-92) and
`process_transcripts.update_frontmatter` (process_transcripts.py 114-124):
`attendees`-named lists become nested bullet blocks, booleans lowercase
literals, strings containing `:` or `"` are double-quoted, everything else is
emitted bare via `str()`. -/
def fmLines : List (Str × FmVal) → List Str
  | [] => []
  | (k, v) :: rest =>
    (if k = ("attendees".data) ∧ isListV v then
      ("attendees:".data) :: (listItems v).map (fun a => ("  - ".data) ++ pyStrV a)
    else if isBoolV v then
      [k ++ (": ".data) ++ (if v = .bool true then "true".data else "false".data)]
    else if isStrV v ∧ strNeedsQuote v then
      [k ++ (": \"".data) ++ pyStrV v ++ ("\"".data)]
    else
      [k ++ (": ".data) ++ pyStrV v]) ++ fmLines rest

/-! ## The file system and configuration -/

/-- The file system: a map from path strings to file contents. -/
def Fs := Str → Option Str

/-- `path.write_text(content)`. -/
def fsWrite (fs : Fs) (p c : Str) : Fs := fun q => if q = p then some c else fs q

/-- Configuration after `load_config`: the vault root and the two folder
names, as plain relative path strings. -/
structure Config where
  vault : Str
  transcriptsFolder : Str
  dailyFolder : Str

/-- Exception classes that can propagate out of the embedded functions. -/
inductive PyErr
  | valueError
  | typeError
  | attrError
deriving DecidableEq

/-! ## Source records -/

/-- One element of an attendee list: a string, a dict with optional
string-valued `email`/`name` keys, or a value of another type. -/
inductive PItem
  | pstr (s : Str)
  | pobj (email : Option Str) (nm : Option Str)
  | pother
deriving DecidableEq

/-- The value found under the `attendees` key of a `people` dict: a list or
something else. -/
inductive AttV
  | alist (items : List PItem)
  | anotList
deriving DecidableEq

/-- The `people` field of a document: a dict (new structure), a list (old
structure), or another type. -/
inductive PeopleV
  | pdict (att : Option AttV)
  | plist (items : List PItem)
  | pother
deriving DecidableEq

/-- A notes field value: a string or a value of another runtime type with
the given truthiness. -/
inductive NoteV
  | s (v : Str)
  | other (truthy : Bool)
deriving DecidableEq

/-- Python truthiness of a notes value. -/
def noteTruthy : NoteV → Bool
  | .s v => !v.isEmpty
  | .other t => t

/-- A source record (`documents[id]`), with the fields the code reads.
Each document is assumed to be a non-empty mapping: an empty `{}` document
behaves exactly like an absent one (granola_sync.py 497) and is represented
by absence from the documents list. -/
structure PyDoc where
  title : Option Str
  created_at : Option Str
  notes_markdown : Option NoteV
  notes_plain : Option NoteV
  notes : Option NoteV
  people : PeopleV
deriving DecidableEq

/-- First-match association lookup (Python dict access; keys are unique). -/
def assocFind {α : Type} : List (Str × α) → Str → Option α
  | [], _ => none
  | (k, v) :: rest, i => if k = i then some v else assocFind rest i

/-! ## granola_sync.py: filenames and dates -/

/-- The characters `sanitize_filename` removes. -/
def badFileChar (c : Char) : Bool :=
  c == '<' || c == '>' || c == ':' || c == '"' || c == '/' || c == '\\' ||
  c == '|' || c == '?' || c == '*'

/-- `sanitize_filename`. -/
def sanitize_filename (title : Str) : Str :=
  let s := title.filter (fun c => !badFileChar c)
  let s := stripStr s
  if 100 < s.length then stripStr (s.take 100) else s

/-- `strftime("%Y-%m-%d")`. -/
def fmtYmd (dt : DT) : Str :=
  pad4 dt.year ++ ['-'] ++ pad2 dt.month ++ ['-'] ++ pad2 dt.day

/-- `strftime("%H%M")`. -/
def fmtHM (dt : DT) : Str := pad2 dt.hour ++ pad2 dt.minute

/-- `get_meeting_date`, with `datetime.now()` supplied as a parameter. -/
def get_meeting_date (entries : List Entry) (doc : PyDoc) (now : DT) : DT :=
  let fromCreated :=
    let c := doc.created_at.getD []
    if c = [] then now
    else
      match parseTs c with
      | some dt => dt
      | none => now
  match entries with
  | [] => fromCreated
  | e :: _ =>
    let ts := e.start_timestamp.getD []
    if ts = [] then fromCreated
    else
      match parseTs ts with
      | some dt => dt
      | none => fromCreated

/-- The per-item loop of `get_attendees`: a dict contributes
`email or name` (appended only when truthy), a string is appended as is. -/
def collectAtts : List PItem → List Str
  | [] => []
  | .pstr s :: rest => s :: collectAtts rest
  | .pobj em nm :: rest =>
    let e :=
      match em with
      | some s => if s.isEmpty then nm.getD [] else s
      | none => nm.getD []
    if e.isEmpty then collectAtts rest else e :: collectAtts rest
  | .pother :: rest => collectAtts rest

/-- `get_attendees`. -/
def get_attendees (doc : PyDoc) : List Str :=
  match doc.people with
  | .pdict att =>
    match att.getD (.alist []) with
    | .alist items => collectAtts items
    | .anotList => []
  | .plist items => collectAtts items
  | .pother => []

/-- The notes-priority chain of `generate_transcript_file` (lines 233-245):
markdown, then plain, then raw, each only when a non-empty string. -/
def noteStrOf (o : Option NoteV) : Option Str :=
  match o with
  | some (.s v) => if v.isEmpty then none else some v
  | _ => none

/-- The chosen notes text of `generate_transcript_file`. -/
def pickNotes (doc : PyDoc) : Str :=
  (noteStrOf doc.notes_markdown).getD
    ((noteStrOf doc.notes_plain).getD ((noteStrOf doc.notes).getD []))

/-! ## granola_sync.py: transcript file generation -/

/-- `config["obsidian_vault"] / config["transcripts_folder"]`. -/
def transcriptsDir (cfg : Config) : Str := cfg.vault ++ ('/' :: cfg.transcriptsFolder)

/-- The base transcript path `{dir}/{date} - {title}.md`. -/
def basePathOf (cfg : Config) (date_str safe_title : Str) : Str :=
  transcriptsDir cfg ++ ('/' :: (date_str ++ (" - ".data) ++ safe_title)) ++ (".md".data)

/-- The alternate transcript path `{dir}/{date} - {title} ({HHMM}).md`. -/
def altPathOf (cfg : Config) (date_str safe_title time_str : Str) : Str :=
  transcriptsDir cfg ++
    ('/' :: (date_str ++ (" - ".data) ++ safe_title ++ (" (".data) ++ time_str ++ (")".data)))
    ++ (".md".data)

/-- The identity marker `generate_transcript_file` searches for
(`f"granola_id: {doc_id}" in existing_content`). -/
def checkStr (doc_id : Str) : Str := ("granola_id: ".data) ++ doc_id

/-- The full content written by `generate_transcript_file` (lines 232-293):
frontmatter block, Notes section (or its fixed placeholder), divider,
Transcript section. -/
def genContent (doc_id : Str) (doc : PyDoc) (entries : List Entry)
    (date_str title : Str) : Str :=
  let notes := pickNotes doc
  let duration := calculate_duration entries
  let atts := get_attendees doc
  let fmData : List (Str × FmVal) :=
    [(("date".data), .str date_str), (("title".data), .str title),
     (("source".data), .str ("granola".data)), (("granola_id".data), .str doc_id),
     (("duration_minutes".data), .int duration),
     (("entry_count".data), .int (entries.length : Int)),
     (("processed".data), .bool false)] ++
    (if atts.isEmpty then [] else [(("attendees".data), .list (atts.map .str))])
  let frontmatter := joinWith ("\n".data) ((("---".data) :: fmLines fmData) ++ [("---".data)])
  let tText := get_transcript_text entries
  let parts :=
    [frontmatter, []] ++
    (if notes.isEmpty then
      [("## Notes".data), [],
       ("*No AI notes available - will be generated during processing*".data), [],
       ("---".data), []]
    else [("## Notes".data), [], notes, [], ("---".data), []]) ++
    [("## Transcript".data), [], tText]
  joinWith ("\n".data) parts

/-- `generate_transcript_file`: resolve the target path (skip on identity
match, fall back to a time-suffixed alternate on a name collision), and
write the assembled document when creating.  Returns
`(file_path, was_created)` and the updated file system; `mkdir` is not
modelled. -/
def generate_transcript_file (doc_id : Str) (doc : PyDoc) (entries : List Entry)
    (cfg : Config) (now : DT) (fs : Fs) : Str × Bool × Fs :=
  let title := doc.title.getD ("Untitled Meeting".data)
  let mdt := get_meeting_date entries doc now
  let date_str := fmtYmd mdt
  let time_str := fmtHM mdt
  let safe_title := sanitize_filename title
  let base := basePathOf cfg date_str safe_title
  match fs base with
  | some existing =>
    if hasSub (checkStr doc_id) existing then (base, false, fs)
    else
      let alt := altPathOf cfg date_str safe_title time_str
      match fs alt with
      | some _ => (alt, false, fs)
      | none =>
        let content := genContent doc_id doc entries date_str title
        (alt, true, fsWrite fs alt content)
  | none =>
    let content := genContent doc_id doc entries date_str title
    (base, true, fsWrite fs base content)

/-! ## granola_sync.py: daily files -/

/-- `get_daily_file_path`. -/
def get_daily_file_path (mdt : DT) (cfg : Config) : Str :=
  cfg.vault ++ ('/' :: cfg.dailyFolder) ++ ('/' :: fmtYmd mdt) ++ (".md".data)

/-- `strftime("%A")` (C locale). 1970-01-01 was a Thursday. -/
def dayName (dt : DT) : Str :=
  let w := ((daysFromCivil dt.year dt.month dt.day + 3) % 7).toNat
  (List.getD [("Monday".data), ("Tuesday".data), ("Wednesday".data), ("Thursday".data),
    ("Friday".data), ("Saturday".data), ("Sunday".data)] w [])

/-- The fixed daily template of `create_daily_file` (lines 323-346). -/
def dailyTemplate (dt : DT) : Str :=
  ("# ".data) ++ fmtYmd dt ++ (" (".data) ++ dayName dt ++
  (")\n\n## Schedule\n| Time | What |\n|------|------|\n\n---\n\n## Work\n\n---\n\n## Meetings\n\n---\n\n## Social / Follow-ups\n\n---\n\n## Brain Dump\n\n---\n".data)

/-- `create_daily_file`: write the template only when the file is absent. -/
def create_daily_file (mdt : DT) (cfg : Config) (fs : Fs) : Fs :=
  let p := get_daily_file_path mdt cfg
  match fs p with
  | some _ => fs
  | none => fsWrite fs p (dailyTemplate mdt)

/-- `transcript_path.relative_to(vault)`, on the constructed path strings of
this system: strip the `vault ++ "/"` path fragment; `none` models the
`ValueError` raised when the path is not under the vault. -/
def relativeToVault (vault tpath : Str) : Option Str :=
  if List.isPrefixOf (vault ++ ['/']) tpath then some (tpath.drop (vault.length + 1))
  else none

/-- The notes-to-bullets reformatting of `add_meeting_to_daily`
(lines 388-398). -/
def bulletize (summary : Str) : Str :=
  if summary.isEmpty ∨ startsW ("-".data) summary ∨ startsW ("*Notes".data) summary then
    summary
  else
    let ls := (pySplitAll ("\n".data) summary).take 5
    let bullet_lines := ls.foldr (fun line acc =>
      let line := stripStr line
      if line.isEmpty then acc
      else if startsW ("-".data) line then line :: acc
      else (("- ".data) ++ line) :: acc) []
    if bullet_lines.isEmpty then summary else joinWith ("\n".data) bullet_lines

/-- The meeting entry block `add_meeting_to_daily` inserts (lines 400-404). -/
def meetingEntry (title summary_notes link : Str) : Str :=
  ('\n' :: ("### ".data)) ++ title ++ ('\n' :: summary_notes) ++
  ("\n*→ [[".data) ++ link ++ ("]]*\n".data)

/-- The single-`## Meetings`-occurrence branch of `add_meeting_to_daily`
(lines 410-425): insert the entry immediately before the next second-level
heading inside the section, or — when no later heading exists — at the
(right-stripped) end. -/
def addMeetingSplice (daily title summary_notes link before after : Str) (fs : Fs) :
    Except PyErr Bool × Fs :=
  let entry := meetingEntry title summary_notes link
  match brkOn ("\n## ".data) after with
  | some (mid, post) =>
    let c := before ++ ("## Meetings".data) ++ mid ++ entry ++ ("\n## ".data) ++ post
    (.ok true, fsWrite fs daily c)
  | none =>
    let c := before ++ ("## Meetings".data) ++ rstripStr after ++ entry ++ ("\n".data)
    (.ok true, fsWrite fs daily c)

/-- The two trailing branches of `add_meeting_to_daily` (lines 427-441):
create a `## Meetings` section immediately before `## Brain Dump`
(replacing every occurrence), or append one at the end. -/
def addMeetingFallback (daily title summary_notes link content : Str) (fs : Fs) :
    Except PyErr Bool × Fs :=
  let entry := meetingEntry title summary_notes link
  if hasSub ("## Brain Dump".data) content then
    let c := pyReplace ("## Brain Dump".data)
      (("## Meetings\n".data) ++ entry ++ ("\n---\n\n## Brain Dump".data)) content
    (.ok true, fsWrite fs daily c)
  else
    let c := rstripStr content ++ ("\n\n## Meetings\n".data) ++ entry
    (.ok true, fsWrite fs daily c)

/-- `add_meeting_to_daily`: ensure the day file exists, no-op when the
wiki-link token already appears, otherwise splice a meeting entry into the
`## Meetings` section (creating it before `## Brain Dump`, or at the end, when
missing).  Returns the result (`.error` models an uncaught exception; writes
made before the raise persist) together with the updated file system. -/
def add_meeting_to_daily (mdt : DT) (title : Str) (notes : NoteV) (tpath : Str)
    (cfg : Config) (fs : Fs) : Except PyErr Bool × Fs :=
  let daily := get_daily_file_path mdt cfg
  let fs := if (fs daily).isSome then fs else create_daily_file mdt cfg fs
  let content := (fs daily).getD []
  match relativeToVault cfg.vault tpath with
  | none => (.error .valueError, fs)
  | some rel =>
    let link := pyReplace (".md".data) [] rel
    if hasSub (("[[".data) ++ link ++ ("]]".data)) content then (.ok false, fs)
    else
      match (if noteTruthy notes then none else some ("*Notes pending*".data)),
            notes with
      | some placeholder, _ => addMeetingWrite daily title placeholder link content fs
      | none, .other _ => (.error .attrError, fs)
      | none, .s v =>
        let summary := stripStr v
        let summary := if 500 < summary.length then summary.take 500 ++ ("...".data) else summary
        addMeetingWrite daily title (bulletize summary) link content fs
where
  /-- The insertion tail of `add_meeting_to_daily` (lines 406-441), after the
  summary text has been prepared. -/
  addMeetingWrite (daily title summary_notes link content : Str) (fs : Fs) :
      Except PyErr Bool × Fs :=
    if hasSub ("## Meetings".data) content then
      match pySplitAll ("## Meetings".data) content with
      | [before, after] => addMeetingSplice daily title summary_notes link before after fs
      | _ => addMeetingFallback daily title summary_notes link content fs
    else addMeetingFallback daily title summary_notes link content fs

/-! ## granola_sync.py: the sync loop -/

/-- The counters `sync_transcripts` returns. -/
structure Stats where
  created : Nat
  skipped : Nat
  daily : Nat
  errors : Nat
deriving DecidableEq

/-- Keep a truthy notes value, collapse a falsy one to `""`. -/
def noteOrEmpty (v : NoteV) : NoteV := if noteTruthy v then v else .s []

/-- `doc.get("notes_markdown") or doc.get("notes_plain") or ""`
(granola_sync.py 513), by Python truthiness. -/
def orNotes (a b : Option NoteV) : NoteV :=
  match a with
  | some va => if noteTruthy va then va else noteOrEmpty (b.getD (.s []))
  | none => noteOrEmpty (b.getD (.s []))

/-- One iteration of the `sync_transcripts` loop (lines 492-522): skip empty
transcripts and unknown documents, create the transcript file, and on
creation add the meeting to the daily file (exceptions are caught and
counted). -/
def syncStep (cfg : Config) (now : DT) (docs : List (Str × PyDoc))
    (st : Stats × Fs) (item : Str × List Entry) : Stats × Fs :=
  let (stats, fs) := st
  let (doc_id, entries) := item
  if entries.isEmpty then (stats, fs)
  else
    match assocFind docs doc_id with
    | none => (stats, fs)
    | some doc =>
      let (p, created, fs1) := generate_transcript_file doc_id doc entries cfg now fs
      if created then
        let mdt := get_meeting_date entries doc now
        let title := doc.title.getD ("Untitled Meeting".data)
        let notes := orNotes doc.notes_markdown doc.notes_plain
        match add_meeting_to_daily mdt title notes p cfg fs1 with
        | (.ok true, fs2) => (⟨stats.created + 1, stats.skipped, stats.daily + 1, stats.errors⟩, fs2)
        | (.ok false, fs2) => (⟨stats.created + 1, stats.skipped, stats.daily, stats.errors⟩, fs2)
        | (.error _, fs2) => (⟨stats.created + 1, stats.skipped, stats.daily, stats.errors + 1⟩, fs2)
      else (⟨stats.created, stats.skipped + 1, stats.daily, stats.errors⟩, fs1)

/-- `sync_transcripts`: fold the step over the cache's transcripts mapping
(dict iteration in insertion order; the cache is passed as its parsed
`documents` and `transcripts` association lists). -/
def sync_transcripts (cfg : Config) (now : DT) (docs : List (Str × PyDoc))
    (trans : List (Str × List Entry)) (fs : Fs) : Stats × Fs :=
  trans.foldl (syncStep cfg now docs) (⟨0, 0, 0, 0⟩, fs)

/-! ## The yaml.safe_load model and the frontmatter codec -/

/-- The cased boolean words PyYAML's 1.1 resolver maps to `True`. -/
def yamlTrueWords : List Str :=
  [("yes".data), ("Yes".data), ("YES".data), ("true".data), ("True".data),
   ("TRUE".data), ("on".data), ("On".data), ("ON".data)]

/-- The cased boolean words PyYAML's 1.1 resolver maps to `False`. -/
def yamlFalseWords : List Str :=
  [("no".data), ("No".data), ("NO".data), ("false".data), ("False".data),
   ("FALSE".data), ("off".data), ("Off".data), ("OFF".data)]

/-- The words PyYAML's resolver maps to `None` (plus the empty scalar). -/
def yamlNullWords : List Str :=
  [[], ("~".data), ("null".data), ("Null".data), ("NULL".data)]

/-- Lex a plain decimal integer scalar (`[-+]?(0|[1-9][0-9]*)`; the other
YAML 1.1 integer forms — octal, hex, underscores, sexagesimal — are outside
the modelled domain). -/
def intLex (s : Str) : Option Int :=
  let core : Str → Option Nat := fun t =>
    match t with
    | [] => none
    | ['0'] => some 0
    | c :: rest =>
      if c.isDigit ∧ c ≠ '0' ∧ rest.all Char.isDigit then
        some (rest.foldl (fun acc d => acc * 10 + (d.toNat - 48)) (c.toNat - 48))
      else none
  match s with
  | '-' :: rest => (core rest).map (fun n => -(n : Int))
  | '+' :: rest => (core rest).map (fun n => (n : Int))
  | _ => (core s).map (fun n => (n : Int))

/-- Lex a `YYYY-MM-DD` scalar (PyYAML's date resolver). -/
def dateLex (s : Str) : Option (Nat × Nat × Nat) :=
  match s with
  | [y1, y2, y3, y4, '-', m1, m2, '-', d1, d2] =>
    if [y1, y2, y3, y4, m1, m2, d1, d2].all Char.isDigit then
      some ((y1.toNat - 48) * 1000 + (y2.toNat - 48) * 100 + (y3.toNat - 48) * 10 +
              (y4.toNat - 48),
            (m1.toNat - 48) * 10 + (m2.toNat - 48),
            (d1.toNat - 48) * 10 + (d2.toNat - 48))
    else none
  | _ => none

/-- PyYAML scalar resolution for an already stripped plain scalar: null and
boolean words, decimal integers and dates, everything else a string.
Invalid dates make the whole load fail (PyYAML's constructor error);
floats and the exotic 1.1 integer forms are outside the modelled domain. -/
def resolveScalar (s : Str) : Option FmVal :=
  if s ∈ yamlNullWords then some .null
  else if s ∈ yamlTrueWords then some (.bool true)
  else if s ∈ yamlFalseWords then some (.bool false)
  else
    match intLex s with
    | some n => some (.int n)
    | none =>
      match dateLex s with
      | some (y, m, d) =>
        if 1 ≤ y ∧ 1 ≤ m ∧ m ≤ 12 ∧ 1 ≤ d ∧ d ≤ daysInMonth y m then
          some (.date y m d)
        else none
      | none => some (.str s)

/-- Parse one scalar token, honouring the double-quoted form this system
emits (escape sequences inside quoted scalars are outside the modelled
domain and fail the load). -/
def parseScalarToken (t : Str) : Option FmVal :=
  match t with
  | '"' :: rest =>
    match rest.reverse with
    | '"' :: revInner =>
      let inner := revInner.reverse
      if inner.contains '"' ∨ inner.contains '\\' then none else some (.str inner)
    | _ => none
  | _ => resolveScalar t

/-- Is this line blank (only whitespace)? -/
def isBlankLine (l : Str) : Bool := l.all isPySpace

/-- Collect the `  - item` lines following a `key:` header. -/
def takeItems : List Str → List Str × List Str
  | [] => ([], [])
  | l :: rest =>
    if startsW ("  - ".data) l then
      let tr := takeItems rest
      ((l.drop 4) :: tr.1, tr.2)
    else ([], l :: rest)

/-- The remainder returned by `takeItems` is no longer than its input. -/
theorem takeItems_len (ls : List Str) : (takeItems ls).2.length ≤ ls.length := by
  induction ls with
  | nil => simp [takeItems]
  | cons l rest ih =>
    simp only [takeItems]
    by_cases h : startsW (String.data "  - ") l = true
    · simp only [if_pos h]
      exact Nat.le_succ_of_le ih
    · simp only [if_neg h]
      exact Nat.le_refl _

/-- Python-dict insertion: replace in place when the key exists, else append
(`d[k] = v`). -/
def upsert (acc : List (Str × FmVal)) (k : Str) (v : FmVal) : List (Str × FmVal) :=
  if (assocFind acc k).isSome then
    acc.map (fun p => if p.1 = k then (k, v) else p)
  else acc ++ [(k, v)]

/-- Parse a list of optionally present scalar items. -/
def parseItems : List Str → Option (List FmVal)
  | [] => some []
  | i :: rest => do
    let v ← parseScalarToken (stripStr i)
    let vs ← parseItems rest
    some (v :: vs)

/-- Fuel-driven worker for the modelled `yaml.safe_load` on the line list
of a frontmatter block: a top-level block mapping of `key: scalar` lines
with optional nested `  - item` string lists under a bare `key:` line.
Anything else (nested mappings, indentation, non-mapping documents) makes
the load fail. -/
def yamlLoadLinesF : Nat → List Str → List (Str × FmVal) → Option (List (Str × FmVal))
  | _, [], acc => some acc
  | 0, _ :: _, _ => none
  | fuel + 1, l :: rest, acc =>
    if isBlankLine l then yamlLoadLinesF fuel rest acc
    else if startsW ("  - ".data) l then none
    else
      match brkOn (":".data) l with
      | none => none
      | some (k, after) =>
        if k.isEmpty ∨ k.head? = some ' ' then none
        else if after.isEmpty then
          let tr := takeItems rest
          if tr.1.isEmpty then yamlLoadLinesF fuel tr.2 (upsert acc k .null)
          else
            match parseItems tr.1 with
            | some vs => yamlLoadLinesF fuel tr.2 (upsert acc k (.list vs))
            | none => none
        else if after.head? = some ' ' then
          match parseScalarToken (stripStr after) with
          | some v => yamlLoadLinesF fuel rest (upsert acc k v)
          | none => none
        else none

/-- The modelled `yaml.safe_load` on the line list of a frontmatter block;
one unit of fuel per line always suffices since every step consumes at
least one line. -/
def yamlLoadLines (ls : List Str) (acc : List (Str × FmVal)) :
    Option (List (Str × FmVal)) :=
  yamlLoadLinesF ls.length ls acc

/-- `parse_frontmatter` (utils.py 62-76, identically process_transcripts.py
82-96): split on the `---` delimiter (at most twice), feed the middle block
to the YAML model, degrade to `({}, content)` when the document has no
frontmatter or the load fails. -/
def parse_frontmatter (content : Str) : List (Str × FmVal) × Str :=
  if ¬ startsW ("---".data) content then ([], content)
  else
    let parts := pySplit ("---".data) 2 content
    if parts.length < 3 then ([], content)
    else
      match yamlLoadLines (pySplitAll ("\n".data) (parts.getD 1 [])) [] with
      | some fm => (fm, lstripStr (parts.getD 2 []))
      | none => ([], content)

/-- `format_frontmatter` (utils.py 79-94). -/
def format_frontmatter (data : List (Str × FmVal)) : Str :=
  joinWith ("\n".data) ((("---".data) :: fmLines data) ++ [("---".data)])

/-- `update_frontmatter` (process_transcripts.py 99-129): parse, merge the
updates dict-style, reserialize, keep the body verbatim; return the input
unchanged when there is no parseable frontmatter. -/
def update_frontmatter (content : Str) (updates : List (Str × FmVal)) : Str :=
  if ¬ startsW ("---".data) content then content
  else
    let parts := pySplit ("---".data) 2 content
    if parts.length < 3 then content
    else
      match yamlLoadLines (pySplitAll ("\n".data) (parts.getD 1 [])) [] with
      | none => content
      | some fm =>
        let fm := updates.foldl (fun acc p => upsert acc p.1 p.2) fm
        ("---\n".data) ++ joinWith ("\n".data) (fmLines fm) ++ ("\n---".data) ++
          parts.getD 2 []

/-! ## process_transcripts.py -/

/-- One entry of the analysis result's `project_updates` list. -/
structure ProjUpdate where
  project : Str
  file : Str
  summary : Str
deriving DecidableEq

/-- The structured result of the external `analyze_transcript` call
(text in → structured JSON out; on an API error the code substitutes the
empty analysis). -/
structure Analysis where
  action_items : List Str
  project_updates : List ProjUpdate
  summary : Str
deriving DecidableEq

/-- `extract_transcript_section` (process_transcripts.py 132-138). -/
def extract_transcript_section (content : Str) : Str :=
  if hasSub ("## Transcript".data) content then
    match pySplit ("## Transcript".data) 1 content with
    | [_, p1] => stripStr p1
    | _ => content
  else content

/-- `datetime.strptime(s, "%Y-%m-%d")`: exactly the dashed date form, with
calendar validation. -/
def strptimeYmd (s : Str) : Option (Nat × Nat × Nat) :=
  match dateLex s with
  | some (y, m, d) =>
    if 1 ≤ y ∧ 1 ≤ m ∧ m ≤ 12 ∧ 1 ≤ d ∧ d ≤ daysInMonth y m then some (y, m, d)
    else none
  | none => none

/-- The earliest match of `re.search(r"\n---\n|\n## ", after)`: the position
of the leftmost occurrence of either pattern, as (before, matched, after). -/
def findWorkBoundary (after : Str) : Option (Str × Str × Str) :=
  match brkOn ("\n---\n".data) after, brkOn ("\n## ".data) after with
  | some (a1, b1), some (a2, b2) =>
    if a1.length ≤ a2.length then some (a1, ("\n---\n".data), b1)
    else some (a2, ("\n## ".data), b2)
  | some (a1, b1), none => some (a1, ("\n---\n".data), b1)
  | none, some (a2, b2) => some (a2, ("\n## ".data), b2)
  | none, none => none

/-- `add_action_items_to_daily` (process_transcripts.py 216-270).  The
`meeting_date` argument is the raw frontmatter value: a non-string value
reaches `datetime.strptime` and raises `TypeError` (uncaught there). -/
def add_action_items_to_daily (action_items : List Str) (meeting_date : FmVal)
    (meeting_title : Str) (cfg : Config) (fs : Fs) : Except PyErr (Bool × Fs) :=
  if action_items.isEmpty then .ok (false, fs)
  else
    match meeting_date with
    | .str ds =>
      match strptimeYmd ds with
      | none => .ok (false, fs)
      | some _ =>
        let daily := cfg.vault ++ ('/' :: cfg.dailyFolder) ++ ('/' :: ds) ++ (".md".data)
        match fs daily with
        | none => .ok (false, fs)
        | some content =>
          let items_text :=
            ('\n' :: ("*From ".data)) ++ meeting_title ++ (":*\n".data) ++
            (action_items.take 10).foldr
              (fun it acc => ("- [ ] ".data) ++ it ++ ('\n' :: acc)) []
          if hasSub ("## Work".data) content then
            if hasSub (("*From ".data) ++ meeting_title ++ (":*".data)) content then
              .ok (false, fs)
            else
              match pySplit ("## Work".data) 1 content with
              | [before, after] =>
                let new_after :=
                  match findWorkBoundary after with
                  | some (a, pat, b) => a ++ items_text ++ pat ++ b
                  | none => rstripStr after ++ items_text ++ ("\n".data)
                let c := before ++ ("## Work".data) ++ new_after
                .ok (true, fsWrite fs daily c)
              | _ => .ok (false, fs)
          else .ok (false, fs)
    | v =>
      match v with
      | .date _ _ _ => .error .typeError
      | _ => .error .typeError

/-- `update_project_file` (process_transcripts.py 273-311). -/
def update_project_file (pu : ProjUpdate) (meeting_date : FmVal)
    (meeting_title : Str) (cfg : Config) (fs : Fs) : Bool × Fs :=
  let fpath := cfg.vault ++ ('/' :: pu.file)
  match fs fpath with
  | none => (false, fs)
  | some content =>
    let marker := ("### ".data) ++ pyStrV meeting_date ++ (" - ".data) ++ meeting_title
    let entry := ('\n' :: marker) ++ ('\n' :: pu.summary) ++ ("\n".data)
    if hasSub marker content then (false, fs)
    else
      let c :=
        if hasSub ("## Meeting Notes".data) content then
          pyReplace ("## Meeting Notes".data) (("## Meeting Notes\n".data) ++ entry) content
        else if hasSub ("## Updates".data) content then
          pyReplace ("## Updates".data) (("## Updates\n".data) ++ entry) content
        else rstripStr content ++ ("\n\n## Meeting Notes\n".data) ++ entry
      (true, fsWrite fs fpath c)

/-- The notes placeholder sentence written by `generate_transcript_file`. -/
def notesPlaceholder : Str :=
  ("*No AI notes available - will be generated during processing*".data)

/-- `update_notes_section` (process_transcripts.py 314-335). -/
def update_notes_section (tpath : Str) (summary : Str) (fs : Fs) : Bool × Fs :=
  let content := (fs tpath).getD []
  if ¬ hasSub ("*No AI notes available".data) content ∧
      ¬ hasSub ("*Notes pending*".data) content then (false, fs)
  else if summary.isEmpty then (false, fs)
  else if hasSub notesPlaceholder content then
    (true, fsWrite fs tpath (pyReplace notesPlaceholder summary content))
  else (false, fs)

/-- `frontmatter.get(key, default)`. -/
def fmGetD (fm : List (Str × FmVal)) (k : Str) (dflt : FmVal) : FmVal :=
  (assocFind fm k).getD dflt

/-- The summary-to-bullets formatting of `process_transcript` (line 387). -/
def summaryBullets (summary : Str) : Str :=
  joinWith ("\n".data)
    ((pySplitAll ("\n".data) summary).filterMap (fun line =>
      if (stripStr line).isEmpty then none else some (("- ".data) ++ line)))

/-- `process_transcript` (process_transcripts.py 338-396), with the external
LLM call abstracted as the given `analysis` result.  Returns
`(return_value, file_system)`; `.error` models an exception propagating to
the caller (writes made before the raise persist in the paired state, which
the caller keeps). -/
def process_transcript (tpath : Str) (cfg : Config) (analysis : Analysis)
    (fs : Fs) : Except PyErr (Bool × Fs) :=
  let content := (fs tpath).getD []
  let fm := (parse_frontmatter content).1
  let body := (parse_frontmatter content).2
  if fmTruthy (fmGetD fm ("processed".data) (.bool false)) then .ok (false, fs)
  else
    let title := pyStrV (fmGetD fm ("title".data) (.str ("Unknown Meeting".data)))
    let meeting_date := fmGetD fm ("date".data) (.str [])
    let transcript_text := extract_transcript_section body
    if transcript_text.length < 100 then .ok (false, fs)
    else
      let step1 : Except PyErr Fs :=
        if analysis.action_items.isEmpty then .ok fs
        else
          match add_action_items_to_daily analysis.action_items meeting_date title cfg fs with
          | .ok (_, fs') => .ok fs'
          | .error e => .error e
      match step1 with
      | .error e => .error e
      | .ok fs1 =>
        let fs2 := analysis.project_updates.foldl
          (fun acc pu => (update_project_file pu meeting_date title cfg acc).2) fs1
        let fs3 :=
          if analysis.summary.isEmpty then fs2
          else (update_notes_section tpath (summaryBullets analysis.summary) fs2).2
        let updated := update_frontmatter content [(("processed".data), .bool true)]
        .ok (true, fsWrite fs3 tpath updated)

/-! ## JSON and load_granola_cache -/

/-- Parsed JSON values (`json.loads`); numbers are kept as their lexemes,
objects as ordered key-value lists with later duplicates overriding. -/
inductive JValue
  | jnull
  | jbool (b : Bool)
  | jnum (lexeme : Str)
  | jstr (s : Str)
  | jarr (items : List JValue)
  | jobj (fields : List (Str × JValue))

mutual

/-- Decidable equality for `JValue`. -/
def decEqJValue : (a b : JValue) → Decidable (a = b)
  | .jnull, .jnull => isTrue rfl
  | .jbool a, .jbool b =>
    match decEq a b with
    | isTrue h => isTrue (by rw [h])
    | isFalse h => isFalse (by simp [h])
  | .jnum a, .jnum b =>
    match decEq a b with
    | isTrue h => isTrue (by rw [h])
    | isFalse h => isFalse (by simp [h])
  | .jstr a, .jstr b =>
    match decEq a b with
    | isTrue h => isTrue (by rw [h])
    | isFalse h => isFalse (by simp [h])
  | .jarr a, .jarr b =>
    match decEqJValueList a b with
    | isTrue h => isTrue (by rw [h])
    | isFalse h => isFalse (by simp [h])
  | .jobj a, .jobj b =>
    match decEqJValueFields a b with
    | isTrue h => isTrue (by rw [h])
    | isFalse h => isFalse (by simp [h])
  | .jnull, .jbool _ => isFalse (by simp)
  | .jnull, .jnum _ => isFalse (by simp)
  | .jnull, .jstr _ => isFalse (by simp)
  | .jnull, .jarr _ => isFalse (by simp)
  | .jnull, .jobj _ => isFalse (by simp)
  | .jbool _, .jnull => isFalse (by simp)
  | .jbool _, .jnum _ => isFalse (by simp)
  | .jbool _, .jstr _ => isFalse (by simp)
  | .jbool _, .jarr _ => isFalse (by simp)
  | .jbool _, .jobj _ => isFalse (by simp)
  | .jnum _, .jnull => isFalse (by simp)
  | .jnum _, .jbool _ => isFalse (by simp)
  | .jnum _, .jstr _ => isFalse (by simp)
  | .jnum _, .jarr _ => isFalse (by simp)
  | .jnum _, .jobj _ => isFalse (by simp)
  | .jstr _, .jnull => isFalse (by simp)
  | .jstr _, .jbool _ => isFalse (by simp)
  | .jstr _, .jnum _ => isFalse (by simp)
  | .jstr _, .jarr _ => isFalse (by simp)
  | .jstr _, .jobj _ => isFalse (by simp)
  | .jarr _, .jnull => isFalse (by simp)
  | .jarr _, .jbool _ => isFalse (by simp)
  | .jarr _, .jnum _ => isFalse (by simp)
  | .jarr _, .jstr _ => isFalse (by simp)
  | .jarr _, .jobj _ => isFalse (by simp)
  | .jobj _, .jnull => isFalse (by simp)
  | .jobj _, .jbool _ => isFalse (by simp)
  | .jobj _, .jnum _ => isFalse (by simp)
  | .jobj _, .jstr _ => isFalse (by simp)
  | .jobj _, .jarr _ => isFalse (by simp)

/-- Decidable equality for lists of `JValue`. -/
def decEqJValueList : (a b : List JValue) → Decidable (a = b)
  | [], [] => isTrue rfl
  | [], _ :: _ => isFalse (by simp)
  | _ :: _, [] => isFalse (by simp)
  | x :: xs, y :: ys =>
    match decEqJValue x y, decEqJValueList xs ys with
    | isTrue h1, isTrue h2 => isTrue (by rw [h1, h2])
    | isFalse h1, _ => isFalse (by simp [h1])
    | _, isFalse h2 => isFalse (by simp [h2])

/-- Decidable equality for JSON object field lists. -/
def decEqJValueFields : (a b : List (Str × JValue)) → Decidable (a = b)
  | [], [] => isTrue rfl
  | [], _ :: _ => isFalse (by simp)
  | _ :: _, [] => isFalse (by simp)
  | (k1, v1) :: xs, (k2, v2) :: ys =>
    match decEq k1 k2, decEqJValue v1 v2, decEqJValueFields xs ys with
    | isTrue h0, isTrue h1, isTrue h2 => isTrue (by rw [h0, h1, h2])
    | isFalse h0, _, _ => isFalse (by simp [h0])
    | _, isFalse h1, _ => isFalse (by simp [h1])
    | _, _, isFalse h2 => isFalse (by simp [h2])

end

instance : DecidableEq JValue := decEqJValue

/-- JSON insignificant whitespace. -/
def jSkipWs (s : Str) : Str :=
  s.dropWhile (fun c => c == ' ' || c == '\t' || c == '\n' || c == '\r')

/-- Decode one JSON string escape character (`\uXXXX` handled separately). -/
def jEscape (c : Char) : Option Char :=
  if c = '"' then some '"'
  else if c = '\\' then some '\\'
  else if c = '/' then some '/'
  else if c = 'b' then some '\x08'
  else if c = 'f' then some '\x0c'
  else if c = 'n' then some '\n'
  else if c = 'r' then some '\r'
  else if c = 't' then some '\t'
  else none

/-- Hex digit value. -/
def hexVal (c : Char) : Option Nat :=
  if c.isDigit then some (c.toNat - 48)
  else if 'a' ≤ c ∧ c ≤ 'f' then some (c.toNat - 87)
  else if 'A' ≤ c ∧ c ≤ 'F' then some (c.toNat - 55)
  else none

/-- Parse a JSON string body (after the opening quote); surrogate pairs are
outside the modelled domain. -/
def jString : Nat → Str → Option (Str × Str)
  | 0, _ => none
  | _ + 1, [] => none
  | fuel + 1, c :: rest =>
    if c = '"' then some ([], rest)
    else if c = '\\' then
      match rest with
      | 'u' :: h1 :: h2 :: h3 :: h4 :: r2 => do
        let v1 ← hexVal h1
        let v2 ← hexVal h2
        let v3 ← hexVal h3
        let v4 ← hexVal h4
        let (t, r) ← jString fuel r2
        some (Char.ofNat (v1 * 4096 + v2 * 256 + v3 * 16 + v4) :: t, r)
      | e :: r2 => do
        let ch ← jEscape e
        let (t, r) ← jString fuel r2
        some (ch :: t, r)
      | [] => none
    else if c.toNat < 32 then none
    else (jString fuel rest).map (fun p => (c :: p.1, p.2))

/-- Lex a JSON number (`-?(0|[1-9]\d*)(\.\d+)?([eE][+-]?\d+)?`), keeping the
lexeme. -/
def jNumber (s : Str) : Option (Str × Str) :=
  let intPart : Str → Option (Str × Str) := fun t =>
    match t with
    | '0' :: r => some (['0'], r)
    | c :: r =>
      if c.isDigit then
        let ds := r.takeWhile Char.isDigit
        some (c :: ds, r.drop ds.length)
      else none
    | [] => none
  let (sign, t) := match s with
    | '-' :: r => ((['-'] : Str), r)
    | _ => (([] : Str), s)
  match intPart t with
  | none => none
  | some (ip, r1) =>
    let (fp, r2) :=
      match r1 with
      | '.' :: r =>
        let ds := r.takeWhile Char.isDigit
        if ds.isEmpty then (([] : Str), r1) else ('.' :: ds, r.drop ds.length)
      | _ => (([] : Str), r1)
    let (ep, r3) :=
      match r2 with
      | e :: r =>
        if e = 'e' ∨ e = 'E' then
          let (sg, rr) := match r with
            | '+' :: q => ((['+'] : Str), q)
            | '-' :: q => ((['-'] : Str), q)
            | _ => (([] : Str), r)
          let ds := rr.takeWhile Char.isDigit
          if ds.isEmpty then (([] : Str), r2)
          else (e :: (sg ++ ds), rr.drop ds.length)
        else (([] : Str), r2)
      | [] => (([] : Str), r2)
    some (sign ++ ip ++ fp ++ ep, r3)

mutual

/-- Recursive-descent JSON value parser; the fuel bounds nesting depth. -/
def jParseV : Nat → Str → Option (JValue × Str)
  | 0, _ => none
  | fuel + 1, s =>
    match jSkipWs s with
    | [] => none
    | c :: rest =>
      if c = 'n' then
        if List.isPrefixOf ("ull".data) rest then some (.jnull, rest.drop 3) else none
      else if c = 't' then
        if List.isPrefixOf ("rue".data) rest then some (.jbool true, rest.drop 3) else none
      else if c = 'f' then
        if List.isPrefixOf ("alse".data) rest then some (.jbool false, rest.drop 4) else none
      else if c = '"' then (jString (rest.length + 1) rest).map (fun p => (.jstr p.1, p.2))
      else if c = '[' then
        match jSkipWs rest with
        | ']' :: r => some (.jarr [], r)
        | _ => (jParseArr fuel rest).map (fun p => (.jarr p.1, p.2))
      else if c = '{' then
        match jSkipWs rest with
        | '}' :: r => some (.jobj [], r)
        | _ => (jParseObj fuel rest).map (fun p => (.jobj p.1, p.2))
      else (jNumber (c :: rest)).map (fun p => (.jnum p.1, p.2))

/-- Parse the non-empty element list of a JSON array (after `[`). -/
def jParseArr : Nat → Str → Option (List JValue × Str)
  | 0, _ => none
  | fuel + 1, s => do
    let (v, r1) ← jParseV fuel s
    match jSkipWs r1 with
    | ',' :: r2 => do
      let (vs, r3) ← jParseArr fuel r2
      some (v :: vs, r3)
    | ']' :: r2 => some ([v], r2)
    | _ => none

/-- Parse the non-empty field list of a JSON object (after `{`). -/
def jParseObj : Nat → Str → Option (List (Str × JValue) × Str)
  | 0, _ => none
  | fuel + 1, s =>
    match jSkipWs s with
    | '"' :: r0 => do
      let (k, r1) ← jString (r0.length + 1) r0
      match jSkipWs r1 with
      | ':' :: r2 => do
        let (v, r3) ← jParseV fuel r2
        match jSkipWs r3 with
        | ',' :: r4 => do
          let (kvs, r5) ← jParseObj fuel r4
          some ((k, v) :: kvs, r5)
        | '}' :: r4 => some ([(k, v)], r4)
        | _ => none
      | _ => none
    | _ => none

end

/-- `json.loads`: parse a complete document, allowing trailing whitespace
only. -/
def jsonLoads (s : Str) : Option JValue :=
  match jParseV (s.length + 2) s with
  | some (v, rest) => if jSkipWs rest = [] then some v else none
  | none => none

/-- Python-dict lookup on a parsed JSON object: later duplicate keys
override earlier ones (`dict.get(k, default)`). -/
def jObjGet (kvs : List (Str × JValue)) (k : Str) (dflt : JValue) : JValue :=
  match kvs.reverse.find? (fun p => decide (p.1 = k)) with
  | some p => p.2
  | none => dflt

/-- The cache file as `load_granola_cache` sees it: absent, or present with
the given text content. -/
inductive CacheFile
  | missing
  | contents (s : Str)

/-- What `load_granola_cache` returns on success: the mapping's `documents`
and `transcripts` entries (and `events` on the full-parse path; the degraded
mapping lacks the key). -/
structure CacheOut where
  documents : JValue
  transcripts : JValue
  events : Option JValue
deriving DecidableEq

/-- The degraded return value of `load_granola_cache`
(`{"documents": {}, "transcripts": {}}`). -/
def emptyCacheOut : CacheOut := ⟨.jobj [], .jobj [], none⟩

/-- Line 64-69 of `load_granola_cache`: `state = cache.get("state", {})`
followed by the three `state.get(...)` reads.  `.get` on a non-dict raises
`AttributeError`. -/
def loadFromState : JValue → Except PyErr CacheOut
  | .jobj skvs =>
    .ok ⟨jObjGet skvs ("documents".data) (.jobj []),
         jObjGet skvs ("transcripts".data) (.jobj []),
         some (jObjGet skvs ("events".data) (.jarr []))⟩
  | _ => .error .attrError

/-- The parsed inner cache document: `cache.get("state", {})` requires a
dict. -/
def loadFromCache : JValue → Except PyErr CacheOut
  | .jobj ckvs => loadFromState (jObjGet ckvs ("state".data) (.jobj []))
  | _ => .error .attrError

/-- Line 63 of `load_granola_cache`:
`cache = json.loads(data.get("cache", "{}"))` — `json.loads` on a non-string
raises `TypeError`, a `JSONDecodeError` is caught by line 71. -/
def loadFromCacheVal : JValue → Except PyErr CacheOut
  | .jstr cs =>
    match jsonLoads cs with
    | none => .ok emptyCacheOut
    | some cache => loadFromCache cache
  | _ => .error .typeError

/-- The parsed top-level document: `data.get("cache", "{}")` requires a
dict. -/
def loadFromData : JValue → Except PyErr CacheOut
  | .jobj kvs => loadFromCacheVal (jObjGet kvs ("cache".data) (.jstr ("{}".data)))
  | _ => .error .attrError

/-- `load_granola_cache` (granola_sync.py 53-73).  A missing file or a
`json.JSONDecodeError`/`KeyError` degrades to empty mappings; `.error`
models an exception *not* caught by line 71 (`AttributeError` from `.get`
on a non-dict, `TypeError` from `json.loads` on a non-string).  The nested
accesses of the source body are split into one helper per access. -/
def load_granola_cache : CacheFile → Except PyErr CacheOut
  | .missing => .ok emptyCacheOut
  | .contents s =>
    match jsonLoads s with
    | none => .ok emptyCacheOut
    | some data => loadFromData data

/-! ## Substring toolkit -/

/-- A successful `brkOn` decomposes its input around the pattern. -/
theorem brkOn_sound (pat : Str) :
    ∀ s a b : Str, brkOn pat s = some (a, b) → s = a ++ pat ++ b := by
  intro s
  induction s with
  | nil =>
    intro a b h
    by_cases hp : pat = []
    · simp only [brkOn, hp, if_pos] at h
      obtain ⟨h1, h2⟩ := Prod.mk.injEq .. ▸ (Option.some.injEq .. ▸ h)
      subst hp
      simp [← h1, ← h2]
    · simp [brkOn, hp] at h
  | cons c rest ih =>
    intro a b h
    rw [brkOn] at h
    by_cases hp : List.isPrefixOf pat (c :: rest) = true
    · rw [if_pos hp] at h
      obtain ⟨t, ht⟩ := List.isPrefixOf_iff_prefix.mp hp
      obtain ⟨h1, h2⟩ := Prod.mk.injEq .. ▸ (Option.some.injEq .. ▸ h)
      subst h1
      have hd : List.drop pat.length (c :: rest) = t := by
        rw [← ht, List.drop_left]
      rw [hd] at h2
      subst h2
      simp [← ht]
    · rw [if_neg hp] at h
      match hb : brkOn pat rest with
      | some (a', b') =>
        rw [hb] at h
        obtain ⟨h1, h2⟩ := Prod.mk.injEq .. ▸ (Option.some.injEq .. ▸ h)
        subst h2
        rw [← h1]
        have := ih a' b' hb
        simp [this]
      | none => rw [hb] at h; exact absurd h (by simp)

/-- `brkOn` succeeds on any string that decomposes around the pattern. -/
theorem brkOn_isSome (pat : Str) :
    ∀ a b : Str, (brkOn pat (a ++ pat ++ b)).isSome = true := by
  intro a
  induction a with
  | nil =>
    intro b
    match pat with
    | [] => cases b <;> simp [brkOn]
    | p :: ps =>
      have hp : List.isPrefixOf (p :: ps) (p :: (ps ++ b)) = true := by
        rw [← List.cons_append]
        exact List.isPrefixOf_iff_prefix.mpr (List.prefix_append _ _)
      rw [List.nil_append]
      simp only [brkOn, List.append_eq]
      rw [if_pos hp]
      simp
  | cons c a ih =>
    intro b
    rw [List.cons_append, List.cons_append, brkOn]
    by_cases hp : List.isPrefixOf pat (c :: (a ++ pat ++ b)) = true
    · rw [if_pos hp]; simp
    · rw [if_neg hp]
      have h := ih b
      match hb : brkOn pat (a ++ pat ++ b) with
      | some (a', b') => simp
      | none => rw [hb] at h; simp at h

/-- Any explicit decomposition witnesses substring containment. -/
theorem hasSub_intro (pat : Str) (a b : Str) : hasSub pat (a ++ pat ++ b) = true :=
  brkOn_isSome pat a b

/-- A contained substring admits an explicit decomposition. -/
theorem hasSub_elim {pat s : Str} (h : hasSub pat s = true) :
    ∃ a b : Str, s = a ++ pat ++ b := by
  unfold hasSub at h
  match hb : brkOn pat s with
  | some (a, b) => exact ⟨a, b, brkOn_sound pat s a b hb⟩
  | none => rw [hb] at h; simp at h

/-- No decomposition exists when containment fails. -/
theorem hasSub_false {pat s : Str} (h : hasSub pat s = false) :
    ∀ a b : Str, s ≠ a ++ pat ++ b := by
  intro a b hs
  rw [hs, hasSub_intro] at h
  exact absurd h (by simp)

/-- Unfolding `calculate_duration` at a two-or-more-element list. -/
theorem calculate_duration_cons (e0 e1 : Entry) (rest : List Entry) :
    calculate_duration (e0 :: e1 :: rest) =
      (if e0.start_timestamp.getD [] = [] ∨
          ((e1 :: rest).getLastD e0).end_timestamp.getD [] = [] then 0
       else
        match parseTs (e0.start_timestamp.getD []),
              parseTs (((e1 :: rest).getLastD e0).end_timestamp.getD []) with
        | some s, some en =>
          match dtSubMicros en s with
          | some d => Int.tdiv d 60000000
          | none => 0
        | _, _ => 0) := rfl

/-! ## Claim C5: the paragraph-closing rule -/

/-- The grouping loop exactly as claim C5 states the rule: a paragraph
closes as soon as it has at least 10 entries, or as soon as the current
entry ends in sentence-terminal punctuation while the accumulated text
exceeds 500 characters — "whichever condition is met first". -/
def claimGroupLoop : List Str → List Str → List Str → List Str × List Str
  | paragraphs, current, [] => (paragraphs, current)
  | paragraphs, current, t :: ts =>
    let cur := current ++ [t]
    if decide (10 ≤ cur.length) || (endsPunct t && decide (500 < (joinSp cur).length)) then
      claimGroupLoop (paragraphs ++ [joinSp cur]) [] ts
    else claimGroupLoop paragraphs cur ts

/-- `get_transcript_text` as claim C5 describes it. -/
def claimTranscriptText (entries : List Entry) : Str :=
  if entries = [] then []
  else
    let texts := extractTexts entries
    if texts = [] then []
    else
      let g := claimGroupLoop [] [] texts
      let ps := if g.2 = [] then g.1 else g.1 ++ [joinSp g.2]
      joinWith ("\n\n".data) ps

/-- Paragraph grouping as a standalone rule (the amended claim C5): after
an entry is appended, the paragraph closes exactly when it has at least 10
entries *or* the entry ends in sentence-terminal punctuation, *and* in
either case only if the accumulated joined text exceeds 500 characters. -/
def amendedGo (cur : List Str) : List Str → List (List Str)
  | [] => if cur = [] then [] else [cur]
  | t :: ts =>
    let cur' := cur ++ [t]
    if (decide (10 ≤ cur'.length) || endsPunct t) && decide (500 < (joinSp cur').length)
    then cur' :: amendedGo [] ts
    else amendedGo cur' ts

/-- The paragraphs of a text list under the amended rule. -/
def amendedParagraphs (texts : List Str) : List (List Str) := amendedGo [] texts

/-- The code's grouping loop computes exactly the amended rule's paragraph
list. -/
theorem groupLoop_amendedGo (ts : List Str) : ∀ ps cur : List Str,
    (groupLoop ps cur ts).1 ++
      (if (groupLoop ps cur ts).2 = [] then [] else [joinSp (groupLoop ps cur ts).2])
      = ps ++ (amendedGo cur ts).map joinSp := by
  induction ts with
  | nil =>
    intro ps cur
    by_cases h : cur = [] <;> simp [groupLoop, amendedGo, h]
  | cons t ts ih =>
    intro ps cur
    simp only [groupLoop, amendedGo]
    by_cases h : ((decide (10 ≤ (cur ++ [t]).length) || endsPunct t) &&
        decide (500 < (joinSp (cur ++ [t])).length)) = true
    · rw [if_pos h, if_pos h, ih]
      simp
    · rw [if_neg h, if_neg h, ih]

/-- Claim C5, counterexample: on eleven one-character entries without
terminal punctuation the code never closes a paragraph (eleven entries, but
only 21 joined characters — the 500-character condition gates *both* arms,
a paragraph reaching 10 entries does not close), producing a single
paragraph, while the rule as claimed closes the paragraph at entry 10 and
emits a paragraph break: the outputs differ, and the code's output contains
no paragraph break while the claimed rule's output does. -/
theorem claim_C5_counterexample :
    get_transcript_text (List.replicate 11 ⟨.s ['a'], none, none⟩) ≠
        claimTranscriptText (List.replicate 11 ⟨.s ['a'], none, none⟩) ∧
      hasSub ("\n\n".data)
        (get_transcript_text (List.replicate 11 ⟨.s ['a'], none, none⟩)) = false ∧
      hasSub ("\n\n".data)
        (claimTranscriptText (List.replicate 11 ⟨.s ['a'], none, none⟩)) = true := by
  refine ⟨by decide, by decide, by decide⟩

/-- Claim C5 (amended): in `get_transcript_text`, after an entry is
appended, a paragraph closes exactly when it has accumulated at least 10
entries or the current entry ends in `.`, `!` or `?`, and — in either case —
only when the accumulated joined paragraph text exceeds 500 characters; in
particular a paragraph that reaches 10 entries with at most 500 joined
characters does not close.  Formally: the function equals reassembly of the
paragraph list produced by that closing rule. -/
theorem claim_C5_amended (entries : List Entry) :
    get_transcript_text entries =
      joinWith ("\n\n".data) ((amendedParagraphs (extractTexts entries)).map joinSp) := by
  unfold get_transcript_text amendedParagraphs
  by_cases he : entries = []
  · simp [he, extractTexts, amendedGo, joinWith, List.intercalate]
  · rw [if_neg he]
    by_cases ht : extractTexts entries = []
    · simp [ht, amendedGo, joinWith, List.intercalate]
    · rw [if_neg ht]
      have h := groupLoop_amendedGo (extractTexts entries) [] []
      rw [List.nil_append] at h
      rw [← h]
      by_cases hc : (groupLoop [] [] (extractTexts entries)).2 = []
      · simp [hc]
      · simp [hc]

/-! ## Claim C7: duration computation -/

/-- Claim C7, counterexample: when the last entry's end timestamp precedes
the first entry's start timestamp, `calculate_duration` returns a negative
number (`int()` truncates toward zero, it does not clamp), refuting the
claim's "its result is always an integer greater than or equal to 0". -/
theorem claim_C7_counterexample :
    calculate_duration
        [⟨.s ['h'], some ("2026-01-15T10:00:00Z".data), none⟩,
         ⟨.s ['h'], none, some ("2026-01-15T09:00:00Z".data)⟩] = -60 ∧
      calculate_duration
        [⟨.s ['h'], some ("2026-01-15T10:00:00Z".data), none⟩,
         ⟨.s ['h'], none, some ("2026-01-15T09:00:00Z".data)⟩] < 0 := by
  refine ⟨by decide, by decide⟩

/-- Claim C7 (amended): `calculate_duration` returns the elapsed time
between the first entry's start timestamp and the last entry's end
timestamp in whole minutes truncated toward zero (630 seconds yield 10); it
returns 0 when there are fewer than 2 entries, when a start/end timestamp
is missing or unparsable, and when exactly one of the two timestamps
carries a UTC offset (the `TypeError` of mixed-awareness subtraction is
caught); and the result is non-negative whenever the end does not precede
the start — it is negative, not zero, when the end precedes the start. -/
theorem claim_C7_amended :
    (∀ es : List Entry, es.length < 2 → calculate_duration es = 0)
  ∧ (∀ (e0 e1 : Entry) (rest : List Entry),
      parseTs (e0.start_timestamp.getD []) = none ∨
        parseTs ((List.getLastD (e1 :: rest) e0).end_timestamp.getD []) = none →
      calculate_duration (e0 :: e1 :: rest) = 0)
  ∧ (∀ (e0 e1 : Entry) (rest : List Entry) (s en : DT),
      parseTs (e0.start_timestamp.getD []) = some s →
      parseTs ((List.getLastD (e1 :: rest) e0).end_timestamp.getD []) = some en →
      calculate_duration (e0 :: e1 :: rest) =
        (match dtSubMicros en s with
         | some d => Int.tdiv d 60000000
         | none => 0))
  ∧ (∀ (e0 e1 : Entry) (rest : List Entry) (s en : DT) (d : Int),
      parseTs (e0.start_timestamp.getD []) = some s →
      parseTs ((List.getLastD (e1 :: rest) e0).end_timestamp.getD []) = some en →
      dtSubMicros en s = some d → 0 ≤ d →
      0 ≤ calculate_duration (e0 :: e1 :: rest)) := by
  have hnil : parseTs [] = none := by decide
  have hne : ∀ (o : Option Str) (dt : DT), parseTs (o.getD []) = some dt → ¬ o.getD [] = [] := by
    intro o dt h he
    rw [he, hnil] at h
    exact absurd h (by simp)
  refine ⟨?_, ?_, ?_, ?_⟩
  · intro es h
    match es with
    | [] => rfl
    | [_] => rfl
    | _ :: _ :: _ => exact absurd h (by simp)
  · intro e0 e1 rest h
    rw [calculate_duration_cons]
    by_cases hf : e0.start_timestamp.getD [] = []
    · rw [if_pos (Or.inl hf)]
    · by_cases hl : ((e1 :: rest).getLastD e0).end_timestamp.getD [] = []
      · rw [if_pos (Or.inr hl)]
      · rw [if_neg (not_or.mpr ⟨hf, hl⟩)]
        rcases h with h | h
        · rw [h]
        · rw [h]
          cases parseTs (e0.start_timestamp.getD []) <;> rfl
  · intro e0 e1 rest s en hs hen
    rw [calculate_duration_cons, if_neg (not_or.mpr ⟨hne _ _ hs, hne _ _ hen⟩), hs, hen]
  · intro e0 e1 rest s en d hs hen hd hpos
    rw [calculate_duration_cons, if_neg (not_or.mpr ⟨hne _ _ hs, hne _ _ hen⟩), hs, hen]
    show (0 : Int) ≤ (match dtSubMicros en s with
              | some d => Int.tdiv d 60000000
              | none => (0 : Int))
    rw [hd]
    exact Int.tdiv_nonneg hpos (by norm_num)

/-- Claim C7, witness: two entries spanning 630 seconds yield 10 minutes,
via the amended theorem at a concrete input. -/
theorem claim_C7_witness :
    calculate_duration
      [⟨.s ['h'], some ("2026-01-15T10:00:00Z".data), none⟩,
       ⟨.s ['h'], none, some ("2026-01-15T10:10:30Z".data)⟩] = 10 := by
  have h := claim_C7_amended.2.2.1
    ⟨.s ['h'], some ("2026-01-15T10:00:00Z".data), none⟩
    ⟨.s ['h'], none, some ("2026-01-15T10:10:30Z".data)⟩ []
    ⟨2026, 1, 15, 10, 0, 0, 0, some 0⟩ ⟨2026, 1, 15, 10, 10, 30, 0, some 0⟩
    (by decide) (by decide)
  rw [h]
  decide

/-! ## Claim C6: cache loading never raises -/

/-- Claim C6, counterexample: a cache file whose top level parses to a JSON
*array* reaches `data.get("cache", "{}")` on a list and raises
`AttributeError`, which line 71 does not catch — `load_granola_cache` does
propagate an error to its caller on this input, refuting "never raises for
every input ... including a non-object top level". -/
theorem claim_C6_counterexample :
    load_granola_cache (.contents ("[1]".data)) = .error .attrError ∧
      load_granola_cache (.contents ("\x7b\"cache\": 5\x7d".data)) = .error .typeError := by
  refine ⟨by decide, by decide⟩

/-- Claim C6 (amended): `load_granola_cache` returns (never raises), with
`documents` and `transcripts` degrading to empty mappings, whenever the file
is missing, the file content is unparsable JSON, or the content parses to a
JSON *object* in which the `"cache"` entry (defaulting to `"{}"`) is a
string that either fails to parse or parses to an object whose `"state"`
entry (defaulting to `{}`) is an object.  Outside those shapes (non-object
top level, non-string `cache`, non-object parsed cache or `state`) the
uncaught `AttributeError`/`TypeError` propagates. -/
theorem claim_C6_amended :
    (load_granola_cache .missing = .ok emptyCacheOut)
  ∧ (∀ s : Str, jsonLoads s = none →
      load_granola_cache (.contents s) = .ok emptyCacheOut)
  ∧ (∀ (s : Str) (kvs : List (Str × JValue)) (cs : Str),
      jsonLoads s = some (.jobj kvs) →
      jObjGet kvs ("cache".data) (.jstr ("{}".data)) = .jstr cs →
      jsonLoads cs = none →
      load_granola_cache (.contents s) = .ok emptyCacheOut)
  ∧ (∀ (s : Str) (kvs ckvs skvs : List (Str × JValue)) (cs : Str),
      jsonLoads s = some (.jobj kvs) →
      jObjGet kvs ("cache".data) (.jstr ("{}".data)) = .jstr cs →
      jsonLoads cs = some (.jobj ckvs) →
      jObjGet ckvs ("state".data) (.jobj []) = .jobj skvs →
      load_granola_cache (.contents s) =
        .ok ⟨jObjGet skvs ("documents".data) (.jobj []),
             jObjGet skvs ("transcripts".data) (.jobj []),
             some (jObjGet skvs ("events".data) (.jarr []))⟩) := by
  refine ⟨rfl, ?_, ?_, ?_⟩
  · intro s h
    simp only [load_granola_cache]
    rw [h]
  · intro s kvs cs h1 h2 h3
    simp only [load_granola_cache]
    rw [h1]
    simp only [loadFromData]
    rw [h2]
    simp only [loadFromCacheVal]
    rw [h3]
  · intro s kvs ckvs skvs cs h1 h2 h3 h4
    simp only [load_granola_cache]
    rw [h1]
    simp only [loadFromData]
    rw [h2]
    simp only [loadFromCacheVal]
    rw [h3]
    simp only [loadFromCache]
    rw [h4]
    simp only [loadFromState]

/-- Claim C6, witness: the amended theorem applied to a concrete well-formed
cache snapshot. -/
theorem claim_C6_witness :
    load_granola_cache
        (.contents ("\x7b\"cache\": \"\x7b\\\"state\\\": \x7b\\\"documents\\\": \x7b\\\"a\\\": 1\x7d\x7d\x7d\"\x7d".data)) =
      .ok ⟨.jobj [(("a".data), .jnum ['1'])], .jobj [], some (.jarr [])⟩ := by
  have h := claim_C6_amended.2.2.2
    ("\x7b\"cache\": \"\x7b\\\"state\\\": \x7b\\\"documents\\\": \x7b\\\"a\\\": 1\x7d\x7d\x7d\"\x7d".data)
    [(("cache".data), .jstr ("\x7b\"state\": \x7b\"documents\": \x7b\"a\": 1\x7d\x7d\x7d".data))]
    [(("state".data), .jobj [(("documents".data), .jobj [(("a".data), .jnum ['1'])])])]
    [(("documents".data), .jobj [(("a".data), .jnum ['1'])])]
    ("\x7b\"state\": \x7b\"documents\": \x7b\"a\": 1\x7d\x7d\x7d".data)
    (by decide) (by decide) (by decide) (by decide)
  rw [h]
  decide

/-! ## Claim C2: identity dedup at the base path -/

/-- Claim C2 (amended): if a file already exists at the resolved base path
and its content contains the literal marker text `granola_id: {X}`, then
`generate_transcript_file` returns that path with `was_created = false` and
performs no write, whatever the record's other fields are.  (The code's
check is this substring test, not a frontmatter-field comparison.) -/
theorem claim_C2_amended (doc_id : Str) (doc : PyDoc) (entries : List Entry)
    (cfg : Config) (now : DT) (fs : Fs) (c : Str)
    (hex : fs (basePathOf cfg (fmtYmd (get_meeting_date entries doc now))
      (sanitize_filename (doc.title.getD ("Untitled Meeting".data)))) = some c)
    (hid : hasSub (checkStr doc_id) c = true) :
    generate_transcript_file doc_id doc entries cfg now fs =
      (basePathOf cfg (fmtYmd (get_meeting_date entries doc now))
        (sanitize_filename (doc.title.getD ("Untitled Meeting".data))), false, fs) := by
  simp only [generate_transcript_file]
  rw [hex]
  simp only [hid, if_pos]

/-- Claim C2, counterexample: for `doc_id = "a:b"` the file this system
itself writes carries the quoted line `granola_id: "a:b"`, whose parsed
frontmatter identity field equals `"a:b"` — yet on re-sync the substring
check `granola_id: a:b` fails against the quoted line, and
`generate_transcript_file` proceeds to *create a second file* at the
time-suffixed path (`was_created = true`), refuting the claim as stated. -/
theorem claim_C2_counterexample :
    (assocFind
        (parse_frontmatter
          (genContent ("a:b".data)
            ⟨some ("T".data), some ("2026-01-15T10:00:00Z".data), none, none, none, .pother⟩
            [⟨.s ("hi".data), some ("2026-01-15T10:00:00Z".data), none⟩]
            ("2026-01-15".data) ("T".data))).1
        ("granola_id".data) = some (.str ("a:b".data)))
  ∧ (generate_transcript_file ("a:b".data)
      ⟨some ("T".data), some ("2026-01-15T10:00:00Z".data), none, none, none, .pother⟩
      [⟨.s ("hi".data), some ("2026-01-15T10:00:00Z".data), none⟩]
      ⟨("/v".data), ("t".data), ("d".data)⟩ ⟨2026, 3, 1, 12, 0, 0, 0, none⟩
      (fun p => if p = ("/v/t/2026-01-15 - T.md".data) then
        some (genContent ("a:b".data)
          ⟨some ("T".data), some ("2026-01-15T10:00:00Z".data), none, none, none, .pother⟩
          [⟨.s ("hi".data), some ("2026-01-15T10:00:00Z".data), none⟩]
          ("2026-01-15".data) ("T".data))
        else none)).2.1 = true := by
  refine ⟨by decide, by decide⟩

/-- Claim C2, witness: the amended theorem applied to a concrete vault
holding a transcript with the plain marker line. -/
theorem claim_C2_witness :
    generate_transcript_file ("abc".data)
      ⟨some ("T".data), some ("2026-01-15T10:00:00Z".data), none, none, none, .pother⟩
      [⟨.s ("hi".data), some ("2026-01-15T10:00:00Z".data), none⟩]
      ⟨("/v".data), ("t".data), ("d".data)⟩ ⟨2026, 3, 1, 12, 0, 0, 0, none⟩
      (fun p => if p = ("/v/t/2026-01-15 - T.md".data) then
        some (("---\ngranola_id: abc\n---\nx".data)) else none) =
      (("/v/t/2026-01-15 - T.md".data), false,
       (fun p => if p = ("/v/t/2026-01-15 - T.md".data) then
        some (("---\ngranola_id: abc\n---\nx".data)) else none)) :=
  claim_C2_amended ("abc".data)
    ⟨some ("T".data), some ("2026-01-15T10:00:00Z".data), none, none, none, .pother⟩
    [⟨.s ("hi".data), some ("2026-01-15T10:00:00Z".data), none⟩]
    ⟨("/v".data), ("t".data), ("d".data)⟩ ⟨2026, 3, 1, 12, 0, 0, 0, none⟩
    (fun p => if p = ("/v/t/2026-01-15 - T.md".data) then
      some (("---\ngranola_id: abc\n---\nx".data)) else none)
    (("---\ngranola_id: abc\n---\nx".data)) (by decide) (by decide)

/-! ## Claim C9: name-collision handling -/

/-- The title `generate_transcript_file` resolves for a document. -/
def genTitle (doc : PyDoc) : Str := doc.title.getD ("Untitled Meeting".data)

/-- The date string `generate_transcript_file` resolves. -/
def genDateStr (entries : List Entry) (doc : PyDoc) (now : DT) : Str :=
  fmtYmd (get_meeting_date entries doc now)

/-- The time string `generate_transcript_file` resolves. -/
def genTimeStr (entries : List Entry) (doc : PyDoc) (now : DT) : Str :=
  fmtHM (get_meeting_date entries doc now)

/-- The base path `generate_transcript_file` resolves. -/
def genBase (cfg : Config) (doc : PyDoc) (entries : List Entry) (now : DT) : Str :=
  basePathOf cfg (genDateStr entries doc now) (sanitize_filename (genTitle doc))

/-- The alternate (time-suffixed) path `generate_transcript_file` resolves. -/
def genAlt (cfg : Config) (doc : PyDoc) (entries : List Entry) (now : DT) : Str :=
  altPathOf cfg (genDateStr entries doc now) (sanitize_filename (genTitle doc))
    (genTimeStr entries doc now)

/-- The full content `generate_transcript_file` writes when it creates. -/
def genContentOf (doc_id : Str) (doc : PyDoc) (entries : List Entry) (now : DT) : Str :=
  genContent doc_id doc entries (genDateStr entries doc now) (genTitle doc)

/-- Case characterisation of `generate_transcript_file`. -/
theorem gen_cases (doc_id : Str) (doc : PyDoc) (entries : List Entry)
    (cfg : Config) (now : DT) (fs : Fs) :
    generate_transcript_file doc_id doc entries cfg now fs =
      (match fs (genBase cfg doc entries now) with
       | some existing =>
         if hasSub (checkStr doc_id) existing then (genBase cfg doc entries now, false, fs)
         else
           match fs (genAlt cfg doc entries now) with
           | some _ => (genAlt cfg doc entries now, false, fs)
           | none =>
             (genAlt cfg doc entries now, true,
              fsWrite fs (genAlt cfg doc entries now) (genContentOf doc_id doc entries now))
       | none =>
         (genBase cfg doc entries now, true,
          fsWrite fs (genBase cfg doc entries now) (genContentOf doc_id doc entries now))) := rfl

/-- Writing a path makes it present. -/
theorem fsWrite_self (fs : Fs) (p c : Str) : fsWrite fs p c p = some c := by
  simp [fsWrite]

/-- Writing one path leaves every other path unchanged. -/
theorem fsWrite_other (fs : Fs) (p c q : Str) (h : q ≠ p) : fsWrite fs p c q = fs q := by
  simp [fsWrite, h]

/-- `strftime("%H%M")` always has four characters. -/
theorem fmtHM_length (dt : DT) : (fmtHM dt).length = 4 := rfl

/-- The alternate path differs from the base path (it is strictly longer). -/
theorem alt_ne_base (cfg : Config) (ds st ts : Str) (hts : ts.length = 4) :
    altPathOf cfg ds st ts ≠ basePathOf cfg ds st := by
  intro h
  have hl := congrArg List.length h
  simp only [altPathOf, basePathOf, transcriptsDir, List.length_append,
    List.length_cons, hts] at hl
  omega

/-- The alternate path of one resolution differs from the base path of
another whenever their date and title parts agree. -/
theorem genAlt_ne_genBase (cfg : Config) (d1 d2 : PyDoc) (e1 e2 : List Entry)
    (now : DT) (hds : genDateStr e2 d2 now = genDateStr e1 d1 now)
    (hst : sanitize_filename (genTitle d2) = sanitize_filename (genTitle d1)) :
    genAlt cfg d2 e2 now ≠ genBase cfg d1 e1 now := by
  unfold genAlt genBase
  rw [hds, hst]
  exact alt_ne_base cfg _ _ _ (fmtHM_length _)

/-- Claim C9, counterexample: the ids `"ab"` and `"a"` are distinct, share
title and calendar date, and yet the second sync run does *not* produce a
second file: the substring identity check `granola_id: a` finds a match
inside the first file's line `granola_id: ab`, so the second record is
skipped (`was_created = false`, same path returned), refuting "two distinct
source record ids with identical title and identical calendar date produce
two distinct transcript files". -/
theorem claim_C9_counterexample :
    (generate_transcript_file ("ab".data)
      ⟨some ("T".data), some ("2026-01-15T10:00:00Z".data), none, none, none, .pother⟩
      [⟨.s ("hi".data), some ("2026-01-15T10:00:00Z".data), none⟩]
      ⟨("/v".data), ("t".data), ("d".data)⟩ ⟨2026, 3, 1, 12, 0, 0, 0, none⟩
      (fun _ => none)).2.1 = true
  ∧ (generate_transcript_file ("a".data)
      ⟨some ("T".data), some ("2026-01-15T10:00:00Z".data), none, none, none, .pother⟩
      [⟨.s ("hi".data), some ("2026-01-15T10:00:00Z".data), none⟩]
      ⟨("/v".data), ("t".data), ("d".data)⟩ ⟨2026, 3, 1, 12, 0, 0, 0, none⟩
      (generate_transcript_file ("ab".data)
        ⟨some ("T".data), some ("2026-01-15T10:00:00Z".data), none, none, none, .pother⟩
        [⟨.s ("hi".data), some ("2026-01-15T10:00:00Z".data), none⟩]
        ⟨("/v".data), ("t".data), ("d".data)⟩ ⟨2026, 3, 1, 12, 0, 0, 0, none⟩
        (fun _ => none)).2.2).2.1 = false
  ∧ (generate_transcript_file ("a".data)
      ⟨some ("T".data), some ("2026-01-15T10:00:00Z".data), none, none, none, .pother⟩
      [⟨.s ("hi".data), some ("2026-01-15T10:00:00Z".data), none⟩]
      ⟨("/v".data), ("t".data), ("d".data)⟩ ⟨2026, 3, 1, 12, 0, 0, 0, none⟩
      (generate_transcript_file ("ab".data)
        ⟨some ("T".data), some ("2026-01-15T10:00:00Z".data), none, none, none, .pother⟩
        [⟨.s ("hi".data), some ("2026-01-15T10:00:00Z".data), none⟩]
        ⟨("/v".data), ("t".data), ("d".data)⟩ ⟨2026, 3, 1, 12, 0, 0, 0, none⟩
        (fun _ => none)).2.2).1 =
      (generate_transcript_file ("ab".data)
        ⟨some ("T".data), some ("2026-01-15T10:00:00Z".data), none, none, none, .pother⟩
        [⟨.s ("hi".data), some ("2026-01-15T10:00:00Z".data), none⟩]
        ⟨("/v".data), ("t".data), ("d".data)⟩ ⟨2026, 3, 1, 12, 0, 0, 0, none⟩
        (fun _ => none)).1 := by
  refine ⟨by decide, by decide, by decide⟩

/-- Claim C9 (amended): assume the second record's identity marker
`granola_id: {id2}` does not occur as literal text in the file written for
the first record (true for ordinary opaque ids; false e.g. when `id2` is a
prefix of `id1`).  Then two distinct source records with identical
sanitized title and identical meeting date produce two distinct files, the
second at the time-suffixed path `" ({HHMM})"`; and a third record with the
same title and date whose suffixed path is already occupied is skipped
(`was_created = false`) with no write and no error, whatever content —
whosever identity — sits at the suffixed path. -/
theorem claim_C9_amended (cfg : Config) (now : DT) (fs0 : Fs)
    (id1 id2 : Str) (d1 d2 : PyDoc) (e1 e2 : List Entry)
    (hds : genDateStr e2 d2 now = genDateStr e1 d1 now)
    (hst : sanitize_filename (genTitle d2) = sanitize_filename (genTitle d1))
    (hbase : fs0 (genBase cfg d1 e1 now) = none)
    (halt : fs0 (genAlt cfg d2 e2 now) = none)
    (hid2 : hasSub (checkStr id2) (genContentOf id1 d1 e1 now) = false) :
    (generate_transcript_file id1 d1 e1 cfg now fs0 =
      (genBase cfg d1 e1 now, true,
       fsWrite fs0 (genBase cfg d1 e1 now) (genContentOf id1 d1 e1 now)))
  ∧ (generate_transcript_file id2 d2 e2 cfg now
        (fsWrite fs0 (genBase cfg d1 e1 now) (genContentOf id1 d1 e1 now)) =
      (genAlt cfg d2 e2 now, true,
       fsWrite (fsWrite fs0 (genBase cfg d1 e1 now) (genContentOf id1 d1 e1 now))
         (genAlt cfg d2 e2 now) (genContentOf id2 d2 e2 now)))
  ∧ (genAlt cfg d2 e2 now ≠ genBase cfg d1 e1 now)
  ∧ (∀ (id3 : Str) (d3 : PyDoc) (e3 : List Entry) (fs2 : Fs),
      genDateStr e3 d3 now = genDateStr e1 d1 now →
      sanitize_filename (genTitle d3) = sanitize_filename (genTitle d1) →
      fs2 (genBase cfg d1 e1 now) = some (genContentOf id1 d1 e1 now) →
      hasSub (checkStr id3) (genContentOf id1 d1 e1 now) = false →
      (fs2 (genAlt cfg d3 e3 now)).isSome = true →
      generate_transcript_file id3 d3 e3 cfg now fs2 =
        (genAlt cfg d3 e3 now, false, fs2)) := by
  have hne : genAlt cfg d2 e2 now ≠ genBase cfg d1 e1 now :=
    genAlt_ne_genBase cfg d1 d2 e1 e2 now hds hst
  refine ⟨?_, ?_, hne, ?_⟩
  · rw [gen_cases, hbase]
  · rw [gen_cases]
    have hb2 : genBase cfg d2 e2 now = genBase cfg d1 e1 now := by
      unfold genBase
      rw [hds, hst]
    rw [hb2, fsWrite_self]
    simp only [hid2, Bool.false_eq_true, if_false]
    rw [fsWrite_other fs0 (genBase cfg d1 e1 now) (genContentOf id1 d1 e1 now)
      (genAlt cfg d2 e2 now) hne, halt]
  · intro id3 d3 e3 fs2 hds3 hst3 hfs2 hid3 hsome
    rw [gen_cases]
    have hb3 : genBase cfg d3 e3 now = genBase cfg d1 e1 now := by
      unfold genBase
      rw [hds3, hst3]
    rw [hb3, hfs2]
    simp only [hid3, Bool.false_eq_true, if_false]
    match ha : fs2 (genAlt cfg d3 e3 now) with
    | some _ => rfl
    | none => rw [ha] at hsome; exact absurd hsome (by simp)

/-- Claim C9, witness: the amended theorem at a concrete configuration and
two concrete colliding records. -/
theorem claim_C9_witness :
    generate_transcript_file ("id2x".data)
      ⟨some ("T".data), some ("2026-01-15T10:00:00Z".data), none, none, none, .pother⟩
      [⟨.s ("hi".data), some ("2026-01-15T10:00:00Z".data), none⟩]
      ⟨("/v".data), ("t".data), ("d".data)⟩ ⟨2026, 3, 1, 12, 0, 0, 0, none⟩
      (fsWrite (fun _ => none)
        (genBase ⟨("/v".data), ("t".data), ("d".data)⟩
          ⟨some ("T".data), some ("2026-01-15T10:00:00Z".data), none, none, none, .pother⟩
          [⟨.s ("hi".data), some ("2026-01-15T10:00:00Z".data), none⟩]
          ⟨2026, 3, 1, 12, 0, 0, 0, none⟩)
        (genContentOf ("id1x".data)
          ⟨some ("T".data), some ("2026-01-15T10:00:00Z".data), none, none, none, .pother⟩
          [⟨.s ("hi".data), some ("2026-01-15T10:00:00Z".data), none⟩]
          ⟨2026, 3, 1, 12, 0, 0, 0, none⟩)) =
      (genAlt ⟨("/v".data), ("t".data), ("d".data)⟩
        ⟨some ("T".data), some ("2026-01-15T10:00:00Z".data), none, none, none, .pother⟩
        [⟨.s ("hi".data), some ("2026-01-15T10:00:00Z".data), none⟩]
        ⟨2026, 3, 1, 12, 0, 0, 0, none⟩, true,
       fsWrite
        (fsWrite (fun _ => none)
          (genBase ⟨("/v".data), ("t".data), ("d".data)⟩
            ⟨some ("T".data), some ("2026-01-15T10:00:00Z".data), none, none, none, .pother⟩
            [⟨.s ("hi".data), some ("2026-01-15T10:00:00Z".data), none⟩]
            ⟨2026, 3, 1, 12, 0, 0, 0, none⟩)
          (genContentOf ("id1x".data)
            ⟨some ("T".data), some ("2026-01-15T10:00:00Z".data), none, none, none, .pother⟩
            [⟨.s ("hi".data), some ("2026-01-15T10:00:00Z".data), none⟩]
            ⟨2026, 3, 1, 12, 0, 0, 0, none⟩))
        (genAlt ⟨("/v".data), ("t".data), ("d".data)⟩
          ⟨some ("T".data), some ("2026-01-15T10:00:00Z".data), none, none, none, .pother⟩
          [⟨.s ("hi".data), some ("2026-01-15T10:00:00Z".data), none⟩]
          ⟨2026, 3, 1, 12, 0, 0, 0, none⟩)
        (genContentOf ("id2x".data)
          ⟨some ("T".data), some ("2026-01-15T10:00:00Z".data), none, none, none, .pother⟩
          [⟨.s ("hi".data), some ("2026-01-15T10:00:00Z".data), none⟩]
          ⟨2026, 3, 1, 12, 0, 0, 0, none⟩)) :=
  (claim_C9_amended ⟨("/v".data), ("t".data), ("d".data)⟩ ⟨2026, 3, 1, 12, 0, 0, 0, none⟩
    (fun _ => none) ("id1x".data) ("id2x".data)
    ⟨some ("T".data), some ("2026-01-15T10:00:00Z".data), none, none, none, .pother⟩
    ⟨some ("T".data), some ("2026-01-15T10:00:00Z".data), none, none, none, .pother⟩
    [⟨.s ("hi".data), some ("2026-01-15T10:00:00Z".data), none⟩]
    [⟨.s ("hi".data), some ("2026-01-15T10:00:00Z".data), none⟩]
    rfl rfl rfl rfl (by decide)).2.1

/-! ## Claim C3: daily-link idempotence -/

/-- The wiki-link token `add_meeting_to_daily` checks for. -/
def linkToken (link : Str) : Str := ("[[".data) ++ link ++ ("]]".data)

/-- Case characterisation of `add_meeting_to_daily`. -/
theorem add_meeting_cases (mdt : DT) (title : Str) (notes : NoteV) (tpath : Str)
    (cfg : Config) (fs : Fs) :
    add_meeting_to_daily mdt title notes tpath cfg fs =
      (let daily := get_daily_file_path mdt cfg
       let fs' := if (fs daily).isSome then fs else create_daily_file mdt cfg fs
       let content := (fs' daily).getD []
       match relativeToVault cfg.vault tpath with
       | none => (.error .valueError, fs')
       | some rel =>
         let link := pyReplace (".md".data) [] rel
         if hasSub (linkToken link) content then (.ok false, fs')
         else
           match (if noteTruthy notes then none else some ("*Notes pending*".data)),
                 notes with
           | some placeholder, _ =>
             add_meeting_to_daily.addMeetingWrite daily title placeholder link content fs'
           | none, .other _ => (.error .attrError, fs')
           | none, .s v =>
             let summary := stripStr v
             let summary :=
               if 500 < summary.length then summary.take 500 ++ ("...".data) else summary
             add_meeting_to_daily.addMeetingWrite daily title (bulletize summary) link
               content fs') := rfl

/-- The meeting entry block contains the wiki-link token wherever it is
spliced. -/
theorem meetingEntry_hasToken (title summary link X Y : Str) :
    hasSub (linkToken link) (X ++ meetingEntry title summary link ++ Y) = true := by
  have hsplit : X ++ meetingEntry title summary link ++ Y =
      (X ++ (('\n' :: ("### ".data)) ++ title ++ ('\n' :: summary) ++ ("\n*→ ".data)))
        ++ linkToken link ++ (("*\n".data) ++ Y) := by
    simp only [meetingEntry, linkToken, List.append_assoc, List.cons_append,
      List.nil_append]
  rw [hsplit]
  exact hasSub_intro _ _ _

/-- A replacement with at least one occurrence embeds the replacement text
in the output. -/
theorem pyReplace_occurs (old new s : Str) (hold : old ≠ [])
    (h : hasSub old s = true) :
    ∃ X Y, pyReplace old new s = X ++ new ++ Y := by
  match s with
  | [] =>
    unfold hasSub brkOn at h
    rw [if_neg hold] at h
    exact absurd h (by simp)
  | c :: cs =>
    unfold hasSub at h
    match hb : brkOn old (c :: cs) with
    | some (a, b) =>
      refine ⟨a, pyReplaceAux old new cs.length b, ?_⟩
      show pyReplaceAux old new (cs.length + 1) (c :: cs) = _
      show (match brkOn old (c :: cs) with
            | none => c :: cs
            | some (a, b) => a ++ new ++ pyReplaceAux old new cs.length b) = _
      rw [hb]
    | none => rw [hb] at h; exact absurd h (by simp)

/-- `create_daily_file` guarantees the daily file exists afterwards. -/
theorem create_daily_isSome (mdt : DT) (cfg : Config) (fs : Fs) :
    (create_daily_file mdt cfg fs (get_daily_file_path mdt cfg)).isSome = true := by
  unfold create_daily_file
  match h : fs (get_daily_file_path mdt cfg) with
  | some w => show (fs (get_daily_file_path mdt cfg)).isSome = true; rw [h]; rfl
  | none =>
    show (fsWrite fs (get_daily_file_path mdt cfg) (dailyTemplate mdt)
      (get_daily_file_path mdt cfg)).isSome = true
    rw [fsWrite_self]
    rfl

/-- Both fallback branches write the daily file with content containing the
wiki-link token, and return `True`. -/
theorem addMeetingFallback_spec (daily title summary link content : Str) (fs : Fs) :
    ∃ c', addMeetingFallback daily title summary link content fs =
        (.ok true, fsWrite fs daily c') ∧
      hasSub (linkToken link) c' = true := by
  unfold addMeetingFallback
  by_cases hbd : hasSub ("## Brain Dump".data) content = true
  · rw [if_pos hbd]
    obtain ⟨X, Y, hxy⟩ := pyReplace_occurs ("## Brain Dump".data)
      (("## Meetings\n".data) ++ meetingEntry title summary link ++
        ("\n---\n\n## Brain Dump".data)) content (by decide) hbd
    refine ⟨_, rfl, ?_⟩
    rw [hxy]
    have hsplit : X ++ (("## Meetings\n".data) ++ meetingEntry title summary link ++
        ("\n---\n\n## Brain Dump".data)) ++ Y =
        (X ++ ("## Meetings\n".data)) ++ meetingEntry title summary link ++
          (("\n---\n\n## Brain Dump".data) ++ Y) := by
      simp [List.append_assoc]
    rw [hsplit]
    exact meetingEntry_hasToken _ _ _ _ _
  · rw [if_neg hbd]
    refine ⟨_, rfl, ?_⟩
    have hsplit : rstripStr content ++ ("\n\n## Meetings\n".data) ++
        meetingEntry title summary link =
        (rstripStr content ++ ("\n\n## Meetings\n".data)) ++
          meetingEntry title summary link ++ ([] : Str) := by
      simp [List.append_assoc]
    rw [hsplit]
    exact meetingEntry_hasToken _ _ _ _ _

/-- Both splice branches write the daily file with content containing the
wiki-link token, and return `True`. -/
theorem addMeetingSplice_spec (daily title summary link before after : Str) (fs : Fs) :
    ∃ c', addMeetingSplice daily title summary link before after fs =
        (.ok true, fsWrite fs daily c') ∧
      hasSub (linkToken link) c' = true := by
  unfold addMeetingSplice
  match hb : brkOn ("\n## ".data) after with
  | some (mid, post) =>
    refine ⟨_, rfl, ?_⟩
    have hsplit : before ++ ("## Meetings".data) ++ mid ++
        meetingEntry title summary link ++ ("\n## ".data) ++ post =
        (before ++ ("## Meetings".data) ++ mid) ++
          meetingEntry title summary link ++ (("\n## ".data) ++ post) := by
      simp [List.append_assoc]
    rw [hsplit]
    exact meetingEntry_hasToken _ _ _ _ _
  | none =>
    refine ⟨_, rfl, ?_⟩
    have hsplit : before ++ ("## Meetings".data) ++ rstripStr after ++
        meetingEntry title summary link ++ ("\n".data) =
        (before ++ ("## Meetings".data) ++ rstripStr after) ++
          meetingEntry title summary link ++ ("\n".data) := by
      simp [List.append_assoc]
    rw [hsplit]
    exact meetingEntry_hasToken _ _ _ _ _

/-- Every branch of the insertion tail writes the daily file with content
containing the wiki-link token, and returns `True`. -/
theorem addMeetingWrite_spec (daily title summary link content : Str) (fs : Fs) :
    ∃ c', add_meeting_to_daily.addMeetingWrite daily title summary link content fs =
        (.ok true, fsWrite fs daily c') ∧
      hasSub (linkToken link) c' = true := by
  unfold add_meeting_to_daily.addMeetingWrite
  by_cases hm : hasSub ("## Meetings".data) content = true
  · rw [if_pos hm]
    match hs : pySplitAll ("## Meetings".data) content with
    | [before, after] => exact addMeetingSplice_spec daily title summary link before after fs
    | [] => exact addMeetingFallback_spec daily title summary link content fs
    | [_] => exact addMeetingFallback_spec daily title summary link content fs
    | _ :: _ :: _ :: _ => exact addMeetingFallback_spec daily title summary link content fs
  · rw [if_neg hm]
    exact addMeetingFallback_spec daily title summary link content fs

/-- Whatever `add_meeting_to_daily` does with a string-valued notes argument:
it returns without error, and afterwards the daily file exists and contains
the wiki-link token. -/
theorem add_meeting_writes_token (mdt : DT) (title v : Str) (tpath rel : Str)
    (cfg : Config) (fs : Fs)
    (hrel : relativeToVault cfg.vault tpath = some rel) :
    ∃ c', (add_meeting_to_daily mdt title (.s v) tpath cfg fs).2
        (get_daily_file_path mdt cfg) = some c' ∧
      hasSub (linkToken (pyReplace (".md".data) [] rel)) c' = true := by
  rw [add_meeting_cases]
  simp only [hrel]
  set daily := get_daily_file_path mdt cfg with hdaily
  set fs' := if (fs daily).isSome then fs else create_daily_file mdt cfg fs with hfs'
  set content := (fs' daily).getD [] with hcontent
  set link := pyReplace (".md".data) [] rel with hlink
  by_cases htok : hasSub (linkToken link) content = true
  · rw [if_pos htok]
    have hsome : (fs' daily).isSome = true := by
      rw [hfs']
      match h : fs daily with
      | some w => simp [h]
      | none =>
        simp only [h, Option.isSome_none, Bool.false_eq_true, if_false]
        exact create_daily_isSome mdt cfg fs
    match hc : fs' daily with
    | some c0 =>
      refine ⟨c0, hc, ?_⟩
      rw [hcontent, hc] at htok
      exact htok
    | none => rw [hc] at hsome; exact absurd hsome (by simp)
  · rw [if_neg htok]
    match hvb : noteTruthy (NoteV.s v) with
    | true =>
      show ∃ c', ((add_meeting_to_daily.addMeetingWrite daily title
          (bulletize (if 500 < (stripStr v).length then
            (stripStr v).take 500 ++ ("...".data) else stripStr v))
          link content fs').2) daily = some c' ∧
        hasSub (linkToken link) c' = true
      obtain ⟨c', heq, htok'⟩ := addMeetingWrite_spec daily title
        (bulletize (if 500 < (stripStr v).length then
          (stripStr v).take 500 ++ ("...".data) else stripStr v)) link content fs'
      rw [heq]
      exact ⟨c', fsWrite_self fs' daily c', htok'⟩
    | false =>
      show ∃ c', ((add_meeting_to_daily.addMeetingWrite daily title
          ("*Notes pending*".data) link content fs').2) daily = some c' ∧
        hasSub (linkToken link) c' = true
      obtain ⟨c', heq, htok'⟩ := addMeetingWrite_spec daily title
        ("*Notes pending*".data) link content fs'
      rw [heq]
      exact ⟨c', fsWrite_self fs' daily c', htok'⟩

/-- Claim C3: `add_meeting_to_daily` is idempotent in the link token.  (i)
Whenever the vault-relative wiki-link token derived from the transcript path
already appears anywhere in the existing day document, the call returns
`False` and leaves the file system unchanged.  (ii) Hence invoking it twice
with the same transcript path never duplicates the token: the second
invocation always returns `False` and changes nothing, because the first
leaves the token present. -/
theorem claim_C3 (mdt : DT) (title : Str) (tpath rel : Str) (cfg : Config)
    (hrel : relativeToVault cfg.vault tpath = some rel) :
    (∀ (notes : NoteV) (fs : Fs) (content : Str),
      fs (get_daily_file_path mdt cfg) = some content →
      hasSub (linkToken (pyReplace (".md".data) [] rel)) content = true →
      add_meeting_to_daily mdt title notes tpath cfg fs = (.ok false, fs))
  ∧ (∀ (v : Str) (fs0 : Fs),
      add_meeting_to_daily mdt title (.s v) tpath cfg
          (add_meeting_to_daily mdt title (.s v) tpath cfg fs0).2 =
        (.ok false, (add_meeting_to_daily mdt title (.s v) tpath cfg fs0).2)) := by
  have hpresent : ∀ (notes : NoteV) (fs : Fs) (content : Str),
      fs (get_daily_file_path mdt cfg) = some content →
      hasSub (linkToken (pyReplace (".md".data) [] rel)) content = true →
      add_meeting_to_daily mdt title notes tpath cfg fs = (.ok false, fs) := by
    intro notes fs content hex htok
    rw [add_meeting_cases]
    simp only [hex, Option.isSome_some, if_true, Option.getD_some, hrel, htok, if_pos]
  refine ⟨hpresent, ?_⟩
  intro v fs0
  obtain ⟨c', hc', htok'⟩ := add_meeting_writes_token mdt title v tpath rel cfg fs0 hrel
  exact hpresent (.s v) _ c' hc' htok'

/-- Claim C3, witness: a concrete day file already containing the link token
is left unchanged with result `False`. -/
theorem claim_C3_witness :
    add_meeting_to_daily ⟨2026, 1, 15, 10, 0, 0, 0, none⟩ ("T".data) (.s ("n".data))
        ("/v/t/m.md".data) ⟨("/v".data), ("t".data), ("d".data)⟩
        (fun p => if p = ("/v/d/2026-01-15.md".data) then
          some ("## Meetings\n[[t/m]]\n".data) else none) =
      (.ok false,
       (fun p => if p = ("/v/d/2026-01-15.md".data) then
          some ("## Meetings\n[[t/m]]\n".data) else none)) :=
  (claim_C3 ⟨2026, 1, 15, 10, 0, 0, 0, none⟩ ("T".data) ("/v/t/m.md".data)
    ("t/m.md".data) ⟨("/v".data), ("t".data), ("d".data)⟩ (by decide)).1
    (.s ("n".data))
    (fun p => if p = ("/v/d/2026-01-15.md".data) then
      some ("## Meetings\n[[t/m]]\n".data) else none)
    ("## Meetings\n[[t/m]]\n".data) (by decide) (by decide)

/-! ## Claim C8: splice frame around the Meetings boundary -/

/-- A two-part split certifies an occurrence of the separator. -/
theorem hasSub_of_pySplitAll_pair (sep s a b : Str)
    (h : pySplitAll sep s = [a, b]) : hasSub sep s = true := by
  unfold pySplitAll at h
  match hl : s.length with
  | 0 =>
    rw [hl] at h
    unfold pySplit at h
    exact absurd h (by simp)
  | k + 1 =>
    rw [hl] at h
    unfold pySplit at h
    unfold hasSub
    match hb : brkOn sep s with
    | some _ => rfl
    | none => rw [hb] at h; exact absurd h (by simp)

/-- Claim C8, counterexample: a day document whose user-authored Brain Dump
text itself contains the literal line `## Brain Dump` (and no `## Meetings`
section) is patched via `content.replace("## Brain Dump", ...)`, which
replaces *every* occurrence: the text following the first `## Brain Dump`
heading — the user's Brain Dump text — is modified, refuting "leaves that
Brain Dump text byte-for-byte unchanged" for every day document. -/
theorem claim_C8_counterexample :
    (brkOn ("## Brain Dump".data)
        (((add_meeting_to_daily ⟨2026, 1, 15, 10, 0, 0, 0, none⟩ ("T".data)
            (.s ("n".data)) ("/v/t/m.md".data)
            ⟨("/v".data), ("t".data), ("d".data)⟩
            (fun p => if p = ("/v/d/2026-01-15.md".data) then
              some ("## Brain Dump\nA ## Brain Dump B\n".data) else none)).2
            ("/v/d/2026-01-15.md".data)).getD [])).map Prod.snd ≠
      (brkOn ("## Brain Dump".data)
        ("## Brain Dump\nA ## Brain Dump B\n".data)).map Prod.snd := by
  decide

/-- Claim C8 (amended): for every day document in which `## Meetings` occurs
exactly once and a later second-level heading boundary `"\n## "` exists,
and whose content does not yet contain the wiki-link token,
`add_meeting_to_daily` (with non-empty string notes) writes exactly
`before ++ "## Meetings" ++ mid ++ entry ++ "\n## " ++ post`: the meeting
entry is inserted immediately before the next second-level heading, and
everything from that boundary onward — including any `## Brain Dump`
section and its user-authored text — is preserved byte-for-byte. -/
theorem claim_C8_amended (mdt : DT) (title v : Str) (tpath rel : Str)
    (cfg : Config) (fs : Fs) (content before after mid post : Str)
    (hex : fs (get_daily_file_path mdt cfg) = some content)
    (hrel : relativeToVault cfg.vault tpath = some rel)
    (htok : hasSub (linkToken (pyReplace (".md".data) [] rel)) content = false)
    (hv : v ≠ [])
    (hsplit : pySplitAll ("## Meetings".data) content = [before, after])
    (hb : brkOn ("\n## ".data) after = some (mid, post)) :
    add_meeting_to_daily mdt title (.s v) tpath cfg fs =
      (.ok true,
       fsWrite fs (get_daily_file_path mdt cfg)
         (before ++ ("## Meetings".data) ++ mid ++
          meetingEntry title
            (bulletize (if 500 < (stripStr v).length then
              (stripStr v).take 500 ++ ("...".data) else stripStr v))
            (pyReplace (".md".data) [] rel) ++
          ("\n## ".data) ++ post)) := by
  rw [add_meeting_cases]
  simp only [hex, Option.isSome_some, if_true, Option.getD_some, hrel]
  rw [htok]
  simp only [Bool.false_eq_true, if_false]
  have hvt : noteTruthy (NoteV.s v) = true := by
    unfold noteTruthy
    simp [hv]
  rw [hvt]
  show add_meeting_to_daily.addMeetingWrite (get_daily_file_path mdt cfg) title
      (bulletize (if 500 < (stripStr v).length then
        (stripStr v).take 500 ++ ("...".data) else stripStr v))
      (pyReplace (".md".data) [] rel) content fs = _
  unfold add_meeting_to_daily.addMeetingWrite
  rw [if_pos (hasSub_of_pySplitAll_pair _ _ _ _ hsplit), hsplit]
  show addMeetingSplice (get_daily_file_path mdt cfg) title _ _ before after fs = _
  unfold addMeetingSplice
  rw [hb]

/-- Claim C8, witness: the amended theorem applied to a concrete day
document with a Meetings section, a Social section and user-authored Brain
Dump text. -/
theorem claim_C8_witness :
    add_meeting_to_daily ⟨2026, 1, 15, 10, 0, 0, 0, none⟩ ("T".data)
        (.s ("note text".data)) ("/v/t/m.md".data)
        ⟨("/v".data), ("t".data), ("d".data)⟩
        (fun p => if p = ("/v/d/2026-01-15.md".data) then
          some ("## Meetings\n\n---\n\n## Social\n\n---\n\n## Brain Dump\nmy thoughts\n".data)
          else none) =
      (.ok true,
       fsWrite
        (fun p => if p = ("/v/d/2026-01-15.md".data) then
          some ("## Meetings\n\n---\n\n## Social\n\n---\n\n## Brain Dump\nmy thoughts\n".data)
          else none)
        ("/v/d/2026-01-15.md".data)
        (([] : Str) ++ ("## Meetings".data) ++ ("\n\n---\n".data) ++
         meetingEntry ("T".data)
           (bulletize (if 500 < (stripStr ("note text".data)).length then
             (stripStr ("note text".data)).take 500 ++ ("...".data)
             else stripStr ("note text".data)))
           (pyReplace (".md".data) [] ("t/m.md".data)) ++
         ("\n## ".data) ++
         ("Social\n\n---\n\n## Brain Dump\nmy thoughts\n".data))) :=
  claim_C8_amended ⟨2026, 1, 15, 10, 0, 0, 0, none⟩ ("T".data) ("note text".data)
    ("/v/t/m.md".data) ("t/m.md".data) ⟨("/v".data), ("t".data), ("d".data)⟩
    (fun p => if p = ("/v/d/2026-01-15.md".data) then
      some ("## Meetings\n\n---\n\n## Social\n\n---\n\n## Brain Dump\nmy thoughts\n".data)
      else none)
    ("## Meetings\n\n---\n\n## Social\n\n---\n\n## Brain Dump\nmy thoughts\n".data)
    ([] : Str) ("\n\n---\n\n## Social\n\n---\n\n## Brain Dump\nmy thoughts\n".data)
    ("\n\n---\n".data) ("Social\n\n---\n\n## Brain Dump\nmy thoughts\n".data)
    (by decide) (by decide) (by decide) (by decide) (by decide) (by decide)

/-! ## Claim C10: the final write of process_transcript -/

/-- Claim C10: whenever `process_transcript` completes its full path
(returns `True`), the transcript file's final content equals
`update_frontmatter` applied, with `{processed: true}`, to the content read
at the start of the call — the final write at line 392-393 is computed from
that initially read content, so any Notes-placeholder replacement written to
the same file mid-call by `update_notes_section` is overwritten, and a
non-empty generated summary never survives into the file's final content
within the same run. -/
theorem claim_C10 (tpath : Str) (cfg : Config) (analysis : Analysis) (fs fs' : Fs)
    (h : process_transcript tpath cfg analysis fs = .ok (true, fs')) :
    fs' tpath =
      some (update_frontmatter ((fs tpath).getD [])
        [(("processed".data), .bool true)]) := by
  unfold process_transcript at h
  by_cases h1 : fmTruthy (fmGetD (parse_frontmatter ((fs tpath).getD [])).1
      ("processed".data) (.bool false)) = true
  · rw [if_pos h1] at h
    exact absurd h (by simp)
  · rw [if_neg h1] at h
    by_cases h2 : (extract_transcript_section
        (parse_frontmatter ((fs tpath).getD [])).2).length < 100
    · rw [if_pos h2] at h
      exact absurd h (by simp)
    · rw [if_neg h2] at h
      match hstep : (if analysis.action_items.isEmpty then Except.ok fs
          else
            match add_action_items_to_daily analysis.action_items
                (fmGetD (parse_frontmatter ((fs tpath).getD [])).1 ("date".data)
                  (.str []))
                (pyStrV (fmGetD (parse_frontmatter ((fs tpath).getD [])).1
                  ("title".data) (.str ("Unknown Meeting".data)))) cfg fs with
            | .ok (_, fs') => Except.ok fs'
            | .error e => Except.error e) with
      | .error e =>
        rw [hstep] at h
        exact absurd h (by simp)
      | .ok fs1 =>
        rw [hstep] at h
        have h' := h
        injection h' with hok
        injection hok with _ hfs
        rw [← hfs, fsWrite_self]

/-- Claim C10, witness: a concrete unprocessed transcript with a non-empty
generated summary — the Notes placeholder is replaced mid-call, yet the
final content is `update_frontmatter` of the initially read content, with
the placeholder intact and `processed: true`. -/
theorem claim_C10_witness :
    ((process_transcript ("/v/t/2026-01-15 - T.md".data)
        ⟨("/v".data), ("t".data), ("d".data)⟩
        ⟨[], [], ("a summary line".data)⟩
        (fun p => if p = ("/v/t/2026-01-15 - T.md".data) then
          some (("---\ndate: \"2026-01-15\"\ntitle: T\nprocessed: false\n---\n\n## Notes\n\n*No AI notes available - will be generated during processing*\n\n---\n\n## Transcript\n\nwords words words words words words words words words words words words words words words words words words".data))
          else none)).toOption.getD (false, fun _ => none)).2
      ("/v/t/2026-01-15 - T.md".data) =
      some (update_frontmatter
        (((fun p => if p = ("/v/t/2026-01-15 - T.md".data) then
          some (("---\ndate: \"2026-01-15\"\ntitle: T\nprocessed: false\n---\n\n## Notes\n\n*No AI notes available - will be generated during processing*\n\n---\n\n## Transcript\n\nwords words words words words words words words words words words words words words words words words words".data))
          else none) ("/v/t/2026-01-15 - T.md".data)).getD [])
        [(("processed".data), .bool true)]) :=
  claim_C10 ("/v/t/2026-01-15 - T.md".data)
    ⟨("/v".data), ("t".data), ("d".data)⟩
    ⟨[], [], ("a summary line".data)⟩
    (fun p => if p = ("/v/t/2026-01-15 - T.md".data) then
      some (("---\ndate: \"2026-01-15\"\ntitle: T\nprocessed: false\n---\n\n## Notes\n\n*No AI notes available - will be generated during processing*\n\n---\n\n## Transcript\n\nwords words words words words words words words words words words words words words words words words words".data))
      else none) _ rfl

/-! ## Claim C4: frontmatter round-trip -/

/-- Characters allowed in a round-trip-safe frontmatter key. -/
def keySafeCh (c : Char) : Bool := c.isAlpha || c.isDigit || c == '_'

/-- A round-trip-safe key: non-empty, alphabetic head, word characters. -/
def keySafe (k : Str) : Bool :=
  (match k with | c :: _ => c.isAlpha | [] => false) && k.all keySafeCh

/-- Characters allowed in a round-trip-safe plain string value. -/
def plainCh (c : Char) : Bool :=
  c.isAlpha || c.isDigit || c == ' ' || c == '_' || c == '.' || c == '(' ||
  c == ')' || c == ',' || c == '/'

/-- Lower-cased copy of a string. -/
def lowerStr (s : Str) : Str := s.map Char.toLower

/-- Does this string lower-case to a YAML 1.1 keyword (boolean or null)? -/
def yamlWordLike (s : Str) : Bool :=
  lowerStr s ∈ [("yes".data), ("no".data), ("true".data), ("false".data),
    ("on".data), ("off".data), ("null".data)]

/-- A round-trip-safe plain string scalar: alphabetic head, no trailing
space, characters from the plain set (so no `:`/`"`/newline/`-`/`#`), and
not a YAML keyword in any casing — exactly the strings PyYAML's resolver
loads back as the same string. -/
def plainSafe (v : Str) : Bool :=
  (match v with | c :: _ => c.isAlpha | [] => false) &&
  v.all plainCh &&
  (match v.getLast? with | some c => !(c == ' ') | none => false) &&
  !yamlWordLike v

/-- A round-trip-safe frontmatter value under key `k`: plain-safe strings,
booleans, integers, and — under the `attendees` key only — non-empty lists
of plain-safe strings. -/
def wfVal (k : Str) : FmVal → Bool
  | .str v => plainSafe v
  | .bool _ => true
  | .int _ => true
  | .list items =>
    k == ("attendees".data) && !items.isEmpty &&
    items.all (fun a => match a with | .str s => plainSafe s | _ => false)
  | .null => false
  | .date _ _ _ => false

/-- A round-trip-safe frontmatter mapping: distinct safe keys, safe values. -/
def wfFm (m : List (Str × FmVal)) : Bool :=
  decide ((m.map Prod.fst).Nodup) && m.all (fun p => keySafe p.1 && wfVal p.1 p.2)

/-- `brkOn` at a leading occurrence of the pattern. -/
theorem brkOn_pfx (pat b : Str) (h : pat ≠ []) : brkOn pat (pat ++ b) = some ([], b) := by
  match pat with
  | [] => exact absurd rfl h
  | p :: ps =>
    have hpre : List.isPrefixOf (p :: ps) (p :: (ps ++ b)) = true := by
      rw [← List.cons_append]
      exact List.isPrefixOf_iff_prefix.mpr (List.prefix_append _ _)
    show brkOn (p :: ps) (p :: (ps ++ b)) = some ([], b)
    unfold brkOn
    rw [if_pos hpre]
    have hdrop : List.drop (p :: ps).length (p :: (ps ++ b)) = b := by
      rw [← List.cons_append, List.drop_left]
    rw [hdrop]

/-- `brkOn` for a single-character pattern absent from the left part. -/
theorem brkOn_single (c : Char) (b : Str) :
    ∀ a : Str, a.all (fun x => !(x == c)) = true →
    brkOn [c] (a ++ c :: b) = some (a, b) := by
  intro a
  induction a with
  | nil =>
    intro _
    rw [List.nil_append]
    exact brkOn_pfx [c] b (by simp)
  | cons d a ih =>
    intro h
    rw [List.all_cons] at h
    have hd : (d == c) = false := by
      cases hdc : d == c
      · rfl
      · rw [hdc] at h; exact absurd h (by simp)
    rw [List.cons_append]
    unfold brkOn
    have hpre : List.isPrefixOf [c] (d :: (a ++ c :: b)) = false := by
      show (c == d && List.isPrefixOf [] (a ++ c :: b)) = false
      rw [List.isPrefixOf]
      rw [Bool.and_true]
      cases hcd : c == d
      · rfl
      · have hcd' : c = d := by simpa using hcd
        subst hcd'
        simp at hd
    rw [hpre]
    simp only [Bool.false_eq_true, if_false]
    have hrest : (a.all fun x => !x == c) = true := by
      rw [Bool.and_eq_true] at h
      exact h.2
    rw [ih hrest]

/-- `lstrip` is the identity when the head is not whitespace. -/
theorem lstrip_noop (s : Str)
    (h : ∀ c, s.head? = some c → isPySpace c = false) : lstripStr s = s := by
  match s with
  | [] => rfl
  | c :: rest =>
    unfold lstripStr
    rw [List.dropWhile_cons_of_neg]
    rw [h c rfl]
    simp

/-- `rstrip` is the identity when the last character is not whitespace. -/
theorem rstrip_noop (s : Str)
    (h : ∀ c, s.getLast? = some c → isPySpace c = false) : rstripStr s = s := by
  unfold rstripStr
  match hs : s.reverse with
  | [] =>
    have : s = [] := by
      have := congrArg List.reverse hs
      simpa using this
    rw [this]
    rfl
  | c :: rest =>
    have hlast : s.getLast? = some c := by
      rw [← List.head?_reverse, hs]
      rfl
    rw [List.dropWhile_cons_of_neg]
    · rw [← hs, List.reverse_reverse]
    · rw [h c hlast]
      simp

/-- `lstrip` eats one leading space. -/
theorem lstrip_space (s : Str) : lstripStr (' ' :: s) = lstripStr s := by
  unfold lstripStr
  rw [List.dropWhile_cons_of_pos]
  rfl

/-- A character satisfying a predicate differs from any character refuting it. -/
theorem boolPredNe {p : Char → Bool} {c x : Char} (h : p c = true) (hx : p x = false) :
    (c == x) = false := by
  cases hcx : c == x
  · rfl
  · have : c = x := by simpa using hcx
    rw [this] at h
    rw [h] at hx
    exact absurd hx (by simp)

/-- An alphabetic character is not a digit. -/
theorem alpha_not_digit (c : Char) (h : c.isAlpha = true) : c.isDigit = false := by
  cases hd : c.isDigit
  · rfl
  · exfalso
    simp only [Char.isDigit, Bool.and_eq_true, decide_eq_true_eq] at hd
    simp only [Char.isAlpha, Char.isUpper, Char.isLower, Bool.or_eq_true,
      Bool.and_eq_true, decide_eq_true_eq] at h
    obtain ⟨hd1, hd2⟩ := hd
    simp only [ge_iff_le, UInt32.le_def, BitVec.le_def, BitVec.toNat_ofNat] at hd1 hd2 h
    norm_num at hd1 hd2 h
    rcases h with ⟨ha, hb⟩ | ⟨ha, hb⟩ <;> omega

/-- An alphabetic character is not Python whitespace. -/
theorem alpha_not_space (c : Char) (h : c.isAlpha = true) : isPySpace c = false := by
  unfold isPySpace
  rw [boolPredNe h (show Char.isAlpha ' ' = false by decide),
      boolPredNe h (show Char.isAlpha '\t' = false by decide),
      boolPredNe h (show Char.isAlpha '\n' = false by decide),
      boolPredNe h (show Char.isAlpha '\r' = false by decide),
      boolPredNe h (show Char.isAlpha '\x0b' = false by decide),
      boolPredNe h (show Char.isAlpha '\x0c' = false by decide)]
  rfl

/-- A plain-set character other than the space itself is not Python whitespace. -/
theorem plainCh_not_space (c : Char) (h : plainCh c = true) (hsp : (c == ' ') = false) :
    isPySpace c = false := by
  unfold isPySpace
  rw [hsp, boolPredNe h (show plainCh '\t' = false by decide),
      boolPredNe h (show plainCh '\n' = false by decide),
      boolPredNe h (show plainCh '\r' = false by decide),
      boolPredNe h (show plainCh '\x0b' = false by decide),
      boolPredNe h (show plainCh '\x0c' = false by decide)]
  rfl

/-- Specification form of the decimal digits of a natural number. -/
def digitsSpec (n : Nat) : Str :=
  if n < 10 then [digitCh n]
  else digitsSpec (n / 10) ++ [digitCh (n % 10)]
termination_by n
decreasing_by exact Nat.div_lt_self (by omega) (by omega)

/-- The fuelled digit writer agrees with `digitsSpec` given enough fuel. -/
theorem natToStrAux_eq : ∀ (f n : Nat) (acc : Str), n < 10 ^ (f + 1) →
    natToStrAux (f + 1) n acc = digitsSpec n ++ acc := by
  intro f
  induction f with
  | zero =>
    intro n acc h
    unfold natToStrAux digitsSpec
    rw [if_pos (by simpa using h), if_pos (by simpa using h)]
    rfl
  | succ f ih =>
    intro n acc h
    by_cases h10 : n < 10
    · unfold natToStrAux digitsSpec
      rw [if_pos h10, if_pos h10]
      rfl
    · have hstep : natToStrAux (f + 1 + 1) n acc =
          natToStrAux (f + 1) (n / 10) (digitCh (n % 10) :: acc) := by
        conv_lhs => rw [natToStrAux]
        rw [if_neg h10]
      rw [hstep, ih (n / 10) _ (by
        have hpow : 10 ^ (f + 1 + 1) = 10 ^ (f + 1) * 10 := by ring
        rw [hpow] at h
        exact Nat.div_lt_of_lt_mul (by omega))]
      conv_rhs => rw [digitsSpec]
      rw [if_neg h10]
      simp

/-- `natToStr` computes `digitsSpec`. -/
theorem natToStr_eq (n : Nat) : natToStr n = digitsSpec n := by
  unfold natToStr
  rw [natToStrAux_eq n n [] (lt_of_lt_of_le (Nat.lt_pow_self (by norm_num) n)
    (Nat.pow_le_pow_right (by norm_num) (Nat.le_succ n)))]
  simp

/-- A digit character really is a digit. -/
theorem digitCh_isDigit (n : Nat) : (digitCh n).isDigit = true := by
  unfold digitCh
  have h : n % 10 < 10 := Nat.mod_lt _ (by norm_num)
  interval_cases hn : n % 10 <;> decide

/-- The numeric value of a digit character. -/
theorem digitCh_toNat (n : Nat) : (digitCh n).toNat = 48 + n % 10 := by
  unfold digitCh
  have h : n % 10 < 10 := Nat.mod_lt _ (by norm_num)
  interval_cases hn : n % 10 <;> decide

/-- Every character of `digitsSpec` is a digit. -/
theorem digitsSpec_all_digit (n : Nat) : (digitsSpec n).all Char.isDigit = true := by
  induction n using Nat.strong_induction_on with
  | _ n ih =>
    unfold digitsSpec
    by_cases h10 : n < 10
    · rw [if_pos h10]
      simp [digitCh_isDigit]
    · rw [if_neg h10]
      rw [List.all_append]
      rw [ih (n / 10) (Nat.div_lt_self (by omega) (by omega))]
      simp [digitCh_isDigit]

/-- `digitsSpec` is never empty. -/
theorem digitsSpec_ne_nil (n : Nat) : digitsSpec n ≠ [] := by
  unfold digitsSpec
  by_cases h10 : n < 10
  · rw [if_pos h10]; simp
  · rw [if_neg h10]; simp

/-- The head of `digitsSpec` is a digit; for a positive number it is not `'0'`. -/
theorem digitsSpec_head (n : Nat) : ∃ c rest, digitsSpec n = c :: rest ∧
    c.isDigit = true ∧ (1 ≤ n → (c == '0') = false) := by
  induction n using Nat.strong_induction_on with
  | _ n ih =>
    by_cases h10 : n < 10
    · refine ⟨digitCh n, [], ?_, digitCh_isDigit n, ?_⟩
      · unfold digitsSpec
        rw [if_pos h10]
      · intro h1
        unfold digitCh
        rw [Nat.mod_eq_of_lt h10]
        interval_cases n <;> decide
    · obtain ⟨c, rest, heq, hdig, hz⟩ := ih (n / 10) (Nat.div_lt_self (by omega) (by omega))
      refine ⟨c, rest ++ [digitCh (n % 10)], ?_, hdig, fun _ => ?_⟩
      · unfold digitsSpec
        rw [if_neg h10, heq]
        rfl
      · exact hz (by omega)

/-- Decimal value of a digit string. -/
def digitsVal (s : Str) : Nat := s.foldl (fun a c => a * 10 + (c.toNat - 48)) 0

/-- `digitsVal` inverts `digitsSpec`. -/
theorem digitsVal_digitsSpec (n : Nat) : digitsVal (digitsSpec n) = n := by
  induction n using Nat.strong_induction_on with
  | _ n ih =>
    unfold digitsSpec
    by_cases h10 : n < 10
    · rw [if_pos h10]
      unfold digitsVal
      simp only [List.foldl_cons, List.foldl_nil]
      rw [digitCh_toNat]
      omega
    · rw [if_neg h10]
      unfold digitsVal
      rw [List.foldl_append]
      have hv := ih (n / 10) (Nat.div_lt_self (by omega) (by omega))
      unfold digitsVal at hv
      rw [hv]
      simp only [List.foldl_cons, List.foldl_nil]
      rw [digitCh_toNat]
      omega

/-- Top-level twin of the inner `core` lexer of `intLex`. -/
def intLexCore (t : Str) : Option Nat :=
  match t with
  | [] => none
  | ['0'] => some 0
  | c :: rest =>
    if c.isDigit ∧ c ≠ '0' ∧ rest.all Char.isDigit then
      some (rest.foldl (fun acc d => acc * 10 + (d.toNat - 48)) (c.toNat - 48))
    else none

/-- On unsigned scalars `intLex` is its core lexer. -/
theorem intLex_eq_core (s : Str) (h1 : s.head? ≠ some '-') (h2 : s.head? ≠ some '+') :
    intLex s = (intLexCore s).map (fun n => (n : Int)) := by
  unfold intLex
  split
  · exact absurd rfl h1
  · exact absurd rfl h2
  · rfl

/-- The core lexer accepts a canonical positive digit string. -/
theorem intLexCore_pos (c : Char) (rest : Str) (hc : c.isDigit = true)
    (h0 : c ≠ '0') (hr : rest.all Char.isDigit = true) :
    intLexCore (c :: rest) = some (digitsVal (c :: rest)) := by
  unfold intLexCore
  split
  · rename_i heq
    exact absurd heq (by simp)
  · rename_i heq
    injection heq with hc1 _
    exact absurd hc1 h0
  · rename_i c2 rest2 hno heq
    injection heq with hc1 hr1
    rw [← hc1, ← hr1]
    rw [if_pos ⟨hc, h0, hr⟩]
    unfold digitsVal
    simp [Nat.zero_mul, Nat.zero_add]

/-- `intLex` inverts `natToStr` on naturals. -/
theorem intLex_natToStr (n : Nat) : intLex (natToStr n) = some ((n : Nat) : Int) := by
  by_cases hz : n = 0
  · rw [hz]; decide
  · obtain ⟨c, rest, heq, hdig, hz0⟩ := digitsSpec_head n
    have hc0 : c ≠ '0' := by
      have := hz0 (by omega)
      intro hcc
      rw [hcc] at this
      simp at this
    have hall : rest.all Char.isDigit = true := by
      have hd := digitsSpec_all_digit n
      rw [heq] at hd
      simp only [List.all_cons, Bool.and_eq_true] at hd
      exact hd.2
    have hne1 : (c :: rest : Str).head? ≠ some '-' := by
      intro hcc
      injection hcc with hcc'
      rw [hcc'] at hdig
      exact absurd hdig (by decide)
    have hne2 : (c :: rest : Str).head? ≠ some '+' := by
      intro hcc
      injection hcc with hcc'
      rw [hcc'] at hdig
      exact absurd hdig (by decide)
    rw [natToStr_eq, heq]
    rw [intLex_eq_core _ hne1 hne2]
    rw [intLexCore_pos c rest hdig hc0 hall]
    rw [← heq, digitsVal_digitsSpec]
    rfl

/-- `intLex` inverts `intToStr`: the integer printer/lexer round-trip. -/
theorem intLex_intToStr (n : Int) : intLex (intToStr n) = some n := by
  unfold intToStr
  by_cases hneg : n < 0
  · rw [if_pos hneg]
    have hcore : intLex ('-' :: natToStr (-n).toNat) =
        (intLexCore (natToStr (-n).toNat)).map (fun m => -(m : Int)) := by
      rfl
    rw [hcore]
    have hpos : (-n).toNat ≠ 0 := by omega
    obtain ⟨c, rest, heq, hdig, hz0⟩ := digitsSpec_head (-n).toNat
    have hc0 : c ≠ '0' := by
      have := hz0 (by omega)
      intro hcc
      rw [hcc] at this
      simp at this
    have hall : rest.all Char.isDigit = true := by
      have hd := digitsSpec_all_digit (-n).toNat
      rw [heq] at hd
      simp only [List.all_cons, Bool.and_eq_true] at hd
      exact hd.2
    rw [natToStr_eq, heq, intLexCore_pos c rest hdig hc0 hall, ← heq,
      digitsVal_digitsSpec]
    show some (-(((-n).toNat : Nat) : Int)) = some n
    congr 1
    omega
  · rw [if_neg hneg]
    rw [intLex_natToStr]
    congr 1
    omega

/-- Flip a refuted boolean equality test. -/
theorem beq_false_symm {a b : Char} (h : (a == b) = false) : (b == a) = false := by
  cases hba : b == a
  · rfl
  · have : b = a := by simpa using hba
    rw [this] at hba
    rw [← this] at h
    simp at h

/-- A digit is not Python whitespace. -/
theorem digit_not_space (c : Char) (h : c.isDigit = true) : isPySpace c = false := by
  unfold isPySpace
  rw [boolPredNe h (show Char.isDigit ' ' = false by decide),
      boolPredNe h (show Char.isDigit '\t' = false by decide),
      boolPredNe h (show Char.isDigit '\n' = false by decide),
      boolPredNe h (show Char.isDigit '\r' = false by decide),
      boolPredNe h (show Char.isDigit '\x0b' = false by decide),
      boolPredNe h (show Char.isDigit '\x0c' = false by decide)]
  rfl

/-- `contains` refuted pointwise. -/
theorem contains_false (x : Char) (s : Str) (h : ∀ c ∈ s, (x == c) = false) :
    s.contains x = false := by
  induction s with
  | nil => rfl
  | cons c t ih =>
    simp only [List.contains, List.elem]
    rw [h c (by simp)]
    exact ih (fun d hd => h d (by simp [hd]))

/-- The null words are the empty scalar, the tilde, or keyword-like. -/
theorem nullWords_shape : ∀ s ∈ yamlNullWords,
    s = [] ∨ s = ("~".data) ∨ yamlWordLike s = true := by decide

/-- Every cased true-word is keyword-like. -/
theorem trueWords_wordlike : ∀ s ∈ yamlTrueWords, yamlWordLike s = true := by decide

/-- Every cased false-word is keyword-like. -/
theorem falseWords_wordlike : ∀ s ∈ yamlFalseWords, yamlWordLike s = true := by decide

/-- Does the string start with a digit or a minus sign? -/
def headDigitDash (s : Str) : Bool :=
  match s with | c :: _ => c.isDigit || c == '-' | [] => false

/-- No YAML keyword starts with a digit or a minus sign. -/
theorem words_not_headDD :
    ∀ s ∈ yamlNullWords ++ yamlTrueWords ++ yamlFalseWords,
      headDigitDash s = false := by decide

/-- A printed integer starts with a digit or a minus sign. -/
theorem intToStr_headDD (n : Int) : headDigitDash (intToStr n) = true := by
  unfold intToStr
  by_cases hneg : n < 0
  · rw [if_pos hneg]
    rfl
  · rw [if_neg hneg, natToStr_eq]
    obtain ⟨c, rest, heq, hdig, _⟩ := digitsSpec_head n.toNat
    rw [heq]
    show (c.isDigit || c == '-') = true
    rw [hdig]
    rfl

/-- Unpacked components of `plainSafe`. -/
theorem plainSafe_parts (s : Str) (h : plainSafe s = true) :
    (∃ c rest, s = c :: rest ∧ c.isAlpha = true) ∧
    (∀ c ∈ s, plainCh c = true) ∧
    (∃ c, s.getLast? = some c ∧ (c == ' ') = false) ∧
    yamlWordLike s = false := by
  unfold plainSafe at h
  simp only [Bool.and_eq_true, Bool.not_eq_true'] at h
  obtain ⟨⟨⟨hh, ha⟩, hl⟩, hw⟩ := h
  refine ⟨?_, ?_, ?_, hw⟩
  · match s, hh with
    | c :: rest, hh => exact ⟨c, rest, rfl, hh⟩
  · intro c hc
    rw [List.all_eq_true] at ha
    exact ha c hc
  · match hg : s.getLast? with
    | some c =>
      rw [hg] at hl
      exact ⟨c, rfl, by simpa using hl⟩
    | none =>
      rw [hg] at hl
      exact absurd hl (by simp)

/-- A plain-safe scalar strips to itself. -/
theorem stripStr_plain (s : Str) (h : plainSafe s = true) : stripStr s = s := by
  obtain ⟨⟨c, rest, hs, ha⟩, hall, ⟨cl, hgl, hgls⟩, _⟩ := plainSafe_parts s h
  unfold stripStr
  rw [lstrip_noop s (by
    intro d hd
    rw [hs] at hd
    injection hd with hd'
    subst hd'
    exact alpha_not_space c ha)]
  exact rstrip_noop s (by
    intro d hd
    rw [hgl] at hd
    injection hd with hd'
    subst hd'
    exact plainCh_not_space cl (hall cl (List.mem_of_getLast?_eq_some hgl)) hgls)

/-- `intLex` rejects a scalar with an alphabetic head. -/
theorem intLex_alpha_none (s : Str) (c : Char) (rest : Str) (hs : s = c :: rest)
    (ha : c.isAlpha = true) : intLex s = none := by
  have hnd : c.isDigit = false := alpha_not_digit c ha
  rw [hs, intLex_eq_core _
    (by
      intro hcc
      injection hcc with hcc'
      rw [hcc'] at ha
      exact absurd ha (by decide))
    (by
      intro hcc
      injection hcc with hcc'
      rw [hcc'] at ha
      exact absurd ha (by decide))]
  unfold intLexCore
  split
  · rfl
  · rename_i heq
    injection heq with hc1 _
    rw [hc1] at ha
    exact absurd ha (by decide)
  · rename_i c2 rest2 hno heq
    injection heq with hc1 hr1
    rw [if_neg (by
      intro hcontra
      rw [← hc1] at hcontra
      rw [hnd] at hcontra
      exact absurd hcontra.1 (by simp))]
    rfl

/-- `dateLex` rejects a scalar with an alphabetic head. -/
theorem dateLex_alpha_none (s : Str) (c : Char) (rest : Str) (hs : s = c :: rest)
    (ha : c.isAlpha = true) : dateLex s = none := by
  rw [hs]
  unfold dateLex
  split
  · rename_i y1 y2 y3 y4 m1 m2 d1 d2 heq
    injection heq with hc1 _
    rw [if_neg (by
      intro hcontra
      rw [List.all_eq_true] at hcontra
      have hy := hcontra y1 (by simp)
      rw [← hc1] at hy
      rw [alpha_not_digit c ha] at hy
      exact absurd hy (by simp))]
  · rfl

/-- PyYAML resolution maps a plain-safe scalar to itself as a string. -/
theorem resolveScalar_plain (s : Str) (h : plainSafe s = true) :
    resolveScalar s = some (.str s) := by
  obtain ⟨⟨c, rest, hs, ha⟩, hall, _, hword⟩ := plainSafe_parts s h
  unfold resolveScalar
  rw [if_neg (by
    intro hmem
    rcases nullWords_shape s hmem with h1 | h1 | h1
    · rw [hs] at h1; exact absurd h1 (by simp)
    · rw [hs] at h1
      injection h1 with hc1 _
      rw [hc1] at ha
      exact absurd ha (by decide)
    · rw [h1] at hword; exact absurd hword (by simp))]
  rw [if_neg (by
    intro hmem
    rw [trueWords_wordlike s hmem] at hword
    exact absurd hword (by simp))]
  rw [if_neg (by
    intro hmem
    rw [falseWords_wordlike s hmem] at hword
    exact absurd hword (by simp))]
  rw [intLex_alpha_none s c rest hs ha, dateLex_alpha_none s c rest hs ha]

/-- Token parsing skips the quoted form when the head is not a quote. -/
theorem parseScalarToken_not_quote (s : Str) (h : s.head? ≠ some '"') :
    parseScalarToken s = resolveScalar s := by
  unfold parseScalarToken
  split
  · exact absurd rfl h
  · rfl

/-- Token parsing returns a plain-safe scalar as the same string. -/
theorem parseScalarToken_plain (s : Str) (h : plainSafe s = true) :
    parseScalarToken s = some (.str s) := by
  obtain ⟨⟨c, rest, hs, ha⟩, _, _, _⟩ := plainSafe_parts s h
  rw [parseScalarToken_not_quote s (by
    rw [hs]
    intro hcc
    injection hcc with hcc'
    rw [hcc'] at ha
    exact absurd ha (by decide))]
  exact resolveScalar_plain s h

/-- A printed integer is never empty. -/
theorem intToStr_ne_nil (n : Int) : intToStr n ≠ [] := by
  unfold intToStr
  by_cases hneg : n < 0
  · rw [if_pos hneg]; simp
  · rw [if_neg hneg, natToStr_eq]; exact digitsSpec_ne_nil _

/-- The last character of a printed integer is a digit. -/
theorem intToStr_last (n : Int) : ∃ c, (intToStr n).getLast? = some c ∧
    c.isDigit = true := by
  have hlast : ∀ m : Nat, ∃ c, (natToStr m).getLast? = some c ∧ c.isDigit = true := by
    intro m
    rw [natToStr_eq]
    match hg : (digitsSpec m).getLast? with
    | some c =>
      refine ⟨c, rfl, ?_⟩
      have := digitsSpec_all_digit m
      rw [List.all_eq_true] at this
      exact this c (List.mem_of_getLast?_eq_some hg)
    | none =>
      exact absurd (List.getLast?_eq_none_iff.mp hg) (digitsSpec_ne_nil m)
  unfold intToStr
  by_cases hneg : n < 0
  · rw [if_pos hneg]
    obtain ⟨c, hg, hd⟩ := hlast (-n).toNat
    refine ⟨c, ?_, hd⟩
    rw [List.getLast?_cons, hg]
    rfl
  · rw [if_neg hneg]
    exact hlast n.toNat

/-- Every character of a printed integer is a digit or the minus sign. -/
theorem intToStr_chars (n : Int) : ∀ c ∈ intToStr n,
    (c.isDigit || c == '-') = true := by
  have hnat : ∀ (m : Nat) (c : Char), c ∈ natToStr m → c.isDigit = true := by
    intro m c hc
    rw [natToStr_eq] at hc
    have := digitsSpec_all_digit m
    rw [List.all_eq_true] at this
    exact this c hc
  intro c hc
  unfold intToStr at hc
  by_cases hneg : n < 0
  · rw [if_pos hneg] at hc
    rcases List.mem_cons.mp hc with h1 | h1
    · rw [h1]; rfl
    · rw [hnat _ c h1]; rfl
  · rw [if_neg hneg] at hc
    rw [hnat _ c hc]; rfl

/-- A printed integer strips to itself. -/
theorem stripStr_int (n : Int) : stripStr (intToStr n) = intToStr n := by
  unfold stripStr
  rw [lstrip_noop _ (by
    intro d hd
    have hmem : d ∈ intToStr n := List.mem_of_mem_head? (by rw [hd]; simp)
    have := intToStr_chars n d hmem
    rcases Bool.or_eq_true .. |>.mp this with h1 | h1
    · exact digit_not_space d h1
    · have : d = '-' := by simpa using h1
      rw [this]; decide)]
  exact rstrip_noop _ (by
    intro d hd
    obtain ⟨c, hg, hdig⟩ := intToStr_last n
    rw [hg] at hd
    injection hd with hd'
    subst hd'
    exact digit_not_space c hdig)

/-- PyYAML resolution maps a printed integer back to the integer. -/
theorem resolveScalar_int (n : Int) : resolveScalar (intToStr n) = some (.int n) := by
  have hdd := intToStr_headDD n
  have hnm : ∀ L : List Str, (∀ s ∈ L, s ∈ yamlNullWords ++ yamlTrueWords ++
      yamlFalseWords) → ¬ intToStr n ∈ L := by
    intro L hL hmem
    have := words_not_headDD _ (hL _ hmem)
    rw [this] at hdd
    exact absurd hdd (by simp)
  unfold resolveScalar
  rw [if_neg (hnm yamlNullWords (by intro s hs; simp [hs])),
      if_neg (hnm yamlTrueWords (by intro s hs; simp [hs])),
      if_neg (hnm yamlFalseWords (by intro s hs; simp [hs])),
      intLex_intToStr]

/-- Token parsing returns a printed integer as the integer. -/
theorem parseScalarToken_int (n : Int) :
    parseScalarToken (intToStr n) = some (.int n) := by
  rw [parseScalarToken_not_quote _ (by
    intro hcc
    have hmem : '"' ∈ intToStr n := List.mem_of_mem_head? (by rw [hcc]; simp)
    have := intToStr_chars n '"' hmem
    exact absurd this (by decide))]
  exact resolveScalar_int n

/-- Unpacked components of `keySafe`. -/
theorem keySafe_parts (k : Str) (h : keySafe k = true) :
    ∃ kc k', k = kc :: k' ∧ kc.isAlpha = true ∧ ∀ c ∈ k, keySafeCh c = true := by
  unfold keySafe at h
  rw [Bool.and_eq_true] at h
  obtain ⟨hh, ha⟩ := h
  match k, hh with
  | kc :: k', hh =>
    refine ⟨kc, k', rfl, hh, ?_⟩
    intro c hc
    rw [List.all_eq_true] at ha
    exact ha c hc

/-- A line starting with a non-space character is not blank. -/
theorem isBlankLine_cons_false (c : Char) (t : Str) (h : isPySpace c = false) :
    isBlankLine (c :: t) = false := by
  unfold isBlankLine
  rw [List.all_cons, h]
  rfl

/-- A line whose head is not a space does not start a list item. -/
theorem startsW_item_false (c : Char) (s : Str) (h : (' ' == c) = false) :
    startsW ("  - ".data) (c :: s) = false := by
  show (' ' == c && List.isPrefixOf (" - ".data) s) = false
  rw [h]
  rfl

/-- A space strips from the front. -/
theorem stripStr_space (s : Str) : stripStr (' ' :: s) = stripStr s := by
  unfold stripStr
  rw [lstrip_space]

/-- A plain string value needs no quoting. -/
theorem strNeedsQuote_plain (s : Str) (h : plainSafe s = true) :
    strNeedsQuote (.str s) = false := by
  obtain ⟨_, hall, _, _⟩ := plainSafe_parts s h
  show (s.contains ':' || s.contains '"') = false
  rw [contains_false ':' s (fun c hc => beq_false_symm
    (boolPredNe (hall c hc) (show plainCh ':' = false by decide)))]
  rw [contains_false '"' s (fun c hc => beq_false_symm
    (boolPredNe (hall c hc) (show plainCh '"' = false by decide)))]
  rfl

/-- The serialised line block of a plain string entry. -/
theorem fmLines_cons_str (k s : Str) (m : List (Str × FmVal))
    (h : plainSafe s = true) :
    fmLines ((k, .str s) :: m) = (k ++ (": ".data) ++ s) :: fmLines m := by
  conv_lhs => rw [fmLines]
  rw [if_neg (by intro hcon; exact absurd hcon.2 (by simp [isListV]))]
  rw [if_neg (by intro hcon; exact absurd hcon (by simp [isBoolV]))]
  rw [if_neg (by
    intro hcon
    rw [strNeedsQuote_plain s h] at hcon
    exact absurd hcon.2 (by simp))]
  rfl

/-- The serialised line block of a boolean entry. -/
theorem fmLines_cons_bool (k : Str) (b : Bool) (m : List (Str × FmVal)) :
    fmLines ((k, .bool b) :: m) =
      (k ++ (": ".data) ++ (if b then "true".data else "false".data)) ::
        fmLines m := by
  conv_lhs => rw [fmLines]
  rw [if_neg (by intro hcon; exact absurd hcon.2 (by simp [isListV]))]
  rw [if_pos (by simp [isBoolV])]
  cases b <;> rfl

/-- The serialised line block of an integer entry. -/
theorem fmLines_cons_int (k : Str) (n : Int) (m : List (Str × FmVal)) :
    fmLines ((k, .int n) :: m) = (k ++ (": ".data) ++ intToStr n) :: fmLines m := by
  conv_lhs => rw [fmLines]
  rw [if_neg (by intro hcon; exact absurd hcon.2 (by simp [isListV]))]
  rw [if_neg (by intro hcon; exact absurd hcon (by simp [isBoolV]))]
  rw [if_neg (by intro hcon; exact absurd hcon.1 (by simp [isStrV]))]
  rfl

/-- The serialised line block of an `attendees` list entry. -/
theorem fmLines_cons_list (items : List FmVal) (m : List (Str × FmVal)) :
    fmLines ((("attendees".data), .list items) :: m) =
      ("attendees:".data) ::
        (items.map (fun a => ("  - ".data) ++ pyStrV a) ++ fmLines m) := by
  conv_lhs => rw [fmLines]
  rw [if_pos ⟨rfl, by simp [isListV]⟩]
  rfl

/-- `upsert` on a fresh key appends. -/
theorem upsert_append (acc : List (Str × FmVal)) (k : Str) (v : FmVal)
    (h : assocFind acc k = none) : upsert acc k v = acc ++ [(k, v)] := by
  unfold upsert
  rw [h]
  rfl

/-- A lookup missing from `acc` and different from `k` is missing after the
append as well. -/
theorem assocFind_append_one (acc : List (Str × FmVal)) (k k' : Str) (v : FmVal)
    (h : assocFind acc k' = none) (hne : k ≠ k') :
    assocFind (acc ++ [(k, v)]) k' = none := by
  induction acc with
  | nil =>
    show assocFind [(k, v)] k' = none
    unfold assocFind
    rw [if_neg hne]
    rfl
  | cons p acc ih =>
    obtain ⟨kp, vp⟩ := p
    show assocFind ((kp, vp) :: (acc ++ [(k, v)])) k' = none
    unfold assocFind
    unfold assocFind at h
    by_cases hkp : kp = k'
    · rw [if_pos hkp] at h
      exact absurd h (by simp)
    · rw [if_neg hkp] at h ⊢
      exact ih h

/-- `takeItems` collects exactly the mapped item lines and stops at the
first non-item line. -/
theorem takeItems_spec (xs : List Str) (l0 : Str) (rest : List Str)
    (h0 : startsW ("  - ".data) l0 = false) :
    takeItems (xs.map (fun s => ("  - ".data) ++ s) ++ (l0 :: rest)) =
      (xs, l0 :: rest) := by
  induction xs with
  | nil =>
    show takeItems (l0 :: rest) = ([], l0 :: rest)
    unfold takeItems
    rw [h0]
    simp
  | cons s xs ih =>
    show takeItems ((("  - ".data) ++ s) ::
      (xs.map (fun s => ("  - ".data) ++ s) ++ (l0 :: rest))) = (s :: xs, l0 :: rest)
    unfold takeItems
    rw [show startsW ("  - ".data) (("  - ".data) ++ s) = true from
      List.isPrefixOf_iff_prefix.mpr (List.prefix_append _ _)]
    simp only [if_true]
    rw [ih]
    rw [show (4 : Nat) = ("  - ".data).length from rfl, List.drop_left]

/-- `parseItems` recovers a list of plain-safe string values from their
printed forms. -/
theorem parseItems_strs (xs : List FmVal)
    (h : xs.all (fun a => match a with | .str s => plainSafe s | _ => false) = true) :
    parseItems (xs.map pyStrV) = some xs := by
  induction xs with
  | nil => rfl
  | cons a xs ih =>
    rw [List.all_cons, Bool.and_eq_true] at h
    obtain ⟨ha, hxs⟩ := h
    match a, ha with
    | .str s, ha =>
      show parseItems (s :: xs.map pyStrV) = some (.str s :: xs)
      unfold parseItems
      rw [stripStr_plain s ha, parseScalarToken_plain s ha, ih hxs]
      rfl

/-- The loader returns the accumulator on the empty line list. -/
theorem yamlLoadF_nil (fuel : Nat) (acc : List (Str × FmVal)) :
    yamlLoadLinesF fuel [] acc = some acc := by
  cases fuel <;> rfl

/-- The loader skips a blank line. -/
theorem yamlLoadF_blank (f : Nat) (rest : List Str) (acc : List (Str × FmVal)) :
    yamlLoadLinesF (f + 1) ([] :: rest) acc = yamlLoadLinesF f rest acc := rfl

/-- One loader step on a well-formed scalar line. -/
theorem yamlLoadF_scalar_step (kc : Char) (k' tok : Str) (v : FmVal)
    (rest : List Str) (acc : List (Str × FmVal)) (f : Nat)
    (hka : kc.isAlpha = true)
    (hkall : ∀ c ∈ (kc :: k' : Str), keySafeCh c = true)
    (htok : parseScalarToken (stripStr (' ' :: tok)) = some v) :
    yamlLoadLinesF (f + 1) (((kc :: k') ++ (": ".data) ++ tok) :: rest) acc =
      yamlLoadLinesF f rest (upsert acc (kc :: k') v) := by
  have hline : ((kc :: k') ++ (": ".data) ++ tok) = kc :: (k' ++ (": ".data) ++ tok) := by
    simp
  rw [hline]
  simp only [yamlLoadLinesF]
  rw [isBlankLine_cons_false kc _ (alpha_not_space kc hka)]
  rw [startsW_item_false kc _ (beq_false_symm (boolPredNe hka
    (show Char.isAlpha ' ' = false by decide)))]
  simp only [Bool.false_eq_true, if_false]
  have hbrk : brkOn (":".data) (kc :: (k' ++ (": ".data) ++ tok)) =
      some (kc :: k', ' ' :: tok) := by
    have hshape : kc :: (k' ++ (": ".data) ++ tok) = (kc :: k') ++ ':' :: (' ' :: tok) := by
      simp
    rw [hshape]
    exact brkOn_single ':' (' ' :: tok) (kc :: k') (by
      rw [List.all_eq_true]
      intro c hc
      rw [boolPredNe (hkall c hc) (show keySafeCh ':' = false by decide)]
      rfl)
  rw [hbrk]
  dsimp only []
  rw [if_neg (by
    intro hcon
    rcases hcon with h1 | h1
    · exact absurd h1 (by simp)
    · injection h1 with h1'
      rw [h1'] at hka
      exact absurd hka (by decide))]
  rw [if_neg (by simp)]
  rw [if_pos (show (' ' :: tok : Str).head? = some ' ' from rfl)]
  rw [htok]

/-- One loader step on a well-formed `attendees:` block. -/
theorem yamlLoadF_attendees_step (items : List FmVal) (l0 : Str) (rest0 : List Str)
    (acc : List (Str × FmVal)) (f : Nat)
    (hne : items ≠ [])
    (hall : items.all
      (fun a => match a with | .str s => plainSafe s | _ => false) = true)
    (h0 : startsW ("  - ".data) l0 = false) :
    yamlLoadLinesF (f + 1)
      ((("attendees:".data)) ::
        (items.map (fun a => ("  - ".data) ++ pyStrV a) ++ (l0 :: rest0))) acc =
      yamlLoadLinesF f (l0 :: rest0) (upsert acc ("attendees".data) (.list items)) := by
  simp only [yamlLoadLinesF]
  rw [show isBlankLine ("attendees:".data) = false from by decide]
  rw [show startsW ("  - ".data) ("attendees:".data) = false from by decide]
  simp only [Bool.false_eq_true, if_false]
  rw [show brkOn (":".data) ("attendees:".data) =
    some ("attendees".data, []) from by decide]
  dsimp only []
  rw [if_neg (by
    intro hcon
    rcases hcon with h1 | h1
    · exact absurd h1 (by decide)
    · exact absurd h1 (by decide))]
  rw [if_pos (by decide)]
  have hmap : items.map (fun a => ("  - ".data) ++ pyStrV a) =
      (items.map pyStrV).map (fun s => ("  - ".data) ++ s) := by
    rw [List.map_map]
    rfl
  rw [hmap, takeItems_spec (items.map pyStrV) l0 rest0 h0]
  dsimp only []
  rw [if_neg (by
    intro hcon
    cases hitems' : items with
    | nil => exact hne hitems'
    | cons a t =>
      rw [hitems'] at hcon
      exact absurd hcon (by simp))]
  rw [parseItems_strs items hall]

/-- The modelled `yaml.safe_load` inverts the serialisation loop on every
well-formed mapping, relative to an accumulator disjoint from its keys. -/
theorem yamlLoadF_spec : ∀ (m acc : List (Str × FmVal)) (fuel : Nat),
    m.all (fun p => keySafe p.1 && wfVal p.1 p.2) = true →
    (m.map Prod.fst).Nodup →
    (∀ p ∈ m, assocFind acc p.1 = none) →
    (fmLines m ++ [[]]).length ≤ fuel →
    yamlLoadLinesF fuel (fmLines m ++ [[]]) acc = some (acc ++ m) := by
  intro m
  induction m with
  | nil =>
    intro acc fuel _ _ _ hfuel
    simp only [fmLines, List.nil_append, List.length_cons, List.length_nil] at hfuel
    obtain ⟨f, rfl⟩ : ∃ f, fuel = f + 1 := ⟨fuel - 1, by omega⟩
    show yamlLoadLinesF (f + 1) ([] :: []) acc = some (acc ++ [])
    rw [yamlLoadF_blank, yamlLoadF_nil]
    simp
  | cons p m' ih =>
    obtain ⟨k, v⟩ := p
    intro acc fuel hwf hnd hdisj hfuel
    rw [List.all_cons, Bool.and_eq_true] at hwf
    obtain ⟨hhead, htail⟩ := hwf
    rw [Bool.and_eq_true] at hhead
    obtain ⟨hks, hwv⟩ := hhead
    obtain ⟨kc, k', hk, hka, hkall⟩ := keySafe_parts k hks
    simp only [List.map_cons, List.nodup_cons] at hnd
    obtain ⟨hknotin, hnd'⟩ := hnd
    have hacck : assocFind acc k = none := hdisj (k, v) (by simp)
    have hdisj' : ∀ q ∈ m', assocFind (acc ++ [(k, v)]) q.1 = none := by
      intro q hq
      exact assocFind_append_one acc k q.1 v (hdisj q (by simp [hq]))
        (fun hkq => hknotin (hkq ▸ List.mem_map_of_mem Prod.fst hq))
    match v, hwv, hacck, hdisj' with
    | .str s, hwv, hacck, hdisj' =>
      have hplain : plainSafe s = true := hwv
      rw [fmLines_cons_str k s m' hplain] at hfuel ⊢
      obtain ⟨f, rfl⟩ : ∃ f, fuel = f + 1 :=
        ⟨fuel - 1, by simp only [List.cons_append, List.length_cons] at hfuel; omega⟩
      rw [hk, List.cons_append]
      rw [yamlLoadF_scalar_step kc k' s (.str s) _ acc f hka (hk ▸ hkall) (by
        rw [stripStr_space, stripStr_plain s hplain]
        exact parseScalarToken_plain s hplain)]
      rw [← hk, upsert_append acc k (FmVal.str s) hacck]
      rw [ih (acc ++ [(k, FmVal.str s)]) f htail hnd' hdisj' (by
        simp only [List.cons_append, List.length_cons] at hfuel
        omega)]
      simp
    | .bool b, _, hacck, hdisj' =>
      rw [fmLines_cons_bool k b m'] at hfuel ⊢
      obtain ⟨f, rfl⟩ : ∃ f, fuel = f + 1 :=
        ⟨fuel - 1, by simp only [List.cons_append, List.length_cons] at hfuel; omega⟩
      rw [hk, List.cons_append]
      rw [yamlLoadF_scalar_step kc k' _ (.bool b) _ acc f hka (hk ▸ hkall) (by
        cases b
        · decide
        · decide)]
      rw [← hk, upsert_append acc k (FmVal.bool b) hacck]
      rw [ih (acc ++ [(k, FmVal.bool b)]) f htail hnd' hdisj' (by
        simp only [List.cons_append, List.length_cons] at hfuel
        omega)]
      simp
    | .int n, _, hacck, hdisj' =>
      rw [fmLines_cons_int k n m'] at hfuel ⊢
      obtain ⟨f, rfl⟩ : ∃ f, fuel = f + 1 :=
        ⟨fuel - 1, by simp only [List.cons_append, List.length_cons] at hfuel; omega⟩
      rw [hk, List.cons_append]
      rw [yamlLoadF_scalar_step kc k' _ (.int n) _ acc f hka (hk ▸ hkall) (by
        rw [stripStr_space, stripStr_int n]
        exact parseScalarToken_int n)]
      rw [← hk, upsert_append acc k (FmVal.int n) hacck]
      rw [ih (acc ++ [(k, FmVal.int n)]) f htail hnd' hdisj' (by
        simp only [List.cons_append, List.length_cons] at hfuel
        omega)]
      simp
    | .list items, hwv, hacck, hdisj' =>
      have hwl := hwv
      unfold wfVal at hwl
      rw [Bool.and_eq_true, Bool.and_eq_true] at hwl
      obtain ⟨⟨hkatt, hnei⟩, hall⟩ := hwl
      have hkeq : k = ("attendees".data) := by simpa using hkatt
      have hitems : items ≠ [] := by
        intro hcon
        rw [hcon] at hnei
        exact absurd hnei (by simp)
      obtain ⟨l0, rest0, hrest, h0⟩ : ∃ l0 rest0,
          fmLines m' ++ [[]] = l0 :: rest0 ∧ startsW ("  - ".data) l0 = false := by
        match m', htail with
        | [], _ => exact ⟨[], [], rfl, by decide⟩
        | (k2, v2) :: m'', htail2 =>
          rw [List.all_cons, Bool.and_eq_true, Bool.and_eq_true] at htail2
          obtain ⟨⟨hks2, hwv2⟩, _⟩ := htail2
          obtain ⟨kc2, k2', hk2, hka2, _⟩ := keySafe_parts k2 hks2
          have hsw : ∀ t : Str,
              startsW ("  - ".data) ((kc2 :: k2') ++ (": ".data) ++ t) = false := by
            intro t
            rw [List.cons_append, List.cons_append]
            exact startsW_item_false kc2 _ (beq_false_symm (boolPredNe hka2
              (show Char.isAlpha ' ' = false by decide)))
          match v2, hwv2 with
          | .list items2, hwv2 =>
            have hkeq2 : k2 = ("attendees".data) := by
              unfold wfVal at hwv2
              rw [Bool.and_eq_true, Bool.and_eq_true] at hwv2
              simpa using hwv2.1.1
            rw [hkeq2, fmLines_cons_list items2 m'']
            exact ⟨_, _, rfl, by decide⟩
          | .str s2, hwv2 =>
            rw [fmLines_cons_str k2 s2 m'' hwv2, hk2]
            exact ⟨_, _, rfl, hsw _⟩
          | .bool b2, _ =>
            rw [fmLines_cons_bool k2 b2 m'', hk2]
            exact ⟨_, _, rfl, hsw _⟩
          | .int n2, _ =>
            rw [fmLines_cons_int k2 n2 m'', hk2]
            exact ⟨_, _, rfl, hsw _⟩
      rw [hkeq] at hacck hfuel ⊢
      rw [fmLines_cons_list items m'] at hfuel ⊢
      obtain ⟨f, rfl⟩ : ∃ f, fuel = f + 1 :=
        ⟨fuel - 1, by simp only [List.cons_append, List.length_cons] at hfuel; omega⟩
      rw [List.cons_append, List.append_assoc, hrest]
      rw [yamlLoadF_attendees_step items l0 rest0 acc f hitems hall h0]
      rw [← hrest]
      rw [upsert_append acc ("attendees".data) (.list items) hacck]
      rw [ih (acc ++ [(("attendees".data), FmVal.list items)]) f htail hnd' (by
        rw [← hkeq]
        exact hdisj') (by
        simp only [List.length_cons, List.length_append, List.length_map] at hfuel ⊢
        omega)]
      simp

/-- Does the string contain two adjacent dashes? -/
def hasTwoDash : Str → Bool
  | [] => false
  | [_] => false
  | c :: d :: rest => (c == '-' && d == '-') || hasTwoDash (d :: rest)

/-- Dropping the head cannot create adjacent dashes. -/
theorem hasTwoDash_cons_false (c : Char) (t : Str)
    (h : hasTwoDash (c :: t) = false) : hasTwoDash t = false := by
  cases t with
  | nil => rfl
  | cons d r =>
    have h' : ((c == '-' && d == '-') || hasTwoDash (d :: r)) = false := h
    rw [Bool.or_eq_false_iff] at h'
    exact h'.2

/-- A string without dashes has no adjacent dashes. -/
theorem noDash_noTwoDash (s : Str) (h : ∀ c ∈ s, (c == '-') = false) :
    hasTwoDash s = false := by
  induction s with
  | nil => rfl
  | cons c t ih =>
    cases t with
    | nil => rfl
    | cons d r =>
      show ((c == '-' && d == '-') || hasTwoDash (d :: r)) = false
      rw [h c (by simp), ih (fun x hx => h x (by simp [hx]))]
      rfl

/-- Adjacent dashes in an append come from a part or from the seam. -/
theorem hasTwoDash_append_false (a b : Str) (ha : hasTwoDash a = false)
    (hb : hasTwoDash b = false)
    (hedge : a.getLast? ≠ some '-' ∨ b.head? ≠ some '-') :
    hasTwoDash (a ++ b) = false := by
  induction a with
  | nil => simpa using hb
  | cons c a' ih =>
    cases a' with
    | nil =>
      cases b with
      | nil => rfl
      | cons d r =>
        show ((c == '-' && d == '-') || hasTwoDash (d :: r)) = false
        rw [hb]
        have hcd : (c == '-' && d == '-') = false := by
          rcases hedge with h1 | h1
          · have hc : (c == '-') = false := by
              cases hcc : c == '-'
              · rfl
              · have : c = '-' := by simpa using hcc
                rw [this] at h1
                exact absurd rfl h1
            rw [hc]
            rfl
          · have hd : (d == '-') = false := by
              cases hdd : d == '-'
              · rfl
              · have : d = '-' := by simpa using hdd
                rw [this] at h1
                exact absurd rfl h1
            rw [hd]
            simp
        rw [hcd]
        rfl
    | cons d a'' =>
      show ((c == '-' && d == '-') || hasTwoDash (d :: (a'' ++ b))) = false
      have ha' : ((c == '-' && d == '-') || hasTwoDash (d :: a'')) = false := ha
      rw [Bool.or_eq_false_iff] at ha'
      rw [ha'.1]
      have hedge' : (d :: a'' : Str).getLast? ≠ some '-' ∨ b.head? ≠ some '-' := by
        rcases hedge with h1 | h1
        · left
          rw [List.getLast?_cons_cons] at h1
          exact h1
        · right
          exact h1
      have hres := ih ha'.2 hedge'
      rw [List.cons_append] at hres
      rw [hres]
      rfl

/-- `brkOn` finds the trailing `---` when no earlier adjacent dashes exist. -/
theorem brkOn_dashes (a : Str) (h : hasTwoDash (a ++ ['-']) = false) :
    brkOn ("---".data) (a ++ ("---".data)) = some (a, []) := by
  induction a with
  | nil => decide
  | cons c a' ih =>
    rw [List.cons_append]
    unfold brkOn
    have hpre : List.isPrefixOf ("---".data) (c :: (a' ++ ("---".data))) = false := by
      show ('-' == c && List.isPrefixOf ("--".data) (a' ++ ("---".data))) = false
      cases hcc : '-' == c
      · rfl
      · have hc : c = '-' := by
          have h1 : '-' = c := by simpa using hcc
          exact h1.symm
        rw [Bool.true_and]
        cases a' with
        | nil =>
          exfalso
          have hh : hasTwoDash ((c :: [] : Str) ++ ['-']) = true := by
            rw [hc]
            decide
          rw [hh] at h
          exact absurd h (by simp)
        | cons d a'' =>
          show ('-' == d && List.isPrefixOf ("-".data) (a'' ++ ("---".data))) = false
          cases hdd : '-' == d
          · rfl
          · exfalso
            have hd : d = '-' := by
              have h1 : '-' = d := by simpa using hdd
              exact h1.symm
            have hh : hasTwoDash ((c :: d :: a'' : Str) ++ ['-']) = true := by
              show ((c == '-' && d == '-') || hasTwoDash (d :: (a'' ++ ['-']))) = true
              rw [hc, hd]
              simp
            rw [hh] at h
            exact absurd h (by simp)
    rw [hpre]
    simp only [Bool.false_eq_true, if_false]
    rw [ih (hasTwoDash_cons_false c _ (by
      rw [← List.cons_append]
      exact h))]

/-- An unbounded split of the empty string. -/
theorem pySplit_nil (sep : Str) (f : Nat) (h : sep ≠ []) :
    pySplit sep f [] = [[]] := by
  cases f with
  | zero => rfl
  | succ f =>
    unfold pySplit
    unfold brkOn
    rw [if_neg h]

/-- Joining a single line. -/
theorem joinWith_singleton (sep x : Str) : joinWith sep [x] = x := by
  show x ++ [] = x
  simp

/-- Joining at least two lines peels the first. -/
theorem joinWith_cons₂ (sep x y : Str) (t : List Str) :
    joinWith sep (x :: y :: t) = x ++ (sep ++ joinWith sep (y :: t)) := rfl

/-- Joining with a last element appended. -/
theorem joinWith_append_last (sep y x : Str) (t : List Str) :
    joinWith sep ((x :: t) ++ [y]) = joinWith sep (x :: t) ++ (sep ++ y) := by
  induction t generalizing x with
  | nil =>
    rw [List.cons_append, List.nil_append, joinWith_cons₂, joinWith_singleton,
      joinWith_singleton]
  | cons x2 t' ih =>
    have ih2 : joinWith sep (x2 :: (t' ++ [y])) =
        joinWith sep (x2 :: t') ++ (sep ++ y) := by
      rw [← List.cons_append]
      exact ih x2
    rw [List.cons_append, List.cons_append, joinWith_cons₂, ih2, joinWith_cons₂]
    simp [List.append_assoc]

/-- Splitting the newline-joined lines (with a trailing newline) on the
newline recovers the lines plus a final empty part. -/
theorem pySplit_lines : ∀ (ls : List Str) (l : Str) (fuel : Nat),
    (∀ x ∈ l :: ls, x.all (fun c => !(c == '\n')) = true) →
    (joinWith ("\n".data) (l :: ls) ++ ['\n']).length ≤ fuel →
    pySplit ("\n".data) fuel (joinWith ("\n".data) (l :: ls) ++ ['\n']) =
      (l :: ls) ++ [[]] := by
  intro ls
  induction ls with
  | nil =>
    intro l fuel hnl hfuel
    rw [joinWith_singleton] at hfuel ⊢
    obtain ⟨f, rfl⟩ : ∃ f, fuel = f + 1 :=
      ⟨fuel - 1, by simp only [List.length_append, List.length_cons,
        List.length_nil] at hfuel; omega⟩
    unfold pySplit
    rw [show (l ++ ['\n'] : Str) = l ++ '\n' :: [] from rfl]
    rw [brkOn_single '\n' [] l (hnl l (by simp))]
    dsimp only []
    rw [pySplit_nil ("\n".data) f (by simp)]
    rfl
  | cons l2 ls' ih =>
    intro l fuel hnl hfuel
    rw [joinWith_cons₂] at hfuel ⊢
    obtain ⟨f, rfl⟩ : ∃ f, fuel = f + 1 :=
      ⟨fuel - 1, by simp only [List.length_append, List.length_cons] at hfuel; omega⟩
    unfold pySplit
    have hshape : (l ++ ('\n' :: joinWith ("\n".data) (l2 :: ls')) : Str) ++ ['\n'] =
        l ++ '\n' :: (joinWith ("\n".data) (l2 :: ls') ++ ['\n']) := by
      simp
    rw [show (("\n".data) ++ joinWith ("\n".data) (l2 :: ls') : Str) =
      '\n' :: joinWith ("\n".data) (l2 :: ls') from rfl] at hfuel ⊢
    rw [hshape]
    rw [brkOn_single '\n' _ l (hnl l (by simp))]
    dsimp only []
    rw [ih l2 f (fun x hx => hnl x (by simp at hx ⊢; tauto)) (by
      simp only [List.length_append, List.length_cons] at hfuel ⊢
      omega)]
    rfl

/-- A printed integer has no adjacent dashes. -/
theorem intToStr_noTwoDash (n : Int) : hasTwoDash (intToStr n) = false := by
  have hnat : ∀ m : Nat, hasTwoDash (natToStr m) = false := by
    intro m
    apply noDash_noTwoDash
    intro c hc
    rw [natToStr_eq] at hc
    have hd := digitsSpec_all_digit m
    rw [List.all_eq_true] at hd
    exact boolPredNe (hd c hc) (show Char.isDigit '-' = false by decide)
  unfold intToStr
  by_cases hneg : n < 0
  · rw [if_pos hneg]
    obtain ⟨c, rest, heq, hdig, _⟩ := digitsSpec_head (-n).toNat
    rw [natToStr_eq, heq]
    show (('-' == '-' && c == '-') || hasTwoDash (c :: rest)) = false
    rw [boolPredNe hdig (show Char.isDigit '-' = false by decide)]
    rw [show hasTwoDash (c :: rest) = false from by
      rw [← heq, ← natToStr_eq]
      exact hnat _]
    rfl
  · rw [if_neg hneg]
    exact hnat _

/-- The facts needed of one serialised line, given prefix and token facts. -/
theorem line_facts_gen (pre tok : Str) (c0 : Char)
    (hpre0 : pre.head? = some c0) (hc0 : (c0 == '-') = false)
    (hpreNL : ∀ c ∈ pre, (c == '\n') = false)
    (hpreTD : hasTwoDash pre = false)
    (hpreLast : pre.getLast? = some ' ')
    (htokNL : ∀ c ∈ tok, (c == '\n') = false)
    (htokTD : hasTwoDash tok = false)
    (htokLast : ∃ c, tok.getLast? = some c ∧ (c == '-') = false) :
    (pre ++ tok) ≠ [] ∧ (pre ++ tok).all (fun c => !(c == '\n')) = true ∧
    hasTwoDash (pre ++ tok) = false ∧ (pre ++ tok).head? ≠ some '-' ∧
    (pre ++ tok).getLast? ≠ some '-' := by
  obtain ⟨ct, hgt, hct⟩ := htokLast
  have hpne : pre ≠ [] := by
    intro hcon
    rw [hcon] at hpre0
    exact absurd hpre0 (by simp)
  refine ⟨?_, ?_, ?_, ?_, ?_⟩
  · intro hcon
    rw [List.append_eq_nil] at hcon
    exact hpne hcon.1
  · rw [List.all_append, Bool.and_eq_true]
    constructor
    · rw [List.all_eq_true]
      intro c hc
      rw [hpreNL c hc]
      rfl
    · rw [List.all_eq_true]
      intro c hc
      rw [htokNL c hc]
      rfl
  · exact hasTwoDash_append_false pre tok hpreTD htokTD (Or.inl (by
      rw [hpreLast]
      simp))
  · cases pre with
    | nil => exact absurd rfl hpne
    | cons c t =>
      rw [List.cons_append]
      intro hcon
      injection hcon with hcon'
      have hcc0 : c = c0 := by
        injection hpre0
      rw [hcon'] at hcc0
      rw [← hcc0] at hc0
      simp at hc0
  · rw [List.getLast?_append, hgt]
    intro hcon
    have : ct = '-' := by
      have h2 : (some ct).or pre.getLast? = some ct := rfl
      rw [h2] at hcon
      injection hcon
    rw [this] at hct
    simp at hct

/-- Every line serialised from a well-formed mapping is non-empty,
newline-free, dash-pair-free and has no dash at either end. -/
theorem fmLines_facts : ∀ (m : List (Str × FmVal)),
    m.all (fun p => keySafe p.1 && wfVal p.1 p.2) = true →
    ∀ l ∈ fmLines m, l ≠ [] ∧ l.all (fun c => !(c == '\n')) = true ∧
      hasTwoDash l = false ∧ l.head? ≠ some '-' ∧ l.getLast? ≠ some '-' := by
  intro m
  induction m with
  | nil =>
    intro _ l hl
    exact absurd hl (by simp [fmLines])
  | cons p m' ih =>
    obtain ⟨k, v⟩ := p
    intro hwf l hl
    rw [List.all_cons, Bool.and_eq_true] at hwf
    obtain ⟨hhead, htail⟩ := hwf
    rw [Bool.and_eq_true] at hhead
    obtain ⟨hks, hwv⟩ := hhead
    obtain ⟨kc, k', hk, hka, hkall⟩ := keySafe_parts k hks
    have hpre0 : (k ++ (": ".data)).head? = some kc := by
      rw [hk]
      rfl
    have hc0 : (kc == '-') = false :=
      boolPredNe hka (show Char.isAlpha '-' = false by decide)
    have hpreNL : ∀ c ∈ k ++ (": ".data), (c == '\n') = false := by
      intro c hc
      rcases List.mem_append.mp hc with h1 | h1
      · exact boolPredNe (hkall c h1) (show keySafeCh '\n' = false by decide)
      · simp at h1
        rcases h1 with rfl | rfl <;> decide
    have hpreTD : hasTwoDash (k ++ (": ".data)) = false := by
      apply noDash_noTwoDash
      intro c hc
      rcases List.mem_append.mp hc with h1 | h1
      · exact boolPredNe (hkall c h1) (show keySafeCh '-' = false by decide)
      · simp at h1
        rcases h1 with rfl | rfl <;> decide
    have hpreLast : (k ++ (": ".data)).getLast? = some ' ' := by
      rw [List.getLast?_append]
      rfl
    match v, hwv with
    | .str s, hwv =>
      rw [fmLines_cons_str k s m' hwv] at hl
      rcases List.mem_cons.mp hl with rfl | h1
      · obtain ⟨⟨cs, srest, hs, hsa⟩, hsall, ⟨cl, hgl, hgls⟩, _⟩ := plainSafe_parts s hwv
        exact line_facts_gen (k ++ (": ".data)) s kc hpre0 hc0 hpreNL hpreTD hpreLast
          (fun c hc => boolPredNe (hsall c hc) (show plainCh '\n' = false by decide))
          (noDash_noTwoDash s (fun c hc => boolPredNe (hsall c hc)
            (show plainCh '-' = false by decide)))
          ⟨cl, hgl, boolPredNe (hsall cl (List.mem_of_getLast?_eq_some hgl))
            (show plainCh '-' = false by decide)⟩
      · exact ih htail l h1
    | .bool b, _ =>
      rw [fmLines_cons_bool k b m'] at hl
      rcases List.mem_cons.mp hl with rfl | h1
      · apply line_facts_gen (k ++ (": ".data)) _ kc hpre0 hc0 hpreNL hpreTD hpreLast
        · cases b
          · intro c hc
            have hfa : ∀ x ∈ ("false".data : Str), (x == '\n') = false := by decide
            exact hfa c hc
          · intro c hc
            have hfa : ∀ x ∈ ("true".data : Str), (x == '\n') = false := by decide
            exact hfa c hc
        · cases b <;> decide
        · cases b
          · exact ⟨'e', by decide, by decide⟩
          · exact ⟨'e', by decide, by decide⟩
      · exact ih htail l h1
    | .int n, _ =>
      rw [fmLines_cons_int k n m'] at hl
      rcases List.mem_cons.mp hl with rfl | h1
      · apply line_facts_gen (k ++ (": ".data)) _ kc hpre0 hc0 hpreNL hpreTD hpreLast
        · intro c hc
          rcases Bool.or_eq_true .. |>.mp (intToStr_chars n c hc) with h2 | h2
          · exact boolPredNe h2 (show Char.isDigit '\n' = false by decide)
          · have : c = '-' := by simpa using h2
            rw [this]
            decide
        · exact intToStr_noTwoDash n
        · obtain ⟨c, hg, hd⟩ := intToStr_last n
          exact ⟨c, hg, boolPredNe hd (show Char.isDigit '-' = false by decide)⟩
      · exact ih htail l h1
    | .list items, hwv =>
      have hwl := hwv
      unfold wfVal at hwl
      rw [Bool.and_eq_true, Bool.and_eq_true] at hwl
      obtain ⟨⟨hkatt, _⟩, hall⟩ := hwl
      have hkeq : k = ("attendees".data) := by simpa using hkatt
      rw [hkeq, fmLines_cons_list items m'] at hl
      rcases List.mem_cons.mp hl with rfl | h1
      · refine ⟨by decide, by decide, by decide, by decide, by decide⟩
      · rcases List.mem_append.mp h1 with h2 | h2
        · obtain ⟨a, ha, rfl⟩ := List.mem_map.mp h2
          rw [List.all_eq_true] at hall
          have haf := hall a ha
          match a, haf with
          | .str s, haf =>
            rw [show pyStrV (.str s) = s from rfl]
            obtain ⟨_, hsall, ⟨cl, hgl, hgls⟩, _⟩ := plainSafe_parts s haf
            exact line_facts_gen ("  - ".data) s ' ' rfl (by decide)
              (by decide) (by decide) (by decide)
              (fun c hc => boolPredNe (hsall c hc) (show plainCh '\n' = false by decide))
              (noDash_noTwoDash s (fun c hc => boolPredNe (hsall c hc)
                (show plainCh '-' = false by decide)))
              ⟨cl, hgl, boolPredNe (hsall cl (List.mem_of_getLast?_eq_some hgl))
                (show plainCh '-' = false by decide)⟩
        · exact ih htail l h2

/-- The newline-join of lines with good ends has good ends and no adjacent
dashes. -/
theorem join_facts : ∀ (ls : List Str) (l : Str),
    (∀ x ∈ l :: ls, x ≠ [] ∧ hasTwoDash x = false ∧ x.head? ≠ some '-' ∧
      x.getLast? ≠ some '-') →
    joinWith ("\n".data) (l :: ls) ≠ [] ∧
    hasTwoDash (joinWith ("\n".data) (l :: ls)) = false ∧
    (joinWith ("\n".data) (l :: ls)).head? ≠ some '-' ∧
    (joinWith ("\n".data) (l :: ls)).getLast? ≠ some '-' := by
  intro ls
  induction ls with
  | nil =>
    intro l h
    rw [joinWith_singleton]
    exact h l (by simp)
  | cons l2 ls' ih =>
    intro l h
    rw [joinWith_cons₂]
    obtain ⟨hl1, hl2, hl3, hl4⟩ := h l (by simp)
    obtain ⟨hj1, hj2, hj3, hj4⟩ := ih l2 (fun x hx => h x (by simp at hx ⊢; tauto))
    obtain ⟨cj, hcj⟩ : ∃ cj, (joinWith ("\n".data) (l2 :: ls')).getLast? = some cj := by
      cases hg : (joinWith ("\n".data) (l2 :: ls')).getLast? with
      | none => exact absurd (List.getLast?_eq_none_iff.mp hg) hj1
      | some cj => exact ⟨cj, rfl⟩
    rw [show (("\n".data) ++ joinWith ("\n".data) (l2 :: ls') : Str) =
      '\n' :: joinWith ("\n".data) (l2 :: ls') from rfl]
    refine ⟨?_, ?_, ?_, ?_⟩
    · intro hcon
      rw [List.append_eq_nil] at hcon
      exact absurd hcon.2 (by simp)
    · apply hasTwoDash_append_false l _ hl2
      · cases hJ : joinWith ("\n".data) (l2 :: ls') with
        | nil => rfl
        | cons j js =>
          show (('\n' == '-' && j == '-') || hasTwoDash (j :: js)) = false
          rw [show ('\n' == '-') = false from by decide, Bool.false_and,
            Bool.false_or, ← hJ]
          exact hj2
      · right
        intro hcon
        injection hcon with hcon'
        exact absurd hcon' (by decide)
    · cases l with
      | nil => exact absurd rfl hl1
      | cons c t =>
        rw [List.cons_append]
        exact hl3
    · rw [List.getLast?_append]
      obtain ⟨j, js, hJ⟩ : ∃ j js, joinWith ("\n".data) (l2 :: ls') = j :: js := by
        cases hJ : joinWith ("\n".data) (l2 :: ls') with
        | nil => exact absurd hJ hj1
        | cons j js => exact ⟨j, js, rfl⟩
      have hlast2 : ('\n' :: joinWith ("\n".data) (l2 :: ls') : Str).getLast? =
          some cj := by
        rw [hJ]
        rw [List.getLast?_cons_cons]
        rw [← hJ]
        exact hcj
      rw [hlast2]
      intro hcon
      have hcj' : cj = '-' := by
        have h2 : (some cj).or l.getLast? = some cj := rfl
        rw [h2] at hcon
        injection hcon
      rw [hcj'] at hcj
      exact absurd hcj hj4

/-- The serialised document, with the first line exposed. -/
theorem format_shape (m : List (Str × FmVal)) (l1 : Str) (lrest : List Str)
    (hfm : fmLines m = l1 :: lrest) :
    format_frontmatter m = ("---".data) ++ '\n' ::
      (joinWith ("\n".data) (l1 :: lrest) ++ ('\n' :: ("---".data))) := by
  unfold format_frontmatter
  rw [hfm]
  rw [show (("---".data) :: l1 :: lrest) ++ [("---".data)] =
    ("---".data) :: ((l1 :: lrest) ++ [("---".data)]) from rfl]
  rw [show joinWith ("\n".data) (("---".data) :: ((l1 :: lrest) ++ [("---".data)])) =
    ("---".data) ++ (("\n".data) ++ joinWith ("\n".data) ((l1 :: lrest) ++ [("---".data)]))
    from by
      rw [show ((l1 :: lrest) ++ [("---".data)] : List Str) =
        l1 :: (lrest ++ [("---".data)]) from rfl]
      exact joinWith_cons₂ _ _ _ _]
  rw [joinWith_append_last]
  simp [List.append_assoc]

/-- One bounded split step at a found separator. -/
theorem pySplit_succ (sep : Str) (n : Nat) (s a b : Str)
    (h : brkOn sep s = some (a, b)) :
    pySplit sep (n + 1) s = a :: pySplit sep n b := by
  conv_lhs => rw [pySplit]
  rw [h]

/-- The line list of a non-empty mapping is non-empty. -/
theorem fmLines_cons_ne_nil (p : Str × FmVal) (m' : List (Str × FmVal)) :
    fmLines (p :: m') ≠ [] := by
  obtain ⟨k, v⟩ := p
  intro hcon
  conv_lhs at hcon => rw [fmLines]
  rw [List.append_eq_nil] at hcon
  obtain ⟨h1, _⟩ := hcon
  split at h1
  · simp at h1
  · split at h1
    · simp at h1
    · split at h1
      · simp at h1
      · simp at h1

/-- Parsing the serialised form of a well-formed mapping with at least one
entry. -/
theorem parse_format_lines (m : List (Str × FmVal)) (l1 : Str) (lrest : List Str)
    (hwf : m.all (fun p => keySafe p.1 && wfVal p.1 p.2) = true)
    (hnd : (m.map Prod.fst).Nodup)
    (hfm : fmLines m = l1 :: lrest) :
    parse_frontmatter (format_frontmatter m) = (m, []) := by
  have hlf0 := fmLines_facts m hwf
  rw [hfm] at hlf0
  obtain ⟨hB1, hB2, hB3, hB4⟩ := join_facts lrest l1 (fun x hx => by
    obtain ⟨h1, _, h3, h4, h5⟩ := hlf0 x hx
    exact ⟨h1, h3, h4, h5⟩)
  have htd : hasTwoDash
      (('\n' :: (joinWith ("\n".data) (l1 :: lrest) ++ ['\n'])) ++ ['-']) = false := by
    rw [show (('\n' :: (joinWith ("\n".data) (l1 :: lrest) ++ ['\n'])) ++ ['-'] : Str) =
      '\n' :: (joinWith ("\n".data) (l1 :: lrest) ++ ['\n', '-']) from by simp]
    have hinner : hasTwoDash
        (joinWith ("\n".data) (l1 :: lrest) ++ ['\n', '-']) = false := by
      apply hasTwoDash_append_false _ _ hB2 (by decide)
      right
      intro hcon
      injection hcon with hcon'
      exact absurd hcon' (by decide)
    cases hX : joinWith ("\n".data) (l1 :: lrest) ++ ['\n', '-'] with
    | nil => rfl
    | cons x xs =>
      show (('\n' == '-' && x == '-') || hasTwoDash (x :: xs)) = false
      rw [show ('\n' == '-') = false from by decide, Bool.false_and, Bool.false_or,
        ← hX]
      exact hinner
  have hbrk2 : brkOn ("---".data)
      ('\n' :: (joinWith ("\n".data) (l1 :: lrest) ++ ('\n' :: ("---".data)))) =
      some ('\n' :: (joinWith ("\n".data) (l1 :: lrest) ++ ['\n']), []) := by
    rw [show ('\n' :: (joinWith ("\n".data) (l1 :: lrest) ++
        ('\n' :: ("---".data))) : Str) =
      ('\n' :: (joinWith ("\n".data) (l1 :: lrest) ++ ['\n'])) ++ ("---".data)
      from by simp]
    exact brkOn_dashes _ htd
  have hsplit : pySplit ("---".data) 2 (format_frontmatter m) =
      [[], '\n' :: (joinWith ("\n".data) (l1 :: lrest) ++ ['\n']), []] := by
    rw [format_shape m l1 lrest hfm]
    show pySplit ("---".data) (1 + 1) _ = _
    rw [pySplit_succ _ _ _ _ _ (brkOn_pfx ("---".data) _ (by simp))]
    show _ :: pySplit ("---".data) (0 + 1) _ = _
    rw [pySplit_succ _ _ _ _ _ hbrk2]
    rfl
  have hsplitAll : pySplitAll ("\n".data)
      ('\n' :: (joinWith ("\n".data) (l1 :: lrest) ++ ['\n'])) =
      [] :: ((l1 :: lrest) ++ [[]]) := by
    unfold pySplitAll
    rw [show ('\n' :: (joinWith ("\n".data) (l1 :: lrest) ++ ['\n']) : Str).length =
      (joinWith ("\n".data) (l1 :: lrest) ++ ['\n']).length + 1 from by simp]
    rw [pySplit_succ _ _ _ _ _ (show brkOn ("\n".data)
        ('\n' :: (joinWith ("\n".data) (l1 :: lrest) ++ ['\n'])) =
        some ([], joinWith ("\n".data) (l1 :: lrest) ++ ['\n']) from by
      rw [show ('\n' :: (joinWith ("\n".data) (l1 :: lrest) ++ ['\n']) : Str) =
        ("\n".data) ++ (joinWith ("\n".data) (l1 :: lrest) ++ ['\n']) from rfl]
      exact brkOn_pfx _ _ (by simp))]
    rw [pySplit_lines lrest l1 _ (fun x hx => (hlf0 x hx).2.1) (le_refl _)]
  have hload : yamlLoadLines ([] :: (fmLines m ++ [[]])) [] = some m := by
    unfold yamlLoadLines
    rw [show ([] :: (fmLines m ++ [[]]) : List Str).length =
      (fmLines m ++ [[]]).length + 1 from by simp]
    rw [yamlLoadF_blank]
    rw [yamlLoadF_spec m [] _ hwf hnd (fun p _ => rfl) (le_refl _)]
    simp
  unfold parse_frontmatter
  rw [if_neg (by
    intro hcon
    apply hcon
    rw [format_shape m l1 lrest hfm]
    exact List.isPrefixOf_iff_prefix.mpr (List.prefix_append _ _))]
  rw [hsplit]
  dsimp only [List.length_cons, List.length_nil, List.getD, List.get?, Option.getD]
  rw [if_neg (by simp)]
  have hsplitAll2 : pySplitAll ['\n']
      ('\n' :: (joinWith ['\n'] (l1 :: lrest) ++ ['\n'])) =
      [] :: ((l1 :: lrest) ++ [[]]) := hsplitAll
  rw [hsplitAll2, ← hfm]
  rw [hload]
  rfl

/-- Claim C4, counterexample: the mapping `{status: "true"}` serialises to
the line `status: true`, which PyYAML loads back as the boolean `True`, not
the original string — `parse(format(...))` is not the identity on string
values that look like YAML keywords. -/
theorem claim_C4_counterexample :
    parse_frontmatter (format_frontmatter
        [(("status".data), FmVal.str ("true".data))]) ≠
      ([(("status".data), FmVal.str ("true".data))], []) := by
  decide

/-- Claim C4 (amended): `parse_frontmatter(format_frontmatter(fm))` returns
the original mapping with an empty body for every *round-trip-safe* mapping:
distinct keys made of word characters starting with a letter, and values
that are booleans, integers, keyword-free plain strings starting with a
letter (no `:`/`"`/newline/`#`/`-`, no trailing space, not resolving to a
YAML bool/null/int/date), or — under the `attendees` key — non-empty lists
of such strings. Outside this set the round trip can alter values (e.g. the
string "true" comes back as a boolean, quoted strings lose their quotes'
effect, dates and keywords resolve to non-strings). -/
theorem claim_C4_amended (m : List (Str × FmVal)) (h : wfFm m = true) :
    parse_frontmatter (format_frontmatter m) = (m, []) := by
  unfold wfFm at h
  rw [Bool.and_eq_true] at h
  obtain ⟨hnd, hwf⟩ := h
  have hnd' : (m.map Prod.fst).Nodup := of_decide_eq_true hnd
  match m with
  | [] => decide
  | p :: m' =>
    match hfm : fmLines (p :: m') with
    | [] => exact absurd hfm (fmLines_cons_ne_nil p m')
    | l1 :: lrest => exact parse_format_lines (p :: m') l1 lrest hwf hnd' hfm

/-- Claim C4, witness: a concrete transcript-like frontmatter mapping —
title, processed flag, duration, attendees — is well-formed and survives
the round trip exactly. -/
theorem claim_C4_witness :
    wfFm [(("title".data), FmVal.str ("Standup Notes".data)),
          (("processed".data), FmVal.bool false),
          (("duration".data), FmVal.int 45),
          (("attendees".data), FmVal.list
            [FmVal.str ("Alice".data), FmVal.str ("Bob".data)])] = true ∧
    parse_frontmatter (format_frontmatter
        [(("title".data), FmVal.str ("Standup Notes".data)),
         (("processed".data), FmVal.bool false),
         (("duration".data), FmVal.int 45),
         (("attendees".data), FmVal.list
           [FmVal.str ("Alice".data), FmVal.str ("Bob".data)])]) =
      ([(("title".data), FmVal.str ("Standup Notes".data)),
        (("processed".data), FmVal.bool false),
        (("duration".data), FmVal.int 45),
        (("attendees".data), FmVal.list
          [FmVal.str ("Alice".data), FmVal.str ("Bob".data)])], []) :=
  ⟨by decide, claim_C4_amended _ (by decide)⟩

/-! ## Claim C1: idempotence of the sync loop -/

/-- An id that serialises unquoted in frontmatter: no colon, no double
quote. -/
def plainId (id : Str) : Bool :=
  id.all (fun c => !(c == ':') && !(c == '"'))

/-- The part of a path after its last slash. -/
def lastSeg (s : Str) : Str := (s.reverse.takeWhile (fun c => !(c == '/'))).reverse

/-- `takeWhile` collects a satisfying prefix up to the first failure. -/
theorem takeWhile_append_stop (p : Char → Bool) (x : Char) (b : Str) :
    ∀ a : Str, (∀ c ∈ a, p c = true) → p x = false →
    (a ++ x :: b).takeWhile p = a := by
  intro a
  induction a with
  | nil =>
    intro _ hx
    rw [List.nil_append]
    exact List.takeWhile_cons_of_neg (by rw [hx]; simp)
  | cons c a ih =>
    intro ha hx
    rw [List.cons_append, List.takeWhile_cons_of_pos (ha c (by simp))]
    rw [ih (fun d hd => ha d (by simp [hd])) hx]

/-- The last segment of a path built as `dir ++ "/" ++ name` with a
slash-free name. -/
theorem lastSeg_append (dir name : Str)
    (h : ∀ c ∈ name, (c == '/') = false) :
    lastSeg (dir ++ '/' :: name) = name := by
  unfold lastSeg
  rw [List.reverse_append, List.reverse_cons]
  rw [List.append_assoc, List.singleton_append]
  rw [takeWhile_append_stop _ '/' dir.reverse name.reverse
    (fun c hc => by rw [h c (List.mem_reverse.mp hc)]; rfl)
    (by simp)]
  exact List.reverse_reverse name

/-- Characters survive `lstrip`. -/
theorem mem_lstrip (c : Char) (s : Str) (h : c ∈ lstripStr s) : c ∈ s :=
  (List.dropWhile_sublist isPySpace).subset h

/-- Characters survive `rstrip`. -/
theorem mem_rstrip (c : Char) (s : Str) (h : c ∈ rstripStr s) : c ∈ s := by
  unfold rstripStr at h
  rw [List.mem_reverse] at h
  exact List.mem_reverse.mp ((List.dropWhile_sublist isPySpace).subset h)

/-- Every character of a sanitised filename survived the bad-character
filter. -/
theorem mem_sanitize (c : Char) (t : Str) (h : c ∈ sanitize_filename t) :
    badFileChar c = false := by
  unfold sanitize_filename at h
  have hfil : c ∈ t.filter (fun c => !badFileChar c) := by
    by_cases h100 : 100 < (stripStr (t.filter (fun c => !badFileChar c))).length
    · rw [if_pos h100] at h
      exact mem_lstrip c _ (mem_rstrip c _ ((List.take_sublist _ _).subset
        (mem_lstrip c _ (mem_rstrip c _ h))))
    · rw [if_neg h100] at h
      exact mem_lstrip c _ (mem_rstrip c _ h)

  rw [List.mem_filter] at hfil
  have := hfil.2
  cases hb : badFileChar c
  · rfl
  · rw [hb] at this
    exact absurd this (by simp)

/-- `strftime("%Y-%m-%d")` contains no slash. -/
theorem fmtYmd_noSlash (dt : DT) : ∀ c ∈ fmtYmd dt, (c == '/') = false := by
  intro c hc
  have key : ∀ n, (digitCh n == '/') = false := fun n =>
    boolPredNe (digitCh_isDigit n) (show Char.isDigit '/' = false by decide)
  unfold fmtYmd pad4 pad2 at hc
  rcases List.mem_append.mp hc with h1 | h1
  · rcases List.mem_append.mp h1 with h2 | h2
    · rcases List.mem_append.mp h2 with h3 | h3
      · rcases List.mem_append.mp h3 with h4 | h4
        · simp only [List.mem_cons, List.not_mem_nil, or_false] at h4
          rcases h4 with rfl | rfl | rfl | rfl <;> exact key _
        · simp only [List.mem_cons, List.not_mem_nil, or_false] at h4
          rw [h4]
          rfl
      · simp only [List.mem_cons, List.not_mem_nil, or_false] at h3
        rcases h3 with rfl | rfl <;> exact key _
    · simp only [List.mem_cons, List.not_mem_nil, or_false] at h2
      rw [h2]
      rfl
  · simp only [List.mem_cons, List.not_mem_nil, or_false] at h1
    rcases h1 with rfl | rfl <;> exact key _

/-- `strftime("%Y-%m-%d")` has ten characters. -/
theorem fmtYmd_length (dt : DT) : (fmtYmd dt).length = 10 := by
  simp [fmtYmd, pad4, pad2]

/-- The sanitised title contains no slash. -/
theorem sanitize_noSlash (t : Str) : ∀ c ∈ sanitize_filename t,
    (c == '/') = false := by
  intro c hc
  have hb := mem_sanitize c t hc
  have hnb : (fun x => !badFileChar x) c = true := by
    show (!badFileChar c) = true
    rw [hb]
    rfl
  exact @boolPredNe (fun x => !badFileChar x) c '/' hnb (by decide)

/-- The resolved base path, with its directory and name exposed. -/
theorem genBase_shape (cfg : Config) (doc : PyDoc) (entries : List Entry) (now : DT) :
    genBase cfg doc entries now = transcriptsDir cfg ++ '/' ::
      (genDateStr entries doc now ++ (" - ".data) ++
        sanitize_filename (genTitle doc) ++ (".md".data)) := by
  unfold genBase basePathOf
  rw [List.append_assoc, List.cons_append]

/-- The daily path, with its directory and name exposed. -/
theorem daily_shape (mdt : DT) (cfg : Config) :
    get_daily_file_path mdt cfg = (cfg.vault ++ ('/' :: cfg.dailyFolder)) ++ '/' ::
      (fmtYmd mdt ++ (".md".data)) := by
  unfold get_daily_file_path
  rw [List.append_assoc, List.cons_append]

/-- A transcript base path is never a daily-note path: their last path
segments have different lengths (16 plus the title length versus 13). -/
theorem genBase_ne_daily (cfg : Config) (doc : PyDoc) (entries : List Entry)
    (now : DT) (mdt' : DT) :
    genBase cfg doc entries now ≠ get_daily_file_path mdt' cfg := by
  intro h
  have h2 := congrArg lastSeg h
  rw [genBase_shape, daily_shape] at h2
  rw [lastSeg_append _ _ (by
    intro c hc
    rcases List.mem_append.mp hc with h1 | h1
    · rcases List.mem_append.mp h1 with h3 | h3
      · rcases List.mem_append.mp h3 with h4 | h4
        · exact fmtYmd_noSlash _ c h4
        · revert h4
          have hd : ∀ x ∈ (" - ".data : Str), (x == '/') = false := by decide
          exact hd c
      · exact sanitize_noSlash _ c h3
    · revert h1
      have hd : ∀ x ∈ (".md".data : Str), (x == '/') = false := by decide
      exact hd c)] at h2
  rw [lastSeg_append _ _ (by
    intro c hc
    rcases List.mem_append.mp hc with h1 | h1
    · exact fmtYmd_noSlash _ c h1
    · revert h1
      have hd : ∀ x ∈ (".md".data : Str), (x == '/') = false := by decide
      exact hd c)] at h2
  have h3 := congrArg List.length h2
  simp only [List.length_append] at h3
  rw [show (genDateStr entries doc now).length = 10 from fmtYmd_length _] at h3
  rw [fmtYmd_length] at h3
  simp only [show (" - ".data : Str).length = 3 from rfl,
    show (".md".data : Str).length = 3 from rfl] at h3
  omega

/-- Readiness of one cache item: the base path holds a file whose content
carries the identity marker, or the alternate path is occupied — exactly
the configurations in which `generate_transcript_file` skips. -/
def SkipReady (cfg : Config) (now : DT) (docs : List (Str × PyDoc)) (fs : Fs)
    (item : Str × List Entry) : Prop :=
  ∀ doc, item.2 ≠ [] → assocFind docs item.1 = some doc →
    ∃ c, fs (genBase cfg doc item.2 now) = some c ∧
      (hasSub (checkStr item.1) c = true ∨
       (fs (genAlt cfg doc item.2 now)).isSome = true)

/-- Readiness survives any write the sync loop performs: a write to a
currently absent path, or a write to a daily-note path. -/
theorem skipReady_write (cfg : Config) (now : DT) (docs : List (Str × PyDoc))
    (fs : Fs) (item : Str × List Entry) (q v : Str)
    (hsr : SkipReady cfg now docs fs item)
    (hq : fs q = none ∨ ∃ mdt', q = get_daily_file_path mdt' cfg) :
    SkipReady cfg now docs (fsWrite fs q v) item := by
  intro doc hne hdoc
  obtain ⟨c, hb, hdisj⟩ := hsr doc hne hdoc
  have hbq : genBase cfg doc item.2 now ≠ q := by
    rcases hq with h1 | ⟨mdt', rfl⟩
    · intro he
      rw [he, h1] at hb
      exact absurd hb (by simp)
    · exact genBase_ne_daily cfg doc item.2 now mdt'
  refine ⟨c, by rw [fsWrite_other fs q v _ hbq]; exact hb, ?_⟩
  rcases hdisj with h1 | h1
  · exact Or.inl h1
  · right
    by_cases haq : genAlt cfg doc item.2 now = q
    · rw [haq, fsWrite_self]
      rfl
    · rw [fsWrite_other fs q v _ haq]
      exact h1

/-- Substring containment is transitive. -/
theorem hasSub_trans {a b c : Str} (h1 : hasSub a b = true)
    (h2 : hasSub b c = true) : hasSub a c = true := by
  obtain ⟨x, y, hxy⟩ := hasSub_elim h1
  obtain ⟨u, v, huv⟩ := hasSub_elim h2
  rw [huv, hxy]
  rw [show u ++ (x ++ a ++ y) ++ v = (u ++ x) ++ a ++ (y ++ v) from by
    simp [List.append_assoc]]
  exact hasSub_intro a _ _

/-- A member line is a substring of the join. -/
theorem hasSub_of_mem_join (sep l : Str) : ∀ ls : List Str, l ∈ ls →
    hasSub l (joinWith sep ls) = true := by
  intro ls
  induction ls with
  | nil =>
    intro h
    exact absurd h (by simp)
  | cons x t ih =>
    intro h
    rcases List.mem_cons.mp h with rfl | h1
    · cases t with
      | nil =>
        rw [joinWith_singleton]
        have hi := hasSub_intro l [] []
        simpa using hi
      | cons y t' =>
        rw [joinWith_cons₂]
        rw [show (l ++ (sep ++ joinWith sep (y :: t')) : Str) =
          [] ++ l ++ (sep ++ joinWith sep (y :: t')) from by simp]
        exact hasSub_intro _ _ _
    · cases t with
      | nil => exact absurd h1 (by simp)
      | cons y t' =>
        rw [joinWith_cons₂]
        apply hasSub_trans (ih h1)
        rw [show (x ++ (sep ++ joinWith sep (y :: t')) : Str) =
          (x ++ sep) ++ joinWith sep (y :: t') ++ [] from by simp [List.append_assoc]]
        exact hasSub_intro _ _ _

/-- The serialised line block of a no-quote string entry. -/
theorem fmLines_cons_strq (k s : Str) (m : List (Str × FmVal))
    (hq : strNeedsQuote (.str s) = false) :
    fmLines ((k, .str s) :: m) = (k ++ (": ".data) ++ s) :: fmLines m := by
  conv_lhs => rw [fmLines]
  rw [if_neg (by intro hcon; exact absurd hcon.2 (by simp [isListV]))]
  rw [if_neg (by intro hcon; exact absurd hcon (by simp [isBoolV]))]
  rw [if_neg (by
    intro hcon
    rw [hq] at hcon
    exact absurd hcon.2 (by simp))]
  rfl

/-- Lines of the tail remain lines of the whole. -/
theorem fmLines_mem_tail (p : Str × FmVal) (m' : List (Str × FmVal)) (x : Str)
    (hx : x ∈ fmLines m') : x ∈ fmLines (p :: m') := by
  obtain ⟨kp, vp⟩ := p
  rw [fmLines]
  exact List.mem_append_right _ hx

/-- An unquoted string entry contributes its `key: value` line. -/
theorem fmLines_mem_plain (k s : Str) (hq : strNeedsQuote (.str s) = false) :
    ∀ m : List (Str × FmVal), (k, FmVal.str s) ∈ m →
    (k ++ (": ".data) ++ s) ∈ fmLines m := by
  intro m
  induction m with
  | nil =>
    intro h
    exact absurd h (by simp)
  | cons p m' ih =>
    intro h
    rcases List.mem_cons.mp h with heq | h1
    · rw [← heq]
      rw [fmLines_cons_strq k s m' hq]
      exact List.mem_cons_self _ _
    · exact fmLines_mem_tail p m' _ (ih h1)

/-- A plain id always leaves its identity marker in the generated content. -/
theorem genContent_marker (doc_id : Str) (doc : PyDoc) (entries : List Entry)
    (ds title : Str) (hplain : plainId doc_id = true) :
    hasSub (checkStr doc_id) (genContent doc_id doc entries ds title) = true := by
  have hall : ∀ c ∈ doc_id, (c == ':') = false ∧ (c == '"') = false := by
    intro c hc
    unfold plainId at hplain
    rw [List.all_eq_true] at hplain
    have hp := hplain c hc
    rw [Bool.and_eq_true] at hp
    exact ⟨by simpa using hp.1, by simpa using hp.2⟩
  have hq : strNeedsQuote (.str doc_id) = false := by
    show (doc_id.contains ':' || doc_id.contains '"') = false
    rw [contains_false ':' _ (fun c hc => beq_false_symm (hall c hc).1),
        contains_false '"' _ (fun c hc => beq_false_symm (hall c hc).2)]
    rfl
  simp only [genContent]
  have hmem : (("granola_id".data) ++ (": ".data) ++ doc_id) ∈
      fmLines ([(("date".data), .str ds), (("title".data), .str title),
        (("source".data), .str ("granola".data)),
        (("granola_id".data), .str doc_id),
        (("duration_minutes".data), .int (calculate_duration entries)),
        (("entry_count".data), .int (entries.length : Int)),
        (("processed".data), .bool false)] ++
        (if (get_attendees doc).isEmpty then []
         else [(("attendees".data), .list ((get_attendees doc).map .str))])) :=
    fmLines_mem_plain _ _ hq _ (by simp)
  have hline : (("granola_id".data) ++ (": ".data) ++ doc_id : Str) =
      checkStr doc_id := by
    show _ = ("granola_id: ".data) ++ doc_id
    rw [show (("granola_id".data) ++ (": ".data) : Str) = ("granola_id: ".data)
      from by decide]
  have hfront : hasSub (checkStr doc_id) (joinWith ("\n".data)
      ((("---".data) ::
        fmLines ([(("date".data), .str ds), (("title".data), .str title),
          (("source".data), .str ("granola".data)),
          (("granola_id".data), .str doc_id),
          (("duration_minutes".data), .int (calculate_duration entries)),
          (("entry_count".data), .int (entries.length : Int)),
          (("processed".data), .bool false)] ++
          (if (get_attendees doc).isEmpty then []
           else [(("attendees".data), .list ((get_attendees doc).map .str))]))) ++
        [("---".data)])) = true := by
    rw [← hline]
    exact hasSub_of_mem_join _ _ _ (List.mem_append_left _ (List.mem_cons_of_mem _ hmem))
  exact hasSub_trans hfront (hasSub_of_mem_join _ _ _ (by simp))

/-- `create_daily_file` on an absent daily file writes the template. -/
theorem create_daily_none (mdt : DT) (cfg : Config) (fs : Fs)
    (hn : fs (get_daily_file_path mdt cfg) = none) :
    create_daily_file mdt cfg fs =
      fsWrite fs (get_daily_file_path mdt cfg) (dailyTemplate mdt) := by
  show (match fs (get_daily_file_path mdt cfg) with
        | some _ => fs
        | none => fsWrite fs (get_daily_file_path mdt cfg) (dailyTemplate mdt)) = _
  rw [hn]

/-- The file-system effect of `add_meeting_to_daily`: at most a creation of
the absent daily file followed by one write to the daily path. -/
theorem add_meeting_fs_shape (mdt : DT) (title : Str) (notes : NoteV) (tpath : Str)
    (cfg : Config) (fs : Fs) :
    ∃ fsmid : Fs,
      (fsmid = fs ∨
        fsmid = fsWrite fs (get_daily_file_path mdt cfg) (dailyTemplate mdt)) ∧
      ((add_meeting_to_daily mdt title notes tpath cfg fs).2 = fsmid ∨
       ∃ v, (add_meeting_to_daily mdt title notes tpath cfg fs).2 =
         fsWrite fsmid (get_daily_file_path mdt cfg) v) := by
  rw [add_meeting_cases]
  set daily := get_daily_file_path mdt cfg with hdaily
  set fs2 := if (fs daily).isSome then fs else create_daily_file mdt cfg fs with hfs2
  have hfs2shape : fs2 = fs ∨ fs2 = fsWrite fs daily (dailyTemplate mdt) := by
    rw [hfs2]
    by_cases hd : (fs daily).isSome = true
    · rw [if_pos hd]
      exact Or.inl rfl
    · rw [if_neg hd]
      right
      have hn : fs daily = none := by
        cases hc : fs daily
        · rfl
        · rw [hc] at hd
          exact absurd rfl hd
      rw [hdaily] at hn
      rw [hdaily]
      exact create_daily_none mdt cfg fs hn
  refine ⟨fs2, hfs2shape, ?_⟩
  match hrel : relativeToVault cfg.vault tpath with
  | none =>
    simp only [hrel]
    exact Or.inl (by trivial)
  | some rel =>
    simp only [hrel]
    set content := (fs2 daily).getD [] with hcontent
    set link := pyReplace (".md".data) [] rel with hlink
    by_cases htok : hasSub (linkToken link) content = true
    · rw [if_pos htok]
      exact Or.inl rfl
    · rw [if_neg htok]
      by_cases hnt : noteTruthy notes = true
      · rw [if_pos hnt]
        match notes with
        | .other t =>
          exact Or.inl rfl
        | .s v =>
          obtain ⟨c', hw, _⟩ := addMeetingWrite_spec daily title
            (bulletize (if 500 < (stripStr v).length then
              (stripStr v).take 500 ++ ("...".data) else stripStr v)) link content fs2
          right
          exact ⟨c', congrArg Prod.snd hw⟩
      · rw [if_neg hnt]
        obtain ⟨c', hw, _⟩ := addMeetingWrite_spec daily title
          ("*Notes pending*".data) link content fs2
        right
        exact ⟨c', congrArg Prod.snd hw⟩

/-- `generate_transcript_file` skips on an identity match at the base path. -/
theorem gen_skip_base (id : Str) (doc : PyDoc) (entries : List Entry)
    (cfg : Config) (now : DT) (fs : Fs) (existing : Str)
    (hbase : fs (genBase cfg doc entries now) = some existing)
    (hmk : hasSub (checkStr id) existing = true) :
    generate_transcript_file id doc entries cfg now fs =
      (genBase cfg doc entries now, false, fs) := by
  rw [gen_cases, hbase]
  dsimp only []
  rw [if_pos hmk]

/-- `generate_transcript_file` skips on an occupied alternate path. -/
theorem gen_skip_alt (id : Str) (doc : PyDoc) (entries : List Entry)
    (cfg : Config) (now : DT) (fs : Fs) (existing w : Str)
    (hbase : fs (genBase cfg doc entries now) = some existing)
    (hmk : hasSub (checkStr id) existing = false)
    (halt : fs (genAlt cfg doc entries now) = some w) :
    generate_transcript_file id doc entries cfg now fs =
      (genAlt cfg doc entries now, false, fs) := by
  rw [gen_cases, hbase]
  dsimp only []
  rw [hmk]
  simp only [Bool.false_eq_true, if_false]
  rw [halt]

/-- `generate_transcript_file` creates at the alternate path. -/
theorem gen_create_alt (id : Str) (doc : PyDoc) (entries : List Entry)
    (cfg : Config) (now : DT) (fs : Fs) (existing : Str)
    (hbase : fs (genBase cfg doc entries now) = some existing)
    (hmk : hasSub (checkStr id) existing = false)
    (halt : fs (genAlt cfg doc entries now) = none) :
    generate_transcript_file id doc entries cfg now fs =
      (genAlt cfg doc entries now, true,
       fsWrite fs (genAlt cfg doc entries now) (genContentOf id doc entries now)) := by
  rw [gen_cases, hbase]
  dsimp only []
  rw [hmk]
  simp only [Bool.false_eq_true, if_false]
  rw [halt]

/-- `generate_transcript_file` creates at the base path. -/
theorem gen_create_base (id : Str) (doc : PyDoc) (entries : List Entry)
    (cfg : Config) (now : DT) (fs : Fs)
    (hbase : fs (genBase cfg doc entries now) = none) :
    generate_transcript_file id doc entries cfg now fs =
      (genBase cfg doc entries now, true,
       fsWrite fs (genBase cfg doc entries now) (genContentOf id doc entries now)) := by
  rw [gen_cases, hbase]

/-- A sync step skips an empty transcript. -/
theorem syncStep_empty (cfg : Config) (now : DT) (docs : List (Str × PyDoc))
    (stats : Stats) (fs : Fs) (id : Str) (entries : List Entry)
    (he : entries.isEmpty = true) :
    syncStep cfg now docs (stats, fs) (id, entries) = (stats, fs) := by
  unfold syncStep
  dsimp only []
  rw [if_pos he]

/-- A sync step skips an unknown document. -/
theorem syncStep_nodoc (cfg : Config) (now : DT) (docs : List (Str × PyDoc))
    (stats : Stats) (fs : Fs) (id : Str) (entries : List Entry)
    (he : entries.isEmpty = false) (hdoc : assocFind docs id = none) :
    syncStep cfg now docs (stats, fs) (id, entries) = (stats, fs) := by
  unfold syncStep
  dsimp only []
  rw [if_neg (by simp [he]), hdoc]

/-- A sync step on a skipping generation leaves the file system unchanged
and counts a skip. -/
theorem syncStep_skip (cfg : Config) (now : DT) (docs : List (Str × PyDoc))
    (stats : Stats) (fs : Fs) (id : Str) (entries : List Entry) (doc : PyDoc)
    (p : Str)
    (he : entries.isEmpty = false) (hdoc : assocFind docs id = some doc)
    (hgen : generate_transcript_file id doc entries cfg now fs = (p, false, fs)) :
    syncStep cfg now docs (stats, fs) (id, entries) =
      (⟨stats.created, stats.skipped + 1, stats.daily, stats.errors⟩, fs) := by
  unfold syncStep
  dsimp only []
  rw [if_neg (by simp [he]), hdoc]
  dsimp only []
  rw [hgen]
  dsimp only []
  rw [if_neg (by simp)]

/-- A sync step on a creating generation continues into the daily-note
update; its resulting file system is that of `add_meeting_to_daily`. -/
theorem syncStep_create_snd (cfg : Config) (now : DT) (docs : List (Str × PyDoc))
    (stats : Stats) (fs : Fs) (id : Str) (entries : List Entry) (doc : PyDoc)
    (p : Str) (fs1 : Fs)
    (he : entries.isEmpty = false) (hdoc : assocFind docs id = some doc)
    (hgen : generate_transcript_file id doc entries cfg now fs = (p, true, fs1)) :
    (syncStep cfg now docs (stats, fs) (id, entries)).2 =
      (add_meeting_to_daily (get_meeting_date entries doc now)
        (doc.title.getD ("Untitled Meeting".data))
        (orNotes doc.notes_markdown doc.notes_plain) p cfg fs1).2 := by
  unfold syncStep
  dsimp only []
  rw [if_neg (by simp [he]), hdoc]
  dsimp only []
  rw [hgen]
  dsimp only []
  rw [if_pos rfl]
  match hadd : add_meeting_to_daily (get_meeting_date entries doc now)
      (doc.title.getD ("Untitled Meeting".data))
      (orNotes doc.notes_markdown doc.notes_plain) p cfg fs1 with
  | (.ok true, fs2) => rfl
  | (.ok false, fs2) => rfl
  | (.error e, fs2) => rfl

/-- Readiness of every item survives the daily-note bookkeeping of one
creating step. -/
theorem skipReady_addMeeting (cfg : Config) (now : DT) (docs : List (Str × PyDoc))
    (item' : Str × List Entry) (mdt : DT) (title : Str) (notes : NoteV)
    (tpath : Str) (fs1 : Fs)
    (h : SkipReady cfg now docs fs1 item') :
    SkipReady cfg now docs (add_meeting_to_daily mdt title notes tpath cfg fs1).2
      item' := by
  obtain ⟨fsmid, hmid, hfin⟩ := add_meeting_fs_shape mdt title notes tpath cfg fs1
  have smid : SkipReady cfg now docs fsmid item' := by
    rcases hmid with rfl | rfl
    · exact h
    · exact skipReady_write cfg now docs fs1 item' _ _ h (Or.inr ⟨mdt, rfl⟩)
  rcases hfin with hf | ⟨v, hf⟩
  · rw [hf]
    exact smid
  · rw [hf]
    exact skipReady_write cfg now docs fsmid item' _ _ smid (Or.inr ⟨mdt, rfl⟩)

/-- One sync step preserves the readiness of every item. -/
theorem syncStep_preserves (cfg : Config) (now : DT) (docs : List (Str × PyDoc))
    (stats : Stats) (fs : Fs) (item item' : Str × List Entry)
    (hsr : SkipReady cfg now docs fs item') :
    SkipReady cfg now docs (syncStep cfg now docs (stats, fs) item).2 item' := by
  obtain ⟨id, entries⟩ := item
  by_cases he : entries.isEmpty = true
  · rw [syncStep_empty cfg now docs stats fs id entries he]
    exact hsr
  · have he' : entries.isEmpty = false := by
      cases h : entries.isEmpty
      · rfl
      · exact absurd h he
    match hdoc : assocFind docs id with
    | none =>
      rw [syncStep_nodoc cfg now docs stats fs id entries he' hdoc]
      exact hsr
    | some doc =>
      match hbase : fs (genBase cfg doc entries now) with
      | some existing =>
        by_cases hmk : hasSub (checkStr id) existing = true
        · rw [syncStep_skip cfg now docs stats fs id entries doc _ he' hdoc
            (gen_skip_base id doc entries cfg now fs existing hbase hmk)]
          exact hsr
        · have hmk' : hasSub (checkStr id) existing = false := by
            cases h : hasSub (checkStr id) existing
            · rfl
            · exact absurd h hmk
          match halt : fs (genAlt cfg doc entries now) with
          | some w =>
            rw [syncStep_skip cfg now docs stats fs id entries doc _ he' hdoc
              (gen_skip_alt id doc entries cfg now fs existing w hbase hmk' halt)]
            exact hsr
          | none =>
            rw [syncStep_create_snd cfg now docs stats fs id entries doc _ _ he' hdoc
              (gen_create_alt id doc entries cfg now fs existing hbase hmk' halt)]
            exact skipReady_addMeeting cfg now docs item' _ _ _ _ _
              (skipReady_write cfg now docs fs item' _ _ hsr (Or.inl halt))
      | none =>
        rw [syncStep_create_snd cfg now docs stats fs id entries doc _ _ he' hdoc
          (gen_create_base id doc entries cfg now fs hbase)]
        exact skipReady_addMeeting cfg now docs item' _ _ _ _ _
          (skipReady_write cfg now docs fs item' _ _ hsr (Or.inl hbase))

/-- One sync step on a plain-id item leaves that item ready. -/
theorem syncStep_establishes (cfg : Config) (now : DT) (docs : List (Str × PyDoc))
    (stats : Stats) (fs : Fs) (id : Str) (entries : List Entry)
    (hplain : plainId id = true) :
    SkipReady cfg now docs (syncStep cfg now docs (stats, fs) (id, entries)).2
      (id, entries) := by
  by_cases he : entries.isEmpty = true
  · rw [syncStep_empty cfg now docs stats fs id entries he]
    intro doc hne _
    rw [List.isEmpty_eq_true] at he
    exact absurd he hne
  · have he' : entries.isEmpty = false := by
      cases h : entries.isEmpty
      · rfl
      · exact absurd h he
    match hdoc : assocFind docs id with
    | none =>
      rw [syncStep_nodoc cfg now docs stats fs id entries he' hdoc]
      intro doc _ hdoc'
      rw [hdoc] at hdoc'
      exact absurd hdoc' (by simp)
    | some doc =>
      match hbase : fs (genBase cfg doc entries now) with
      | some existing =>
        by_cases hmk : hasSub (checkStr id) existing = true
        · rw [syncStep_skip cfg now docs stats fs id entries doc _ he' hdoc
            (gen_skip_base id doc entries cfg now fs existing hbase hmk)]
          intro doc' _ hdoc'
          rw [hdoc] at hdoc'
          injection hdoc' with hd'
          subst hd'
          exact ⟨existing, hbase, Or.inl hmk⟩
        · have hmk' : hasSub (checkStr id) existing = false := by
            cases h : hasSub (checkStr id) existing
            · rfl
            · exact absurd h hmk
          match halt : fs (genAlt cfg doc entries now) with
          | some w =>
            rw [syncStep_skip cfg now docs stats fs id entries doc _ he' hdoc
              (gen_skip_alt id doc entries cfg now fs existing w hbase hmk' halt)]
            intro doc' _ hdoc'
            rw [hdoc] at hdoc'
            injection hdoc' with hd'
            subst hd'
            refine ⟨existing, hbase, Or.inr ?_⟩
            show (fs (genAlt cfg doc entries now)).isSome = true
            rw [halt]
            rfl
          | none =>
            rw [syncStep_create_snd cfg now docs stats fs id entries doc _ _ he' hdoc
              (gen_create_alt id doc entries cfg now fs existing hbase hmk' halt)]
            apply skipReady_addMeeting
            intro doc' _ hdoc'
            rw [hdoc] at hdoc'
            injection hdoc' with hd'
            subst hd'
            refine ⟨existing, ?_, Or.inr ?_⟩
            · show fsWrite fs (genAlt cfg doc entries now)
                (genContentOf id doc entries now) (genBase cfg doc entries now) =
                some existing
              rw [fsWrite_other fs _ _ _
                (Ne.symm (genAlt_ne_genBase cfg doc doc entries entries now rfl rfl))]
              exact hbase
            · show (fsWrite fs (genAlt cfg doc entries now)
                (genContentOf id doc entries now) (genAlt cfg doc entries now)).isSome
                = true
              rw [fsWrite_self]
              rfl
      | none =>
        rw [syncStep_create_snd cfg now docs stats fs id entries doc _ _ he' hdoc
          (gen_create_base id doc entries cfg now fs hbase)]
        apply skipReady_addMeeting
        intro doc' _ hdoc'
        rw [hdoc] at hdoc'
        injection hdoc' with hd'
        subst hd'
        refine ⟨genContentOf id doc entries now, ?_, Or.inl ?_⟩
        · show fsWrite fs (genBase cfg doc entries now)
            (genContentOf id doc entries now) (genBase cfg doc entries now) =
            some (genContentOf id doc entries now)
          rw [fsWrite_self]
        · exact genContent_marker id doc entries _ _ hplain

/-- The whole sync fold preserves readiness. -/
theorem sync_fold_preserves (cfg : Config) (now : DT) (docs : List (Str × PyDoc)) :
    ∀ (trans : List (Str × List Entry)) (stats : Stats) (fs : Fs)
      (item' : Str × List Entry),
    SkipReady cfg now docs fs item' →
    SkipReady cfg now docs
      (List.foldl (syncStep cfg now docs) (stats, fs) trans).2 item' := by
  intro trans
  induction trans with
  | nil =>
    intro stats fs item' h
    exact h
  | cons it t ih =>
    intro stats fs item' h
    rw [List.foldl_cons]
    have hstep := syncStep_preserves cfg now docs stats fs it item' h
    have hrest := ih (syncStep cfg now docs (stats, fs) it).1
      (syncStep cfg now docs (stats, fs) it).2 item' hstep
    rw [Prod.mk.eta] at hrest
    exact hrest

/-- After one full sync run over plain-id items, every item is ready. -/
theorem sync_fold_ready (cfg : Config) (now : DT) (docs : List (Str × PyDoc)) :
    ∀ (trans : List (Str × List Entry)) (stats : Stats) (fs : Fs),
    (∀ item ∈ trans, plainId item.1 = true) →
    ∀ item ∈ trans, SkipReady cfg now docs
      (List.foldl (syncStep cfg now docs) (stats, fs) trans).2 item := by
  intro trans
  induction trans with
  | nil =>
    intro stats fs _ item h
    exact absurd h (by simp)
  | cons it t ih =>
    intro stats fs hplain item hmem
    rw [List.foldl_cons]
    rcases List.mem_cons.mp hmem with rfl | h1
    · obtain ⟨id, entries⟩ := item
      have hest := syncStep_establishes cfg now docs stats fs id entries
        (hplain (id, entries) (by simp))
      have hrest := sync_fold_preserves cfg now docs t
        (syncStep cfg now docs (stats, fs) (id, entries)).1
        (syncStep cfg now docs (stats, fs) (id, entries)).2 (id, entries) hest
      rw [Prod.mk.eta] at hrest
      exact hrest
    · have hrest := ih (syncStep cfg now docs (stats, fs) it).1
        (syncStep cfg now docs (stats, fs) it).2
        (fun x hx => hplain x (by simp [hx])) item h1
      rw [Prod.mk.eta] at hrest
      exact hrest

/-- A sync run over items that are all ready creates nothing and leaves the
file system untouched. -/
theorem sync_fold_noop (cfg : Config) (now : DT) (docs : List (Str × PyDoc)) :
    ∀ (trans : List (Str × List Entry)) (stats : Stats) (fs : Fs),
    (∀ item ∈ trans, SkipReady cfg now docs fs item) →
    ∃ stats', List.foldl (syncStep cfg now docs) (stats, fs) trans = (stats', fs) ∧
      stats'.created = stats.created := by
  intro trans
  induction trans with
  | nil =>
    intro stats fs _
    exact ⟨stats, rfl, rfl⟩
  | cons it t ih =>
    intro stats fs hall
    rw [List.foldl_cons]
    obtain ⟨id, entries⟩ := it
    have hstep : ∃ stats1 : Stats,
        syncStep cfg now docs (stats, fs) (id, entries) = (stats1, fs) ∧
        stats1.created = stats.created := by
      by_cases he : entries.isEmpty = true
      · exact ⟨stats, syncStep_empty cfg now docs stats fs id entries he, rfl⟩
      · have he' : entries.isEmpty = false := by
          cases h : entries.isEmpty
          · rfl
          · exact absurd h he
        match hdoc : assocFind docs id with
        | none => exact ⟨stats, syncStep_nodoc cfg now docs stats fs id entries he' hdoc, rfl⟩
        | some doc =>
          obtain ⟨c, hb, hdisj⟩ := hall (id, entries) (by simp) doc
            (by
              intro hcon
              have hcon' : entries = [] := hcon
              rw [hcon'] at he'
              exact absurd he' (by simp)) hdoc
          by_cases hmk : hasSub (checkStr id) c = true
          · exact ⟨_, syncStep_skip cfg now docs stats fs id entries doc _ he' hdoc
              (gen_skip_base id doc entries cfg now fs c hb hmk), rfl⟩
          · have hmk' : hasSub (checkStr id) c = false := by
              cases h : hasSub (checkStr id) c
              · rfl
              · exact absurd h hmk
            obtain ⟨w, hw⟩ : ∃ w, fs (genAlt cfg doc entries now) = some w := by
              rcases hdisj with h1 | h1
              · exact absurd h1 hmk
              · match hv : fs (genAlt cfg doc entries now) with
                | some w => exact ⟨w, rfl⟩
                | none => rw [hv] at h1; exact absurd h1 (by simp)
            exact ⟨_, syncStep_skip cfg now docs stats fs id entries doc _ he' hdoc
              (gen_skip_alt id doc entries cfg now fs c w hb hmk' hw), rfl⟩
    obtain ⟨stats1, hs1, hc1⟩ := hstep
    rw [hs1]
    obtain ⟨stats', hfold, hc'⟩ := ih stats1 fs (fun x hx => hall x (by simp [hx]))
    exact ⟨stats', hfold, by rw [hc', hc1]⟩

/-- Claim C1, counterexample: a source record whose id contains a colon
(`"a:b"`) defeats the substring identity check — the file written on run 1
carries the quoted line `granola_id: "a:b"`, run 2 finds no unquoted marker
and creates a second, time-suffixed transcript file: the second run's
`transcripts_created` is not 0 and the file set changes. -/
theorem claim_C1_counterexample :
    (sync_transcripts ⟨("/v".data), ("t".data), ("d".data)⟩
      ⟨2026, 3, 1, 12, 0, 0, 0, none⟩
      [(("a:b".data),
        ⟨some ("T".data), some ("2026-01-15T10:00:00Z".data), none, none, none, .pother⟩)]
      [(("a:b".data),
        [⟨.s ("hello world".data), some ("2026-01-15T10:00:00Z".data),
          some ("2026-01-15T10:05:00Z".data)⟩])]
      (sync_transcripts ⟨("/v".data), ("t".data), ("d".data)⟩
        ⟨2026, 3, 1, 12, 0, 0, 0, none⟩
        [(("a:b".data),
          ⟨some ("T".data), some ("2026-01-15T10:00:00Z".data), none, none, none, .pother⟩)]
        [(("a:b".data),
          [⟨.s ("hello world".data), some ("2026-01-15T10:00:00Z".data),
            some ("2026-01-15T10:05:00Z".data)⟩])]
        (fun _ => none)).2).1.created ≠ 0 := by
  decide

/-- Claim C1 (amended): for every configuration, clock, cache snapshot and
starting vault in which every transcript id is free of colons and double
quotes (so the identity line is written unquoted), running the full sync a
second time on the unchanged snapshot creates zero transcript documents and
returns the identical file system. For an id containing `":"` or `"\""` the
frontmatter writer quotes the identity line while the reader searches for
the unquoted form, and the second run creates a duplicate file. -/
theorem claim_C1_amended (cfg : Config) (now : DT) (docs : List (Str × PyDoc))
    (trans : List (Str × List Entry)) (fs0 : Fs)
    (hplain : ∀ item ∈ trans, plainId item.1 = true) :
    (sync_transcripts cfg now docs trans
      (sync_transcripts cfg now docs trans fs0).2).1.created = 0 ∧
    (sync_transcripts cfg now docs trans
      (sync_transcripts cfg now docs trans fs0).2).2 =
      (sync_transcripts cfg now docs trans fs0).2 := by
  have hready := sync_fold_ready cfg now docs trans ⟨0, 0, 0, 0⟩ fs0 hplain
  unfold sync_transcripts
  obtain ⟨stats', heq, hc⟩ := sync_fold_noop cfg now docs trans ⟨0, 0, 0, 0⟩
    (List.foldl (syncStep cfg now docs) ((⟨0, 0, 0, 0⟩ : Stats), fs0) trans).2 hready
  rw [heq]
  exact ⟨hc, rfl⟩

/-- Claim C1, witness: a one-record snapshot with the ordinary id `doc1` —
the second sync run creates nothing and the file system is unchanged. -/
theorem claim_C1_witness :
    (∀ item ∈ ([(("doc1".data),
        [⟨.s ("hello world".data), some ("2026-01-15T10:00:00Z".data),
          some ("2026-01-15T10:05:00Z".data)⟩])] : List (Str × List Entry)),
      plainId item.1 = true) ∧
    ((sync_transcripts ⟨("/v".data), ("t".data), ("d".data)⟩
        ⟨2026, 3, 1, 12, 0, 0, 0, none⟩
        [(("doc1".data),
          ⟨some ("T".data), some ("2026-01-15T10:00:00Z".data), none, none, none,
            .pother⟩)]
        [(("doc1".data),
          [⟨.s ("hello world".data), some ("2026-01-15T10:00:00Z".data),
            some ("2026-01-15T10:05:00Z".data)⟩])]
        (sync_transcripts ⟨("/v".data), ("t".data), ("d".data)⟩
          ⟨2026, 3, 1, 12, 0, 0, 0, none⟩
          [(("doc1".data),
            ⟨some ("T".data), some ("2026-01-15T10:00:00Z".data), none, none, none,
              .pother⟩)]
          [(("doc1".data),
            [⟨.s ("hello world".data), some ("2026-01-15T10:00:00Z".data),
              some ("2026-01-15T10:05:00Z".data)⟩])]
          (fun _ => none)).2).1.created = 0 ∧
     (sync_transcripts ⟨("/v".data), ("t".data), ("d".data)⟩
        ⟨2026, 3, 1, 12, 0, 0, 0, none⟩
        [(("doc1".data),
          ⟨some ("T".data), some ("2026-01-15T10:00:00Z".data), none, none, none,
            .pother⟩)]
        [(("doc1".data),
          [⟨.s ("hello world".data), some ("2026-01-15T10:00:00Z".data),
            some ("2026-01-15T10:05:00Z".data)⟩])]
        (sync_transcripts ⟨("/v".data), ("t".data), ("d".data)⟩
          ⟨2026, 3, 1, 12, 0, 0, 0, none⟩
          [(("doc1".data),
            ⟨some ("T".data), some ("2026-01-15T10:00:00Z".data), none, none, none,
              .pother⟩)]
          [(("doc1".data),
            [⟨.s ("hello world".data), some ("2026-01-15T10:00:00Z".data),
              some ("2026-01-15T10:05:00Z".data)⟩])]
          (fun _ => none)).2).2 =
      (sync_transcripts ⟨("/v".data), ("t".data), ("d".data)⟩
        ⟨2026, 3, 1, 12, 0, 0, 0, none⟩
        [(("doc1".data),
          ⟨some ("T".data), some ("2026-01-15T10:00:00Z".data), none, none, none,
            .pother⟩)]
        [(("doc1".data),
          [⟨.s ("hello world".data), some ("2026-01-15T10:00:00Z".data),
            some ("2026-01-15T10:05:00Z".data)⟩])]
        (fun _ => none)).2) :=
  ⟨by decide, claim_C1_amended _ _ _ _ _ (by decide)⟩

end Granola
